import Mathlib

/-!
# CTest harness (ctest.c) and its test support code

Shallow embedding of the string, pattern-matcher and file utilities of
`src/Homework1/ctest.c` and of `test_support_trim` from
`src/Homework1/test_hw1_wvuep.c`.

Conventions of the embedding:

* a C string (`const char*` that is not NULL) is the list of its bytes before
  the terminating NUL, each byte a natural number; a pointer that may be NULL is
  an `Option`;
* a heap block is the list of its bytes, and an access outside the block is
  undefined behaviour, reported as `Outcome.fault`;
* a function that can terminate the process or run into undefined behaviour
  returns an `Outcome`.
-/

namespace CTest

/-! ## Outcomes of a C call -/

/-- Outcome of running a C function: it returns a value to its caller, it ends
the process through `exit(status)`, it runs into undefined behaviour (a NULL
dereference or an access outside a buffer), or the loop bound of the model ran
out before the loop ended. -/
inductive Outcome (α : Type) where
  | ret (a : α)
  | exit (status : Nat)
  | fault
  | diverge
  deriving DecidableEq, Repr

/-- Sequencing of outcomes: only a returned value is passed on. -/
def Outcome.bind {α β : Type} (x : Outcome α) (f : α → Outcome β) : Outcome β :=
  match x with
  | Outcome.ret a => f a
  | Outcome.exit n => Outcome.exit n
  | Outcome.fault => Outcome.fault
  | Outcome.diverge => Outcome.diverge

instance : Monad Outcome where
  pure := Outcome.ret
  bind := Outcome.bind

/-- An access that may fail (`none`) is undefined behaviour when it does. -/
def Outcome.ofOption {α : Type} (x : Option α) : Outcome α :=
  match x with
  | some a => Outcome.ret a
  | none => Outcome.fault

/-- The value of `EXIT_FAILURE` in `<stdlib.h>`. -/
def EXIT_FAILURE : Nat := 1

/-! ## Bytes, strings and buffers -/

/-- A C string: the bytes before the terminating NUL. -/
abbrev CStr := List Nat

/-- The bytes of a string literal. -/
def cstr (s : String) : CStr := s.toList.map Char.toNat

/-- Well-formedness of a C string: no byte of it is the NUL terminator. -/
def NulFree (s : CStr) : Prop := ∀ b ∈ s, b ≠ 0

instance (s : CStr) : Decidable (NulFree s) := by
  unfold NulFree
  infer_instance

/-- The function `isspace` of `<ctype.h>` in the C locale: space, `\t`, `\n`,
`\v`, `\f`, `\r`. -/
def isspace (c : Nat) : Bool := c == 32 || (9 ≤ c && c ≤ 13)

/-- The function `ispunct` of `<ctype.h>` in the C locale: the printable ASCII
characters that are neither alphanumeric nor the space. -/
def ispunct (c : Nat) : Bool :=
  (33 ≤ c && c ≤ 47) || (58 ≤ c && c ≤ 64) || (91 ≤ c && c ≤ 96) || (123 ≤ c && c ≤ 126)

/-- The function `tolower` of `<ctype.h>` in the C locale. -/
def tolower (c : Nat) : Nat := if 65 ≤ c ∧ c ≤ 90 then c + 32 else c

/-- The allocator as the harness sees it: `malloc_ok n` tells whether a request
for `n` bytes succeeds. -/
structure Env where
  malloc_ok : Nat → Bool

/-- The function `malloc` as ctest.c overrides it (ctest.c:461): a block that
could be allocated is filled with the byte 0xFF; `none` is the NULL result. -/
def malloc (env : Env) (size : Nat) : Option (List Nat) :=
  if env.malloc_ok size then some (List.replicate size 255) else none

/-- Assignment `buf[i] = v`, defined only inside the block. -/
def store (buf : List Nat) (i v : Nat) : Option (List Nat) :=
  if i < buf.length then some (buf.set i v) else none

/-- Writing the bytes `bytes` at offset `off` of a block, defined only when
they all land inside the block. -/
def store_range (buf : List Nat) (off : Nat) (bytes : List Nat) : Option (List Nat) :=
  if off + bytes.length ≤ buf.length then
    some (buf.take off ++ bytes ++ buf.drop (off + bytes.length))
  else none

/-- The bytes that `strncpy(dest, src, n)` writes to `dest`: the first `n`
characters of `src`, padded with NUL up to `n` bytes when `src` is shorter. -/
def strncpy_bytes (src : CStr) (n : Nat) : List Nat :=
  src.take n ++ List.replicate (n - src.length) 0

/-- Reading a buffer as a C string: the bytes before the first NUL; undefined
when the buffer holds no NUL. -/
def c_str (buf : List Nat) : Option CStr :=
  if 0 ∈ buf then some (buf.takeWhile (fun b => b != 0)) else none

/-! ## Pattern matcher (ctest.c:52-88, 404-448) -/

/-- The regular-expression library `<regex.h>` that the matcher calls:
`regcomp(&regex, pattern, REG_EXTENDED)` gives a compiled expression or a
non-zero error code, `regexec(&regex, string, 0, NULL, 0)` gives 0 for a match,
`REG_NOMATCH` for none, and another code for an error. -/
structure RegexLib where
  regex_t : Type
  regcomp : CStr → Except Nat regex_t
  regexec : regex_t → CStr → Nat

/-- The value of `REG_NOMATCH` in `<regex.h>`. -/
def REG_NOMATCH : Nat := 1

/-- Embedding of `does_string_contain` (ctest.c:404). The diagnostics written
to standard error are not part of the result. -/
def does_string_contain (R : RegexLib) (pattern string : Option CStr) : Bool :=
  match pattern, string with
  | some p, some s =>
    match R.regcomp p with
    | Except.error _ => false
    | Except.ok regex =>
      let result := R.regexec regex s
      if result = 0 then true
      else if result = REG_NOMATCH then false
      else false
  | _, _ => false

/-- Embedding of `add_regex_anchors` (ctest.c:52); the result is the block it
allocated. `strlen(pattern)` on a NULL pattern is a NULL dereference. -/
def add_regex_anchors (env : Env) (pattern : Option CStr) : Outcome (List Nat) :=
  match pattern with
  | none => Outcome.fault
  | some p =>
    let pattern_length := p.length
    let anchored_pattern_length := pattern_length + 2
    match malloc env (anchored_pattern_length + 1) with
    | none => Outcome.exit EXIT_FAILURE
    | some anchored_pattern => do
      let b1 ← Outcome.ofOption (store anchored_pattern 0 94)
      let b2 ← Outcome.ofOption (store_range b1 1 (strncpy_bytes p pattern_length))
      let b3 ← Outcome.ofOption (store b2 (anchored_pattern_length - 1) 36)
      let b4 ← Outcome.ofOption (store b3 anchored_pattern_length 0)
      Outcome.ret b4

/-- Embedding of `are_equals_regex` (ctest.c:75). -/
def are_equals_regex (R : RegexLib) (env : Env) (pattern string : Option CStr) :
    Outcome Bool := do
  let anchored_pattern ← add_regex_anchors env pattern
  let a ← Outcome.ofOption (c_str anchored_pattern)
  Outcome.ret (does_string_contain R (some a) string)

/-! ## String utilities (ctest.c:135-299) -/

/-- Embedding of `duplicate_string` (ctest.c:282): NULL for a NULL argument or
when the `strlen(string) + 1` bytes cannot be allocated, else a copy made by
`strcpy`. -/
def duplicate_string (env : Env) (string : Option CStr) : Option CStr :=
  match string with
  | none => none
  | some s =>
    match malloc env (s.length + 1) with
    | none => none
    | some _ => some s

/-- The function `strstr` of `<string.h>`: offset of the first occurrence of
`needle` in `hay`, `none` for the NULL result. -/
def strstr (hay needle : CStr) : Option Nat :=
  match hay with
  | [] => if needle = [] then some 0 else none
  | c :: t =>
    if needle.isPrefixOf (c :: t) then some 0
    else (strstr t needle).map (fun i => i + 1)

/-- The function `memmove(buf + dst, buf + src, n)` inside one block, defined
only when both ranges lie inside the block. -/
def memmove (buf : List Nat) (dst src n : Nat) : Option (List Nat) :=
  if src + n ≤ buf.length then store_range buf dst ((buf.drop src).take n) else none

/-- The loop of `clean_newlines` (ctest.c:146-151) on the block holding the
duplicate; every iteration removes one byte of the string, `fuel` bounds the
number of iterations. -/
def clean_newlines_loop (fuel : Nat) (buf : List Nat) : Outcome (List Nat) :=
  match fuel with
  | 0 => Outcome.diverge
  | f + 1 =>
    match c_str buf with
    | none => Outcome.fault
    | some s =>
      match strstr s [13, 10] with
      | none => Outcome.ret buf
      | some off =>
        match memmove buf off (off + 1) (s.length - off + 1 + 1) with
        | none => Outcome.fault
        | some buf1 => clean_newlines_loop f buf1

/-- Embedding of `clean_newlines` (ctest.c:135). The duplicate lives in a block
of `strlen(input) + 1` bytes. -/
def clean_newlines (env : Env) (input : Option CStr) : Outcome (Option CStr) :=
  match duplicate_string env input with
  | none => Outcome.ret none
  | some s => do
    let buf ← clean_newlines_loop (s.length + 1) (s ++ [0])
    let r ← Outcome.ofOption (c_str buf)
    Outcome.ret (some r)

/-- The enumeration `text_matching` of ctest.h, which is not among the sources:
its six constants are parameters of the embedding. -/
structure TextMatching where
  IGNORE_CASE : Nat
  IGNORE_PUNCTUATION : Nat
  IGNORE_WHITESPACE : Nat
  IGNORE_LINE_BREAKS : Nat
  IGNORE_PERIODS : Nat
  FLEXIBLE : Nat

/-- The loop `while (end > cleaned && isspace(*end)) *end-- = 0` of
`clean_string` (ctest.c:171), on the offset of `end` in the string: the offset
at which the loop stops. The first character is never examined. -/
def strip_end (s : CStr) : Nat → Nat
  | 0 => 0
  | e + 1 => if isspace (s.getD (e + 1) 0) then strip_end s e else e + 1

/-- The string left by the trailing-whitespace loop of `clean_string`
(ctest.c:170-173). On the empty string `end` starts before `cleaned` and the
loop does not run. -/
def strip_trailing (s : CStr) : CStr :=
  if s = [] then [] else s.take (strip_end s (s.length - 1) + 1)

/-- The value of `INT_MAX` for the 32-bit `int` of the loop counter. -/
def INT_MAX : Nat := 2147483647

/-- The loop `for (int i = 0; cleaned[i]; i++) cleaned[i] = tolower(...)`
(ctest.c:185): the counter overflows on a string longer than `INT_MAX`. -/
def lower_case (cleaned : CStr) : Outcome CStr :=
  if cleaned.length > INT_MAX then Outcome.fault else Outcome.ret (cleaned.map tolower)

/-- The copy loop shared by the four removal rules of `clean_string`
(ctest.c:192-239): the characters for which `drop` holds are left out. -/
def remove_chars (drop : Nat → Bool) (cleaned : CStr) : Outcome CStr :=
  Outcome.ret (cleaned.filter (fun c => !drop c))

/-- One rule of `clean_string`: when its flag is set the rule runs on `cleaned`,
which it dereferences, so a NULL `cleaned` is undefined behaviour. -/
def apply_rule (enabled : Bool) (rule : CStr → Outcome CStr) (cleaned : Option CStr) :
    Outcome (Option CStr) :=
  if enabled then
    match cleaned with
    | none => Outcome.fault
    | some c => do
      let r ← rule c
      Outcome.ret (some r)
  else Outcome.ret cleaned

/-- The options of `clean_string` after the FLEXIBLE expansion (ctest.c:179). -/
def expand_flexible (F : TextMatching) (o : Nat) : Nat :=
  if o &&& F.FLEXIBLE ≠ 0 then
    o ||| (F.IGNORE_CASE ||| F.IGNORE_PUNCTUATION ||| F.IGNORE_WHITESPACE |||
      F.IGNORE_LINE_BREAKS ||| F.IGNORE_PERIODS ||| F.IGNORE_PUNCTUATION)
  else o

/-- The part of `clean_string` that runs whatever the options are
(ctest.c:168-176): duplicate, strip trailing whitespace, clean up newlines. A
failed duplication is dereferenced by `strlen`. -/
def clean_always (env : Env) (s : CStr) : Outcome (Option CStr) :=
  match duplicate_string env (some s) with
  | none => Outcome.fault
  | some cleaned => clean_newlines env (some (strip_trailing cleaned))

/-- The five rules of `clean_string` in the order of the source
(ctest.c:183-240), `o` being the options after the FLEXIBLE expansion. -/
def apply_rules (F : TextMatching) (o : Nat) (cleaned : Option CStr) :
    Outcome (Option CStr) := do
  let c1 ← apply_rule (o &&& F.IGNORE_CASE != 0) lower_case cleaned
  let c2 ← apply_rule (o &&& F.IGNORE_WHITESPACE != 0) (remove_chars isspace) c1
  let c3 ← apply_rule (o &&& F.IGNORE_LINE_BREAKS != 0) (remove_chars (fun c => c == 10)) c2
  let c4 ← apply_rule (o &&& F.IGNORE_PERIODS != 0) (remove_chars (fun c => c == 46)) c3
  apply_rule (o &&& F.IGNORE_PUNCTUATION != 0) (remove_chars ispunct) c4

/-- Embedding of `clean_string` (ctest.c:156). -/
def clean_string (F : TextMatching) (env : Env) (input : Option CStr)
    (text_matching_options : Nat) : Outcome (Option CStr) :=
  match input with
  | none => Outcome.ret none
  | some s =>
    let o := if text_matching_options = 0 then F.FLEXIBLE else text_matching_options
    do
      let cleaned ← clean_always env s
      apply_rules F (expand_flexible F o) cleaned

/-! ## Files (ctest.c:261-280, 384-402, 491-598) -/

/-- The file system as the harness sees it: the content of the file at each
path (`none` when there is none), and whether `fopen` may open the path for
reading and for writing. -/
structure FileSys where
  data : CStr → Option (List Nat)
  readable : CStr → Bool
  writable : CStr → Bool

/-- The call `fopen(path, "r")`: the bytes of the stream, `none` for the NULL
result (no file at the path, or no permission to read it). -/
def fopen_r (fs : FileSys) (path : CStr) : Option (List Nat) :=
  if fs.readable path then fs.data path else none

/-- The file system in which the file at `path` holds `bytes`. -/
def FileSys.put (fs : FileSys) (path : CStr) (bytes : List Nat) : FileSys :=
  ⟨fun q => if q = path then some bytes else fs.data q, fs.readable, fs.writable⟩

/-- The call `fopen(path, "w")`: the file is created or truncated; `none` for
the NULL result (no permission to write at the path). -/
def fopen_w (fs : FileSys) (path : CStr) : Option FileSys :=
  if fs.writable path then some (fs.put path []) else none

/-- The call `fputs(contents, filePtr)` followed by `fclose`, on a stream
opened on `path`: the characters are appended to the file. -/
def fputs (fs : FileSys) (path : CStr) (contents : CStr) : FileSys :=
  fs.put path ((fs.data path).getD [] ++ contents)

/-- Embedding of `does_file_exist` (ctest.c:261). -/
def does_file_exist (fs : FileSys) (path : CStr) : Bool :=
  match fopen_r fs path with
  | some _ => true
  | none => false

/-- Embedding of `get_file_size` (ctest.c:384). -/
def get_file_size (fs : FileSys) (path : CStr) : Nat :=
  match fopen_r fs path with
  | none => 0
  | some stream => stream.length

/-- Embedding of `read_file` (ctest.c:491). -/
def read_file (env : Env) (fs : FileSys) (path : Option CStr) : Outcome (Option CStr) :=
  match path with
  | none => Outcome.ret none
  | some p =>
    let file_size := get_file_size fs p
    match fopen_r fs p with
    | none => Outcome.ret none
    | some stream =>
      match malloc env (file_size + 1) with
      | none => Outcome.ret none
      | some buffer =>
        let bytes := stream.take file_size
        if bytes.length ≠ file_size then Outcome.ret none
        else do
          let b1 ← Outcome.ofOption (store_range buffer 0 bytes)
          let b2 ← Outcome.ofOption (store b1 file_size 0)
          let r ← Outcome.ofOption (c_str b2)
          Outcome.ret (some r)

/-- The second half of `write_file` (ctest.c:581-597): open for writing, write,
close, return the old contents. -/
def write_file_tail (fs : FileSys) (p : CStr) (contents old_contents : Option CStr) :
    Outcome (Option CStr × FileSys) :=
  match fopen_w fs p with
  | none => Outcome.exit EXIT_FAILURE
  | some fs1 =>
    match contents with
    | none => Outcome.fault
    | some c => Outcome.ret (old_contents, fputs fs1 p c)

/-- Embedding of `write_file` (ctest.c:557): the value returned and the file
system left behind. A NULL path or NULL contents reach `fopen` and `fputs`,
which dereference them. -/
def write_file (env : Env) (fs : FileSys) (path contents : Option CStr)
    (overwrite : Bool) : Outcome (Option CStr × FileSys) :=
  match path with
  | none => Outcome.fault
  | some p =>
    match fopen_r fs p with
    | some _ => do
      let old_contents ← read_file env fs (some p)
      if !overwrite then Outcome.ret (none, fs)
      else write_file_tail fs p contents old_contents
    | none => write_file_tail fs p contents none

/-! ## Trimming (test_hw1_wvuep.c:1500) -/

/-- The width of `size_t`: sizes are taken modulo `2^64`. -/
def SIZE_MOD : Nat := 2 ^ 64

/-- Subtraction on `size_t`, wrapping around below zero. -/
def size_sub (a b : Nat) : Nat := (a + SIZE_MOD - b % SIZE_MOD) % SIZE_MOD

/-- Addition on `size_t`. -/
def size_add (a b : Nat) : Nat := (a + b) % SIZE_MOD

/-- The read `string[i]`: defined on the characters and on the terminator. -/
def read_char (s : CStr) (i : Nat) : Option Nat :=
  if i < s.length then s.get? i else if i = s.length then some 0 else none

/-- The `n` bytes read at `&string[first]`, defined when they lie in the
string or on its terminator. -/
def read_range (s : CStr) (first n : Nat) : Option (List Nat) :=
  if first + n ≤ s.length + 1 then some (((s ++ [0]).drop first).take n) else none

/-- The first loop of `test_support_trim` (test_hw1_wvuep.c:1504): the value of
`first_nonspace` when it stops. -/
def trim_first (s : CStr) (fuel first_nonspace : Nat) : Outcome Nat :=
  match fuel with
  | 0 => Outcome.diverge
  | f + 1 =>
    if first_nonspace < s.length then
      match read_char s first_nonspace with
      | none => Outcome.fault
      | some c =>
        if isspace c then trim_first s f (size_add first_nonspace 1)
        else Outcome.ret first_nonspace
    else Outcome.ret first_nonspace

/-- The second loop of `test_support_trim` (test_hw1_wvuep.c:1527): the value
of `last_nonspace` when it stops. -/
def trim_last (s : CStr) (first_nonspace fuel last_nonspace : Nat) : Outcome Nat :=
  match fuel with
  | 0 => Outcome.diverge
  | f + 1 =>
    if last_nonspace ≥ first_nonspace then
      match read_char s last_nonspace with
      | none => Outcome.fault
      | some c =>
        if isspace c then trim_last s first_nonspace f (size_sub last_nonspace 1)
        else Outcome.ret last_nonspace
    else Outcome.ret last_nonspace

/-- Embedding of `test_support_trim` (test_hw1_wvuep.c:1500). Each loop gets
one iteration more than the string has characters. The characters handed to
`isspace` are taken as their byte values. -/
def test_support_trim (env : Env) (string : Option CStr) : Outcome (Option CStr) :=
  match string with
  | none => Outcome.fault
  | some s => do
    let first_nonspace ← trim_first s (s.length + 1) 0
    if first_nonspace = s.length then
      match malloc env 1 with
      | none => Outcome.ret none
      | some emptyPtr => do
        let b ← Outcome.ofOption (store emptyPtr 0 0)
        let r ← Outcome.ofOption (c_str b)
        Outcome.ret (some r)
    else do
      let last_nonspace ← trim_last s first_nonspace (s.length + 1) (size_sub s.length 1)
      let trimmed_length := size_add (size_sub last_nonspace first_nonspace) 1
      match malloc env (size_add trimmed_length 1) with
      | none => Outcome.ret none
      | some trimmedPtr => do
        let bytes ← Outcome.ofOption (read_range s first_nonspace trimmed_length)
        let b1 ← Outcome.ofOption (store_range trimmedPtr 0 bytes)
        let b2 ← Outcome.ofOption (store b1 trimmed_length 0)
        let r ← Outcome.ofOption (c_str b2)
        Outcome.ret (some r)

/-- What the specification says `trim` computes: the string without its
maximal leading run and its maximal trailing run of whitespace. -/
def trim_spec (s : CStr) : CStr :=
  ((s.dropWhile isspace).reverse.dropWhile isspace).reverse

/-! ## Reference model of the POSIX extended regular expressions of `<regex.h>`

The functions `regcomp` and `regexec` belong to the C library, not to the
harness. The model below follows POSIX.1 for extended regular expressions in
the C locale (every byte is one character), compiled with `REG_EXTENDED` alone
and executed without flags: `^` and `$` anchor at the two ends of the string,
and `.` and a negated bracket expression match the newline. -/

/-- Abstract syntax of a compiled expression. -/
inductive Ere where
  | empty
  | char (c : Nat)
  | any
  | bracket (negated : Bool) (ranges : List (Nat × Nat))
  | bol
  | eol
  | seq (a b : Ere)
  | alt (a b : Ere)
  | star (a : Ere)
  deriving DecidableEq, Repr

/-- Error code of `regcomp`: invalid collating element. -/
def REG_ECOLLATE : Nat := 3

/-- Error code of `regcomp`: invalid character class name. -/
def REG_ECTYPE : Nat := 4

/-- Error code of `regcomp`: trailing backslash. -/
def REG_EESCAPE : Nat := 5

/-- Error code of `regcomp`: unmatched `[`. -/
def REG_EBRACK : Nat := 7

/-- Error code of `regcomp`: unmatched `(`. -/
def REG_EPAREN : Nat := 8

/-- Error code of `regcomp`: unmatched `{`. -/
def REG_EBRACE : Nat := 9

/-- Error code of `regcomp`: invalid content of an interval. -/
def REG_BADBR : Nat := 10

/-- Error code of `regcomp`: invalid end of a range. -/
def REG_ERANGE : Nat := 11

/-- Error code of `regcomp`: out of memory; the model reports it when its
bound on the nesting of the pattern runs out. -/
def REG_ESPACE : Nat := 12

/-- Error code of `regcomp`: a repetition operator with nothing to repeat. -/
def REG_BADRPT : Nat := 13

/-- The largest repetition count of an interval expression. -/
def RE_DUP_MAX : Nat := 32767

/-- The expression `a` repeated exactly `k` times. -/
def Ere.times (a : Ere) : Nat → Ere
  | 0 => Ere.empty
  | k + 1 => Ere.seq a (Ere.times a k)

/-- The expression `a` repeated at most `k` times. -/
def Ere.upto (a : Ere) : Nat → Ere
  | 0 => Ere.empty
  | k + 1 => Ere.alt (Ere.seq a (Ere.upto a k)) Ere.empty

/-- The interval expression `a{m,n}`, and `a{m,}` when `n` is `none`. -/
def Ere.interval (a : Ere) (m : Nat) (n : Option Nat) : Ere :=
  match n with
  | none => Ere.seq (Ere.times a m) (Ere.star a)
  | some n => Ere.seq (Ere.times a m) (Ere.upto a (n - m))

/-- Decimal digit test. -/
def isdigit (c : Nat) : Bool := 48 ≤ c && c ≤ 57

/-- Value of a run of decimal digits. -/
def digits_value (ds : List Nat) : Nat := ds.foldl (fun v d => 10 * v + (d - 48)) 0

/-- The bounds of an interval, read after its opening brace: `m}`, `m,}`,
`m,n}` or `,n}`, with the input left after the closing brace. -/
def parse_interval (input : List Nat) : Except Nat (Nat × Option Nat × List Nat) :=
  let ds1 := input.takeWhile isdigit
  match input.dropWhile isdigit with
  | 125 :: r =>
    if ds1 = [] ∨ digits_value ds1 > RE_DUP_MAX then Except.error REG_BADBR
    else Except.ok (digits_value ds1, some (digits_value ds1), r)
  | 44 :: r1 =>
    let ds2 := r1.takeWhile isdigit
    match r1.dropWhile isdigit with
    | 125 :: r =>
      if digits_value ds1 > RE_DUP_MAX ∨ digits_value ds2 > RE_DUP_MAX then
        Except.error REG_BADBR
      else if ds2 = [] then Except.ok (digits_value ds1, none, r)
      else if digits_value ds2 < digits_value ds1 then Except.error REG_BADBR
      else Except.ok (digits_value ds1, some (digits_value ds2), r)
    | [] => Except.error REG_EBRACE
    | _ :: _ => Except.error REG_BADBR
  | [] => Except.error REG_EBRACE
  | _ :: _ => Except.error REG_BADBR

/-- The character classes of a bracket expression in the C locale. -/
def class_ranges (name : List Nat) : Option (List (Nat × Nat)) :=
  if name = cstr "alpha" then some [(65, 90), (97, 122)]
  else if name = cstr "digit" then some [(48, 57)]
  else if name = cstr "alnum" then some [(48, 57), (65, 90), (97, 122)]
  else if name = cstr "upper" then some [(65, 90)]
  else if name = cstr "lower" then some [(97, 122)]
  else if name = cstr "space" then some [(9, 13), (32, 32)]
  else if name = cstr "blank" then some [(9, 9), (32, 32)]
  else if name = cstr "punct" then some [(33, 47), (58, 64), (91, 96), (123, 126)]
  else if name = cstr "print" then some [(32, 126)]
  else if name = cstr "graph" then some [(33, 126)]
  else if name = cstr "cntrl" then some [(0, 31), (127, 127)]
  else if name = cstr "xdigit" then some [(48, 57), (65, 70), (97, 102)]
  else none

/-- The items of a bracket expression up to its closing bracket; `first` tells
that no item was read yet, where a `]` stands for itself. Collating symbols and
equivalence classes are not part of the model. -/
def parse_bracket_items (fuel : Nat) (first : Bool) (acc : List (Nat × Nat))
    (input : List Nat) : Except Nat (List (Nat × Nat) × List Nat) :=
  match fuel with
  | 0 => Except.error REG_ESPACE
  | f + 1 =>
    match input with
    | [] => Except.error REG_EBRACK
    | c :: r =>
      if c = 93 ∧ first = false then Except.ok (acc, r)
      else if c = 91 ∧ r.head? = some 58 then
        let name := r.tail.takeWhile (fun x => x != 58)
        match r.tail.dropWhile (fun x => x != 58) with
        | 58 :: 93 :: r2 =>
          match class_ranges name with
          | some rs => parse_bracket_items f false (acc ++ rs) r2
          | none => Except.error REG_ECTYPE
        | _ => Except.error REG_EBRACK
      else if c = 91 ∧ (r.head? = some 46 ∨ r.head? = some 61) then
        Except.error REG_ECOLLATE
      else
        match r with
        | 45 :: 93 :: r2 => Except.ok (acc ++ [(c, c), (45, 45)], r2)
        | 45 :: d :: r2 =>
          if d < c then Except.error REG_ERANGE
          else parse_bracket_items f false (acc ++ [(c, d)]) r2
        | _ => parse_bracket_items f false (acc ++ [(c, c)]) r

/-- A bracket expression, read after its opening bracket. -/
def parse_bracket (input : List Nat) : Except Nat (Ere × List Nat) :=
  match input with
  | 94 :: r =>
    match parse_bracket_items (r.length + 1) true [] r with
    | Except.ok (rs, rest) => Except.ok (Ere.bracket true rs, rest)
    | Except.error e => Except.error e
  | _ =>
    match parse_bracket_items (input.length + 1) true [] input with
    | Except.ok (rs, rest) => Except.ok (Ere.bracket false rs, rest)
    | Except.error e => Except.error e

/-- The repetition operators `*`, `+`, `?` and `{m,n}` that follow the
expression `a`. -/
def parse_dup (fuel : Nat) (a : Ere) (input : List Nat) : Except Nat (Ere × List Nat) :=
  match fuel with
  | 0 => Except.error REG_ESPACE
  | f + 1 =>
    match input with
    | [] => Except.ok (a, [])
    | c :: r =>
      if c = 42 then parse_dup f (Ere.star a) r
      else if c = 43 then parse_dup f (Ere.seq a (Ere.star a)) r
      else if c = 63 then parse_dup f (Ere.alt a Ere.empty) r
      else if c = 123 then
        match parse_interval r with
        | Except.ok (m, n, r1) => parse_dup f (Ere.interval a m n) r1
        | Except.error e => Except.error e
      else Except.ok (a, c :: r)

mutual

/-- An alternation of branches; `nest` counts the open groups. -/
def parse_reg_exp (fuel : Nat) (nest : Nat) (input : List Nat) :
    Except Nat (Ere × List Nat) :=
  match fuel with
  | 0 => Except.error REG_ESPACE
  | f + 1 =>
    match parse_branch f nest input with
    | Except.error e => Except.error e
    | Except.ok (a, r) =>
      match r with
      | 124 :: r1 =>
        match parse_reg_exp f nest r1 with
        | Except.error e => Except.error e
        | Except.ok (b, r2) => Except.ok (Ere.alt a b, r2)
      | _ => Except.ok (a, r)

/-- A branch: the concatenation of expressions up to `|`, the end of the
pattern, or the `)` that closes an open group. -/
def parse_branch (fuel : Nat) (nest : Nat) (input : List Nat) :
    Except Nat (Ere × List Nat) :=
  match fuel with
  | 0 => Except.error REG_ESPACE
  | f + 1 =>
    match input with
    | [] => Except.ok (Ere.empty, [])
    | c :: r =>
      if c = 124 ∨ (c = 41 ∧ 0 < nest) then Except.ok (Ere.empty, c :: r)
      else
        match parse_expression f nest (c :: r) with
        | Except.error e => Except.error e
        | Except.ok (a, r1) =>
          match parse_branch f nest r1 with
          | Except.error e => Except.error e
          | Except.ok (b, r2) => Except.ok (Ere.seq a b, r2)

/-- One expression with its repetition operators: a group, a bracket
expression, `.`, an anchor, an escaped character or an ordinary character. A
backslash makes the character after it ordinary. An anchor takes no repetition
operator, and a repetition operator with nothing to repeat is an error. A `)`
outside every group is an ordinary character. -/
def parse_expression (fuel : Nat) (nest : Nat) (input : List Nat) :
    Except Nat (Ere × List Nat) :=
  match fuel with
  | 0 => Except.error REG_ESPACE
  | f + 1 =>
    match input with
    | [] => Except.ok (Ere.empty, [])
    | c :: r =>
      if c = 40 then
        match parse_reg_exp f (nest + 1) r with
        | Except.error e => Except.error e
        | Except.ok (a, r1) =>
          match r1 with
          | 41 :: r2 => parse_dup f a r2
          | _ => Except.error REG_EPAREN
      else if c = 91 then
        match parse_bracket r with
        | Except.error e => Except.error e
        | Except.ok (a, r1) => parse_dup f a r1
      else if c = 46 then parse_dup f Ere.any r
      else if c = 94 then Except.ok (Ere.bol, r)
      else if c = 36 then Except.ok (Ere.eol, r)
      else if c = 42 ∨ c = 43 ∨ c = 63 ∨ c = 123 then Except.error REG_BADRPT
      else if c = 92 then
        match r with
        | [] => Except.error REG_EESCAPE
        | d :: r1 => parse_dup f (Ere.char d) r1
      else parse_dup f (Ere.char c) r

end

/-- Membership of a character in the ranges of a bracket expression. -/
def in_ranges (c : Nat) (ranges : List (Nat × Nat)) : Bool :=
  ranges.any (fun lh => lh.1 ≤ c && c ≤ lh.2)

/-- Iteration of a matcher `m` at most `n` times, every round consuming at
least one character, before the continuation `k` takes over. -/
def star_run (m : Bool → List Nat → (Bool → List Nat → Bool) → Bool) :
    Nat → Bool → List Nat → (Bool → List Nat → Bool) → Bool
  | 0, b, s, k => k b s
  | n + 1, b, s, k =>
    k b s || m b s (fun b1 s1 => decide (s1.length < s.length) && star_run m n b1 s1 k)

/-- Backtracking matcher: `run r b s k` tells whether `r` matches a prefix of
`s` such that `k` accepts the rest; `b` tells that `s` starts at the beginning
of the subject string. -/
def Ere.run : Ere → Bool → List Nat → (Bool → List Nat → Bool) → Bool
  | Ere.empty, b, s, k => k b s
  | Ere.char c, _, s, k =>
    match s with
    | x :: t => x == c && k false t
    | [] => false
  | Ere.any, _, s, k =>
    match s with
    | _ :: t => k false t
    | [] => false
  | Ere.bracket negated ranges, _, s, k =>
    match s with
    | x :: t => (in_ranges x ranges != negated) && k false t
    | [] => false
  | Ere.bol, b, s, k => b && k b s
  | Ere.eol, b, s, k => s.isEmpty && k b s
  | Ere.seq a c, b, s, k => Ere.run a b s (fun b1 s1 => Ere.run c b1 s1 k)
  | Ere.alt a c, b, s, k => Ere.run a b s k || Ere.run c b s k
  | Ere.star a, b, s, k => star_run (Ere.run a) s.length b s k

/-- Search of a match starting at any offset of the subject string. -/
def Ere.search (r : Ere) : Bool → List Nat → Bool
  | b, [] => Ere.run r b [] (fun _ _ => true)
  | b, c :: t => Ere.run r b (c :: t) (fun _ _ => true) || Ere.search r false t

/-- The model of `regcomp(&regex, pattern, REG_EXTENDED)`: the pattern has to
be consumed as a whole. -/
def ere_compile (pattern : CStr) : Except Nat Ere :=
  match parse_reg_exp (3 * pattern.length + 4) 0 pattern with
  | Except.error e => Except.error e
  | Except.ok (r, []) => Except.ok r
  | Except.ok (_, _ :: _) => Except.error REG_EPAREN

/-- The model of `regexec(&regex, string, 0, NULL, 0)`. -/
def ere_exec (r : Ere) (string : CStr) : Nat :=
  if Ere.search r true string then 0 else REG_NOMATCH

/-- The reference regular-expression library. -/
def posixERE : RegexLib := ⟨Ere, ere_compile, ere_exec⟩

/-! ## Sample data -/

/-- An allocator on which every request succeeds. -/
def env_ok : Env := ⟨fun _ => true⟩

/-- The expression compiled from the characters of `l` followed by `$`. -/
def lit (l : List Nat) : Ere :=
  match l with
  | [] => Ere.seq Ere.eol Ere.empty
  | c :: t => Ere.seq (Ere.char c) (lit t)

/-- A pointer that is NULL or points to a well-formed string. -/
def NulFreeOpt (o : Option CStr) : Prop := ∀ s, o = some s → NulFree s

/-- Sample constants in which FLEXIBLE is a flag of its own. -/
def flags_separate : TextMatching := ⟨2, 4, 8, 16, 32, 1⟩

/-- The constants of `text_matching` as the specification defines them:
FLEXIBLE is the union of the other five flags. -/
def TextMatching.IsUnion (G : TextMatching) : Prop :=
  G.FLEXIBLE = G.IGNORE_CASE ||| G.IGNORE_PUNCTUATION ||| G.IGNORE_WHITESPACE |||
    G.IGNORE_LINE_BREAKS ||| G.IGNORE_PERIODS

/-- Constants of `text_matching` in which the five rules are non-zero flags
that share no bit with each other, and FLEXIBLE shares no bit with any of
them. -/
def TextMatching.Separate (F : TextMatching) : Prop :=
  (F.IGNORE_CASE ≠ 0 ∧ F.IGNORE_WHITESPACE ≠ 0 ∧ F.IGNORE_LINE_BREAKS ≠ 0
    ∧ F.IGNORE_PERIODS ≠ 0 ∧ F.IGNORE_PUNCTUATION ≠ 0)
  ∧ (F.IGNORE_CASE &&& F.FLEXIBLE = 0 ∧ F.IGNORE_WHITESPACE &&& F.FLEXIBLE = 0
    ∧ F.IGNORE_LINE_BREAKS &&& F.FLEXIBLE = 0 ∧ F.IGNORE_PERIODS &&& F.FLEXIBLE = 0
    ∧ F.IGNORE_PUNCTUATION &&& F.FLEXIBLE = 0)
  ∧ (F.IGNORE_CASE &&& F.IGNORE_WHITESPACE = 0 ∧ F.IGNORE_CASE &&& F.IGNORE_LINE_BREAKS = 0
    ∧ F.IGNORE_CASE &&& F.IGNORE_PERIODS = 0 ∧ F.IGNORE_CASE &&& F.IGNORE_PUNCTUATION = 0
    ∧ F.IGNORE_WHITESPACE &&& F.IGNORE_LINE_BREAKS = 0
    ∧ F.IGNORE_WHITESPACE &&& F.IGNORE_PERIODS = 0
    ∧ F.IGNORE_WHITESPACE &&& F.IGNORE_PUNCTUATION = 0
    ∧ F.IGNORE_LINE_BREAKS &&& F.IGNORE_PERIODS = 0
    ∧ F.IGNORE_LINE_BREAKS &&& F.IGNORE_PUNCTUATION = 0
    ∧ F.IGNORE_PERIODS &&& F.IGNORE_PUNCTUATION = 0)

instance (G : TextMatching) : Decidable G.IsUnion := by
  unfold TextMatching.IsUnion
  infer_instance

instance (F : TextMatching) : Decidable F.Separate := by
  unfold TextMatching.Separate
  infer_instance

/-- Sample constants in which FLEXIBLE is the union of the five rule flags. -/
def flags_union : TextMatching := ⟨1, 2, 4, 8, 16, 31⟩

/-- Sample file system: the file `f` holds `old`, every path can be read and
written. -/
def fs_sample : FileSys :=
  ⟨fun q => if q = cstr "f" then some (cstr "old") else none, fun _ => true, fun _ => true⟩

/-- Sample file system: the file `f` holds `old` and may be written, but no
path may be opened for reading. -/
def fs_hidden : FileSys :=
  ⟨fun q => if q = cstr "f" then some (cstr "old") else none, fun _ => false, fun _ => true⟩

/-! ## Pointer validator (ctest.c:245-259, 731-838) -/

/-- An address; a pointer of the harness is an address. -/
abbrev Ptr := Nat

/-- The NULL pointer. -/
def NULL : Ptr := 0

/-- What the memory allows at an address. -/
inductive Perm where
  | unreadable
  | read_only
  | read_write
  deriving DecidableEq, Repr

/-- The handler of a signal as `sigaction` sees it. -/
inductive Handler where
  | SIG_DFL
  | SIG_IGN
  | function (id : Nat)
  deriving DecidableEq, Repr

/-- A `struct sigaction`: handler, mask (the signals it blocks) and flags. -/
structure Sigaction where
  sa_handler : Handler
  sa_mask : List Nat
  sa_flags : Nat
  deriving DecidableEq, Repr

/-- The state of the process that the pointer validator reads and writes: the
permission of every address, the action installed for SIGSEGV, and the size
the allocator reports for a block, `none` for a pointer that the allocator did
not return, on which asking for the size is undefined. -/
structure Process where
  perm : Ptr → Perm
  sigsegv : Sigaction
  usable_size : Ptr → Option Nat

/-- The function `sigsegv_handler` of ctest.c:737, which jumps back to the
saved context. -/
def sigsegv_handler : Handler := Handler.function 0

/-- The action that `is_pointer_valid` and `is_pointer_read_only` install
(ctest.c:764-767): `sigsegv_handler`, empty mask, no flags. -/
def validator_action : Sigaction := ⟨sigsegv_handler, [], 0⟩

/-- The call `sigaction(SIGSEGV, &sa, &old_sa)`: installs `sa` and gives the
action that was installed. -/
def sigaction (st : Process) (sa : Sigaction) : Sigaction × Process :=
  (st.sigsegv, ⟨st.perm, sa, st.usable_size⟩)

/-- The permission that an access through `ptr` meets; the page of the NULL
pointer is never mapped. -/
def access (st : Process) (ptr : Ptr) : Perm :=
  if ptr = NULL then Perm.unreadable else st.perm ptr

/-- What follows an access in the protected region after `sigsetjmp` returned
0: `completed` when the access went through, `jumped` when it raised SIGSEGV
and the installed `sigsegv_handler` jumped back (`sigsetjmp` returns 1),
`killed` when SIGSEGV met another action. -/
inductive Protected where
  | completed
  | jumped
  | killed
  deriving DecidableEq, Repr

/-- The outcome of an access that needs `allowed` to hold of the permission,
under the installed action. -/
def protected_access (st : Process) (ptr : Ptr) (allowed : Perm → Bool) : Protected :=
  if allowed (access st ptr) then Protected.completed
  else if st.sigsegv.sa_handler = sigsegv_handler then Protected.jumped
  else Protected.killed

/-- The value of SIGSEGV, with which a process ends that the signal kills. -/
def SIGSEGV : Nat := 11

/-- Embedding of `is_pointer_valid` (ctest.c:755): the answer and the state of
the process afterwards. The read is `*(volatile char*)ptr`. -/
def is_pointer_valid (st : Process) (ptr : Ptr) : Outcome (Bool × Process) :=
  if ptr = NULL then Outcome.ret (false, st)
  else
    let (old_sa, st1) := sigaction st validator_action
    match protected_access st1 ptr (fun p => p != Perm.unreadable) with
    | Protected.completed => Outcome.ret (true, (sigaction st1 old_sa).2)
    | Protected.jumped => Outcome.ret (false, (sigaction st1 old_sa).2)
    | Protected.killed => Outcome.exit (128 + SIGSEGV)

/-- Embedding of `is_pointer_null_or_valid` (ctest.c:743). -/
def is_pointer_null_or_valid (st : Process) (ptr : Ptr) : Outcome (Bool × Process) :=
  if ptr = NULL then Outcome.ret (true, st)
  else is_pointer_valid st ptr

/-- Embedding of `is_pointer_read_only` (ctest.c:802). The access is
`*(volatile char*)ptr = *(volatile char*)ptr`, a read followed by a write of
the value read, which leaves the memory as it was. -/
def is_pointer_read_only (st : Process) (ptr : Ptr) : Outcome (Bool × Process) :=
  let (old_sa, st1) := sigaction st validator_action
  match protected_access st1 ptr (fun p => p == Perm.read_write) with
  | Protected.completed => Outcome.ret (false, (sigaction st1 old_sa).2)
  | Protected.jumped => Outcome.ret (true, (sigaction st1 old_sa).2)
  | Protected.killed => Outcome.exit (128 + SIGSEGV)

/-- Embedding of `ctest_get_malloc_size` (ctest.c:245); `usable_size` stands
for `malloc_size` or `malloc_usable_size`, which is undefined on a readable
pointer that the allocator did not return. -/
def ctest_get_malloc_size (st : Process) (ptr : Ptr) : Outcome (Nat × Process) := do
  let (valid, st1) ← is_pointer_valid st ptr
  if !valid then Outcome.ret (0, st1)
  else do
    let size ← Outcome.ofOption (st1.usable_size ptr)
    Outcome.ret (size, st1)

/-- Sample process: addresses 1 to 9 are read-only, 10 and above writable,
the default action for SIGSEGV, a block of 16 bytes at the address 16. -/
def process_sample : Process :=
  ⟨fun p => if p < 10 then Perm.read_only else Perm.read_write, ⟨Handler.SIG_DFL, [], 0⟩,
    fun p => if p = 16 then some 16 else none⟩

/-! ## Reports and the other allocating functions (ctest.c:106-133, 333-382, 907-939) -/

/-- The two standard streams a report can go to. -/
inductive StdStream where
  | stdout
  | stderr
  deriving DecidableEq, Repr

/-- A message written by `printf` or `fprintf`: its stream and its format
string. -/
structure Report where
  stream : StdStream
  format : String
  deriving DecidableEq, Repr

/-- The report `fprintf(stderr, "Could not allocate memory: %s.\n", ...)`. -/
def alloc_report : Report := ⟨StdStream.stderr, "Could not allocate memory: %s.\n"⟩

/-- What `add_regex_anchors` (ctest.c:52) writes to the standard streams. -/
def add_regex_anchors_report (env : Env) (pattern : Option CStr) : List Report :=
  match pattern with
  | none => []
  | some p =>
    match malloc env (p.length + 2 + 1) with
    | none => [alloc_report]
    | some _ => []

/-- Embedding of `build_path` (ctest.c:106): `strcpy` of the directory and
`strcat` of the file name into a block of `strlen(directory) +
strlen(filename) + 1` bytes. -/
def build_path (env : Env) (directory filename : Option CStr) : Outcome (Option CStr) :=
  match directory with
  | none => Outcome.ret (duplicate_string env filename)
  | some d =>
    match filename with
    | none => Outcome.ret none
    | some f =>
      match malloc env (d.length + f.length + 1) with
      | none => Outcome.exit EXIT_FAILURE
      | some path => do
        let b1 ← Outcome.ofOption (store_range path 0 (d ++ [0]))
        let copied ← Outcome.ofOption (c_str b1)
        let b2 ← Outcome.ofOption (store_range b1 copied.length (f ++ [0]))
        let r ← Outcome.ofOption (c_str b2)
        Outcome.ret (some r)

/-- What `build_path` writes to the standard streams. -/
def build_path_report (env : Env) (directory filename : Option CStr) : List Report :=
  match directory, filename with
  | some d, some f =>
    match malloc env (d.length + f.length + 1) with
    | none => [alloc_report]
    | some _ => []
  | _, _ => []

/-- The function `strrchr` of `<string.h>`: offset of the last occurrence of
`c` in the string, `none` for the NULL result. -/
def strrchr (s : CStr) (c : Nat) : Option Nat :=
  match s with
  | [] => none
  | x :: t =>
    match strrchr t c with
    | some i => some (i + 1)
    | none => if x = c then some 0 else none

/-- Embedding of `get_directory` (ctest.c:333), in its branch for systems
other than Windows: the path up to its last slash, `./` without one. -/
def get_directory (env : Env) (path : Option CStr) : Outcome CStr :=
  match path with
  | none => Outcome.fault
  | some p =>
    match strrchr p 47 with
    | some last_slash =>
      let directoryLength := last_slash + 1
      match malloc env (directoryLength + 1) with
      | none => Outcome.exit 1
      | some directory => do
        let b1 ← Outcome.ofOption (store_range directory 0 (strncpy_bytes p directoryLength))
        let b2 ← Outcome.ofOption (store b1 directoryLength 0)
        Outcome.ofOption (c_str b2)
    | none =>
      match malloc env 3 with
      | none => Outcome.exit 1
      | some directory => do
        let b1 ← Outcome.ofOption (store_range directory 0 [46, 47, 0])
        Outcome.ofOption (c_str b1)

/-- What `get_directory` writes to the standard streams: its report goes
through `printf`. -/
def get_directory_report (env : Env) (path : Option CStr) : List Report :=
  match path with
  | none => []
  | some p =>
    let size :=
      match strrchr p 47 with
      | some last_slash => last_slash + 1 + 1
      | none => 3
    match malloc env size with
    | none => [⟨StdStream.stdout, "Could not malloc memory: %s.\n"⟩]
    | some _ => []

/-- What `get_file_size` (ctest.c:384) writes to the standard streams. -/
def get_file_size_report (fs : FileSys) (path : CStr) : List Report :=
  match fopen_r fs path with
  | none => [⟨StdStream.stderr, "File %s not found.\n"⟩]
  | some _ => []

/-- What `read_file` (ctest.c:491) writes to the standard streams, the report
of its call of `get_file_size` included. -/
def read_file_report (env : Env) (fs : FileSys) (path : Option CStr) : List Report :=
  match path with
  | none => [⟨StdStream.stderr, "Path is NULL.\n"⟩]
  | some p =>
    get_file_size_report fs p ++
      match fopen_r fs p with
      | none => [⟨StdStream.stderr, "File %s not found.\n"⟩]
      | some stream =>
        match malloc env (get_file_size fs p + 1) with
        | none => [alloc_report]
        | some _ =>
          if (stream.take (get_file_size fs p)).length ≠ get_file_size fs p then
            [⟨StdStream.stderr, "Error reading file: %s.\n"⟩]
          else []

/-- The function `isprint` of `<ctype.h>` in the C locale. -/
def isprint (c : Nat) : Bool := 32 ≤ c && c ≤ 126

/-- The conversion of a size to the 32-bit `int`. -/
def to_int32 (n : Nat) : Int := ((n + 2 ^ 31) % 2 ^ 32 : Nat) - 2 ^ 31

/-- The loop of `fix_string_null_termination` (ctest.c:932) on the block of
the copy; the argument is `position + 1`. -/
def fix_loop (buf : List Nat) : Nat → Option (List Nat)
  | 0 => some buf
  | k + 1 =>
    match buf.get? k with
    | none => none
    | some c =>
      if !isprint c then
        match store buf k 0 with
        | none => none
        | some b => fix_loop b k
      else some buf

/-- Embedding of `fix_string_null_termination` (ctest.c:907); `content` is
the string that a valid `string` points to. The result is the copy without its
trailing characters that are not printable. -/
def fix_string_null_termination (env : Env) (st : Process) (string : Ptr) (content : CStr) :
    Outcome (Option CStr × Process) := do
  let (valid, st1) ← is_pointer_valid st string
  if !valid then Outcome.ret (none, st1)
  else
    match malloc env (content.length + 1) with
    | none => Outcome.ret (none, st1)
    | some _ =>
      let fixed := strncpy_bytes content content.length ++ [0]
      if to_int32 content.length = -(2 ^ 31) then Outcome.fault
      else do
        let b ← Outcome.ofOption (fix_loop fixed (to_int32 content.length - 1 + 1).toNat)
        let r ← Outcome.ofOption (c_str b)
        Outcome.ret (some r, st1)

/-- An allocator on which every request fails. -/
def env_fail : Env := ⟨fun _ => false⟩

/-- Embedding of `does_file_contain` (ctest.c:301). -/
def does_file_contain (R : RegexLib) (env : Env) (fs : FileSys) (pattern path : Option CStr) :
    Outcome Bool := do
  let file_contentsPtr ← read_file env fs path
  Outcome.ret (does_string_contain R pattern file_contentsPtr)

/-- Sample file system without files, in which no path can be written. -/
def fs_locked : FileSys := ⟨fun _ => none, fun _ => true, fun _ => false⟩

/-! ## Sandboxed tests of prompt_target_enrollment (test_hw1_wvuep.c:773-1430) -/

/-- The five tests of `prompt_target_enrollment` that run the function in a
forked child: `test_2d_prompt_target_enrollment_prompt` (test_hw1_wvuep.c:773)
and the four tests that get the returned value through the shared slot
(test_hw1_wvuep.c:905, 1040, 1173, 1305). -/
inductive SandboxTest where
  | prompt
  | negative
  | zero
  | positive
  | nonnumeric
  deriving DecidableEq, Repr

/-- How the child of a test ends: a signal terminates it before its cleanup
(the SIGKILL of the parent, or a crash), the function under test ends the
process itself through `exit(code)` before the cleanup, or the child runs to
its end, cleans up and exits with 255 when the stand-in of the function ran
and with 0 otherwise. -/
inductive ChildFate where
  | signaled (sig : Nat)
  | exited (code : Nat)
  | completed (not_implemented : Bool)
  deriving DecidableEq, Repr

/-- The status that `waitpid` stores: the exit code in bits 8 to 15 for a
child that exited, the signal in the low seven bits for a child that a signal
terminated. -/
def wait_status : ChildFate → Nat
  | ChildFate.signaled sig => sig % 128
  | ChildFate.exited code => (code % 256) * 256
  | ChildFate.completed not_implemented => if not_implemented then 255 * 256 else 0

/-- The macro `WEXITSTATUS` of `<sys/wait.h>`. -/
def WEXITSTATUS (status : Nat) : Nat := (status / 256) % 256

/-- What the parent branch of a test does after `waitpid`. -/
inductive Verdict where
  | precondition_failed
  | open_failed
  | fork_failed
  | not_implemented
  | functional_failure
  | reads_result
  deriving DecidableEq, Repr

/-- The classification of the wait status in the parent branch of each test
(test_hw1_wvuep.c:851-858, 1020-1033, 1153-1166, 1285-1298, 1412-1425):
`reads_result` stands for going on to the output file or the shared slot. The
test of the prompt has no check of `status != 0`. -/
def parent_branch (t : SandboxTest) (status : Nat) : Verdict :=
  match t with
  | SandboxTest.prompt =>
    if WEXITSTATUS status = 255 then Verdict.not_implemented
    else Verdict.reads_result
  | SandboxTest.negative =>
    if WEXITSTATUS status = 255 then Verdict.not_implemented
    else if status ≠ 0 then Verdict.functional_failure
    else Verdict.reads_result
  | SandboxTest.zero =>
    if WEXITSTATUS status = 255 then Verdict.not_implemented
    else if status ≠ 0 then Verdict.functional_failure
    else Verdict.reads_result
  | SandboxTest.positive =>
    if WEXITSTATUS status = 255 then Verdict.not_implemented
    else if status ≠ 0 then Verdict.functional_failure
    else Verdict.reads_result
  | SandboxTest.nonnumeric =>
    if WEXITSTATUS status = 255 then Verdict.not_implemented
    else if status ≠ 0 then Verdict.functional_failure
    else Verdict.reads_result

/-- The resources of a test: whether its input and output temp files exist,
whether the test created the shared-memory segment, whether the test process
is still attached to it, and whether `shmctl(IPC_RMID)` was issued on it. -/
structure Resources where
  input_file : Bool
  output_file : Bool
  segment_created : Bool
  segment_attached : Bool
  segment_removed : Bool
  deriving DecidableEq, Repr

/-- No resource of the test is left: no temp file, and the segment, if one was
created, is detached and removed. -/
def Resources.released (r : Resources) : Bool :=
  !r.input_file && !r.output_file && !r.segment_attached
    && (!r.segment_created || r.segment_removed)

/-- What the environment decides in a run of a test: the flag
`not_implemented_prompt_target_enrollment` before the test, whether the input
file can be opened for writing, whether `fork` succeeds, and how the child
ends. -/
structure Scenario where
  flag_before : Bool
  input_open_ok : Bool
  fork_ok : Bool
  child : ChildFate
  deriving DecidableEq, Repr

/-- The state in which a test ends: what its parent branch did, the resources
left, and the flag `not_implemented_prompt_target_enrollment`. -/
structure TestRun where
  verdict : Verdict
  resources : Resources
  flag : Bool
  deriving DecidableEq, Repr

/-- The cleanup at the end of the child (test_hw1_wvuep.c:988-994): both files
unlinked, the segment detached in the child and removed. It runs only in a
child that gets to its end. -/
def child_cleanup (fate : ChildFate) (r : Resources) : Resources :=
  match fate with
  | ChildFate.completed _ =>
    ⟨false, false, r.segment_created, r.segment_attached, r.segment_created⟩
  | _ => r

/-- Embedding of `test_2d_prompt_target_enrollment_prompt`
(test_hw1_wvuep.c:773) up to the reading of the output file: the test has one
temp file and no segment. -/
def run_prompt_test (sc : Scenario) : TestRun :=
  if sc.flag_before then ⟨Verdict.precondition_failed, ⟨false, false, false, false, false⟩, true⟩
  else
    let r0 : Resources := ⟨false, true, false, false, false⟩
    if !sc.fork_ok then ⟨Verdict.fork_failed, r0, false⟩
    else
      let r1 := child_cleanup sc.child r0
      match parent_branch SandboxTest.prompt (wait_status sc.child) with
      | Verdict.not_implemented => ⟨Verdict.not_implemented, r1, true⟩
      | _ =>
        if r1.output_file then
          ⟨Verdict.reads_result, ⟨false, false, false, false, false⟩, false⟩
        else ⟨Verdict.open_failed, r1, false⟩

/-- Embedding of the four tests with a shared slot (test_hw1_wvuep.c:905,
1040, 1173, 1305) up to the reading of the slot. `unlinks` tells that the test
unlinks its files when `fork` fails: it holds of all but
`test_2d_prompt_target_enrollment_nonnumeric`. The parent branch removes no
file and neither detaches nor removes the segment. -/
def run_value_test (t : SandboxTest) (unlinks : Bool) (sc : Scenario) : TestRun :=
  if sc.flag_before then ⟨Verdict.precondition_failed, ⟨false, false, false, false, false⟩, true⟩
  else if !sc.input_open_ok then
    ⟨Verdict.open_failed, ⟨false, false, false, false, false⟩, false⟩
  else
    let r0 : Resources := ⟨true, true, true, true, false⟩
    if !sc.fork_ok then
      ⟨Verdict.fork_failed, if unlinks then ⟨false, false, true, true, false⟩ else r0, false⟩
    else
      let r1 := child_cleanup sc.child r0
      match parent_branch t (wait_status sc.child) with
      | Verdict.not_implemented => ⟨Verdict.not_implemented, r1, true⟩
      | v => ⟨v, r1, false⟩

/-- A run of one of the five tests. -/
def run_sandbox_test (t : SandboxTest) (sc : Scenario) : TestRun :=
  match t with
  | SandboxTest.prompt => run_prompt_test sc
  | SandboxTest.negative => run_value_test t true sc
  | SandboxTest.zero => run_value_test t true sc
  | SandboxTest.positive => run_value_test t true sc
  | SandboxTest.nonnumeric => run_value_test t false sc

/-- The value of SIGKILL. -/
def SIGKILL : Nat := 9

/-! ## Growth-rate description (hw1_wvuep.c:71-98) -/

/-- A value of the type `double`: not-a-number, an infinity, or a finite
number given by its exact value. -/
inductive Double where
  | nan
  | neg_inf
  | pos_inf
  | num (q : ℚ)
  deriving DecidableEq

/-- A rational number that a `double` can hold: an integer of less than 53
bits times a power of two that is at least `2^-1074`. -/
def Representable (q : ℚ) : Prop :=
  ∃ (m : ℤ) (n : ℕ), |m| < 2 ^ 53 ∧ q = m * 2 ^ n / 2 ^ 1074

/-- A well-formed value of the type `double`. -/
def Double.IsValue : Double → Prop
  | Double.num q => Representable q
  | _ => True

/-- The comparison `a < b` of two doubles. -/
def Double.lt : Double → Double → Bool
  | Double.num a, Double.num b => decide (a < b)
  | Double.neg_inf, Double.num _ => true
  | Double.neg_inf, Double.pos_inf => true
  | Double.num _, Double.pos_inf => true
  | _, _ => false

/-- The comparison `a >= b` of two doubles. -/
def Double.ge : Double → Double → Bool
  | Double.nan, _ => false
  | _, Double.nan => false
  | a, b => !Double.lt a b

/-- The double that the literal `0.01` denotes. -/
def lit_0_01 : Double := Double.num (5764607523034235 / 576460752303423488)

/-- The double that the literal `0.02` denotes. -/
def lit_0_02 : Double := Double.num (5764607523034235 / 288230376151711744)

/-- The double that the literal `0.04` denotes. -/
def lit_0_04 : Double := Double.num (5764607523034235 / 144115188075855872)

/-- Embedding of `get_growth_rate_description` (hw1_wvuep.c:71). -/
def get_growth_rate_description (growth_rate : Double) : CStr :=
  if growth_rate.lt (Double.num 0) then cstr "negative\n"
  else if growth_rate.ge (Double.num 0) && growth_rate.lt lit_0_01 then cstr "reasonable\n"
  else if growth_rate.ge lit_0_01 && growth_rate.lt lit_0_02 then cstr "ambitious\n"
  else if growth_rate.ge lit_0_02 && growth_rate.lt lit_0_04 then cstr "high\n"
  else cstr "unreasonable\n"

/-- The bracket of a rate as the specification draws them: 0 for `r < 0`, 1
for `[0, 0.01)`, 2 for `[0.01, 0.02)`, 3 for `[0.02, 0.04)` and 4 for
`[0.04, infinity)`, the bounds being the decimal numbers. -/
def bracket : Double → Option Nat
  | Double.nan => none
  | Double.neg_inf => some 0
  | Double.pos_inf => some 4
  | Double.num q =>
    if q < 0 then some 0
    else if q < 1 / 100 then some 1
    else if q < 1 / 50 then some 2
    else if q < 1 / 25 then some 3
    else some 4

/-- The label that the specification gives to a bracket. -/
def bracket_label (b : Nat) : CStr :=
  match b with
  | 0 => cstr "negative"
  | 1 => cstr "reasonable"
  | 2 => cstr "ambitious"
  | 3 => cstr "high"
  | _ => cstr "unreasonable"

/-! ## Closed forms of the normalizations (ctest.c:135-243) -/

/-- The replacement the specification describes for `clean_newlines`: one pass
over the string in which every CR that is immediately followed by LF is left
out, and every other character is kept. -/
def replace_crlf : CStr → CStr
  | [] => []
  | [c] => [c]
  | c :: d :: t => if c = 13 ∧ d = 10 then 10 :: replace_crlf t else c :: replace_crlf (d :: t)

/-- The closed form the specification gives for flexible matching: the
lower-cased characters of the string, those that are whitespace or punctuation
left out. -/
def flexible_form (s : CStr) : CStr :=
  (s.map tolower).filter (fun c => !isspace c && !ispunct c)

/-- Constants of `text_matching` in which FLEXIBLE and the five rules are
non-zero. -/
def TextMatching.NonZero (F : TextMatching) : Prop :=
  F.FLEXIBLE ≠ 0 ∧ F.IGNORE_CASE ≠ 0 ∧ F.IGNORE_WHITESPACE ≠ 0 ∧ F.IGNORE_LINE_BREAKS ≠ 0
    ∧ F.IGNORE_PERIODS ≠ 0 ∧ F.IGNORE_PUNCTUATION ≠ 0

instance (F : TextMatching) : Decidable F.NonZero := by
  unfold TextMatching.NonZero
  infer_instance

/-! ## Prompt for the enrollment target (hw1_wvuep.c:51-61) -/

/-- The standard streams of the process: the characters of standard input that
are not read yet, whether standard input is a terminal (a read at the end of
what was typed waits; on a file it meets the end of the file), and the text
written to standard output so far. -/
structure Console where
  stdin : List Nat
  terminal : Bool
  stdout : CStr
  deriving DecidableEq

/-- The value of `INT_MIN` for the 32-bit `int`. -/
def INT_MIN : Int := -2147483648

/-- A call of `printf`, `text` being the characters that the format and its
arguments produce: they go to standard output. -/
def printf (c : Console) (text : CStr) : Console :=
  { c with stdout := c.stdout ++ text }

/-- The conversion `%d` of `printf`: the decimal digits of a natural number,
most significant first; `fuel` bounds the number of digits. -/
def format_u (fuel n : Nat) (acc : List Nat) : List Nat :=
  match fuel with
  | 0 => acc
  | f + 1 => if n < 10 then (48 + n) :: acc else format_u f (n / 10) ((48 + n % 10) :: acc)

/-- The conversion `%d` of `printf` on an `int`. -/
def format_d (n : Int) : CStr :=
  if n < 0 then 45 :: format_u (n.natAbs + 1) n.natAbs [] else format_u (n.natAbs + 1) n.natAbs []

/-- Reference model of `scanf("%d", &x)` of `<stdio.h>`, with the value of `x`
after the call as its result: whitespace is skipped, then an optional sign and
the longest run of decimal digits are read. Without a digit the call fails and
leaves `x` as it was, the first character that does not fit staying unread; at
the end of a file it fails likewise; at the end of what was typed on a terminal
it waits for ever. A number that does not fit `int` is undefined behaviour. -/
def scanf_d (c : Console) (x : Int) : Console × Outcome Int :=
  match c.stdin.dropWhile isspace with
  | [] => ({ c with stdin := [] }, if c.terminal then Outcome.diverge else Outcome.ret x)
  | ch :: t =>
    let body := if ch == 45 || ch == 43 then t else ch :: t
    let ds := body.takeWhile isdigit
    let rest := body.dropWhile isdigit
    if c.terminal && rest == [] then ({ c with stdin := [] }, Outcome.diverge)
    else if ds == [] then ({ c with stdin := body }, Outcome.ret x)
    else
      let n : Int := if ch == 45 then - (digits_value ds : Int) else (digits_value ds : Int)
      ({ c with stdin := rest },
        if INT_MIN ≤ n ∧ n ≤ (INT_MAX : Int) then Outcome.ret n else Outcome.fault)

/-- Embedding of `prompt_target_enrollment` (hw1_wvuep.c:51): the prompt is
printed and `target_year` is read over, as long as it is negative. `fuel`
bounds the number of iterations. The result is the console as the call leaves
it, also when the call does not return, and the outcome. -/
def prompt_target_enrollment (fuel : Nat) (target_year : Int) (c : Console) :
    Console × Outcome Int :=
  match fuel with
  | 0 => (c, Outcome.diverge)
  | f + 1 =>
    let c1 := printf c (cstr "Enter the enrollment target for the year target_year: ")
    match scanf_d c1 target_year with
    | (c2, Outcome.ret y) =>
      if y < 0 then prompt_target_enrollment f y c2 else (c2, Outcome.ret y)
    | (c2, o) => (c2, o)

/-- The prompt that the tests expect for the year `y`
(test_hw1_wvuep.c:895): `"Enter the enrollment target for the year %d:"`. -/
def expected_prompt (y : Int) : CStr :=
  cstr "Enter the enrollment target for the year " ++ format_d y ++ cstr ":"

/-- The characters `fgets` stores from the unread text of a file when it may
store `k` of them: up to the first newline, which is stored too. -/
def fgets_take (k : Nat) (text : CStr) : CStr :=
  match k, text with
  | 0, _ => []
  | _, [] => []
  | k + 1, c :: t => if c = 10 then [10] else c :: fgets_take k t

/-- The function `fgets(buffer, n, file)` of `<stdio.h>` on the unread text of
a file: NULL at the end of the file, else at most `n - 1` characters. -/
def fgets (n : Nat) (text : CStr) : Option CStr :=
  if text = [] then none else some (fgets_take (n - 1) text)

/-- The text of the prompt in the source. -/
def prompt_text : CStr := cstr "Enter the enrollment target for the year target_year: "

/-! ## Arithmetic on doubles and the enrollment functions (hw1_wvuep.c:62-117) -/

/-- Rounding of a rational number to the nearest integer, a tie going to the
even one. -/
def round_half_even (q : ℚ) : ℤ :=
  if q - ⌊q⌋ < 1 / 2 then ⌊q⌋
  else if 1 / 2 < q - ⌊q⌋ then ⌊q⌋ + 1
  else if ⌊q⌋ % 2 = 0 then ⌊q⌋ else ⌊q⌋ + 1

/-- The exponent of the binary64 numbers around a rational `q`: the integer
`e` with `2^e <= |q| < 2^(e+1)`, and -1022 for the numbers below `2^-1022`. -/
def binade (q : ℚ) : ℤ := max (Int.log 2 |q|) (-1022)

/-- The binary64 number nearest to `q` when the exponent is not bounded above:
`q` rounded to a multiple of `2^(e-52)`, `e` its exponent. -/
def round_value (q : ℚ) : ℚ :=
  (round_half_even (q / 2 ^ (binade q - 52)) : ℚ) * 2 ^ (binade q - 52)

/-- Rounding of an exact result to `double` in the default rounding mode of
IEEE 754 (to nearest, ties to even): a result whose rounded value reaches
`2^1024` becomes an infinity. -/
def Double.round (q : ℚ) : Double :=
  if 2 ^ 1024 ≤ |round_value q| then (if 0 < q then Double.pos_inf else Double.neg_inf)
  else Double.num (round_value q)

/-- Conversion of an `int` to `double`. -/
def Double.of_int (n : Int) : Double := Double.round n

/-- The sum of two doubles. The two zeros of IEEE 754 are one value of the
model, so the sign of a zero result is not tracked. -/
def Double.add : Double → Double → Double
  | Double.num a, Double.num b => Double.round (a + b)
  | Double.nan, _ => Double.nan
  | _, Double.nan => Double.nan
  | Double.pos_inf, Double.neg_inf => Double.nan
  | Double.neg_inf, Double.pos_inf => Double.nan
  | Double.pos_inf, _ => Double.pos_inf
  | _, Double.pos_inf => Double.pos_inf
  | Double.neg_inf, _ => Double.neg_inf
  | _, Double.neg_inf => Double.neg_inf

/-- The difference of two doubles. -/
def Double.sub : Double → Double → Double
  | Double.num a, Double.num b => Double.round (a - b)
  | Double.nan, _ => Double.nan
  | _, Double.nan => Double.nan
  | Double.pos_inf, Double.pos_inf => Double.nan
  | Double.neg_inf, Double.neg_inf => Double.nan
  | Double.pos_inf, _ => Double.pos_inf
  | _, Double.pos_inf => Double.neg_inf
  | Double.neg_inf, _ => Double.neg_inf
  | _, Double.neg_inf => Double.pos_inf

/-- The sign of a double that is not a NaN: -1, 0 or 1. -/
def Double.sign : Double → Int
  | Double.num q => if q < 0 then -1 else if q = 0 then 0 else 1
  | Double.neg_inf => -1
  | _ => 1

/-- The infinity of a given sign; NaN for the sign 0. -/
def Double.inf_of_sign (s : Int) : Double :=
  if s < 0 then Double.neg_inf else if s = 0 then Double.nan else Double.pos_inf

/-- The product of two doubles: an infinity times zero is a NaN. -/
def Double.mul : Double → Double → Double
  | Double.num a, Double.num b => Double.round (a * b)
  | Double.nan, _ => Double.nan
  | _, Double.nan => Double.nan
  | a, b => Double.inf_of_sign (a.sign * b.sign)

/-- The quotient of two doubles: a number that is not zero divided by zero is
an infinity (of the sign of the dividend, the zero of the model being
positive), zero by zero and infinity by infinity are a NaN. -/
def Double.div : Double → Double → Double
  | Double.num a, Double.num b =>
    if b = 0 then Double.inf_of_sign (Double.num a).sign else Double.round (a / b)
  | Double.nan, _ => Double.nan
  | _, Double.nan => Double.nan
  | Double.num _, _ => Double.num 0
  | a, Double.num b => Double.inf_of_sign (a.sign * (if b < 0 then -1 else 1))
  | _, _ => Double.nan

/-- Rounding of a rational number to the nearest integer, a tie going away
from zero. -/
def round_half_away (q : ℚ) : ℤ := if 0 ≤ q then ⌊q + 1 / 2⌋ else -⌊-q + 1 / 2⌋

/-- The function `round` of `<math.h>`: the nearest integer value, ties away
from zero; infinities and NaN are returned as they are. -/
def Double.c_round : Double → Double
  | Double.num q => Double.num (round_half_away q)
  | x => x

/-- Conversion of a `double` to `int`: the fractional part is discarded; when
the integral part does not fit `int`, and on infinities and NaN, the behaviour
is undefined. -/
def Double.to_int : Double → Outcome Int
  | Double.num q =>
    let t : Int := if 0 ≤ q then ⌊q⌋ else ⌈q⌉
    if INT_MIN ≤ t ∧ t ≤ (INT_MAX : Int) then Outcome.ret t else Outcome.fault
  | _ => Outcome.fault

/-- The subtraction of two `int`: undefined behaviour when it overflows. -/
def int_sub (a b : Int) : Outcome Int :=
  if INT_MIN ≤ a - b ∧ a - b ≤ (INT_MAX : Int) then Outcome.ret (a - b) else Outcome.fault

/-- The functions of `<math.h>` whose results the C standard does not fix:
`pow` is a parameter of the embedding. -/
structure LibM where
  pow : Double → Double → Double

/-- What Annex F of the C standard fixes of `pow` and the homework relies on:
`pow(1, y)` is 1 for every `y` and `pow(x, 0)` is 1 for every `x`, NaN
included, and the result of `pow` is a `double`. -/
def LibM.AnnexF (M : LibM) : Prop :=
  (∀ y, M.pow (Double.num 1) y = Double.num 1) ∧ (∀ x, M.pow x (Double.num 0) = Double.num 1)
    ∧ ∀ x y, x.IsValue → y.IsValue → (M.pow x y).IsValue

/-- Embedding of `calculate_growth_rate` (hw1_wvuep.c:62). -/
def calculate_growth_rate (M : LibM)
    (initial_enrollment target_enrollment initial_year target_year : Int) : Outcome Double := do
  let years ← int_sub target_year initial_year
  Outcome.ret (Double.sub
    (M.pow (Double.div (Double.of_int target_enrollment) (Double.of_int initial_enrollment))
      (Double.div (Double.num 1) (Double.of_int years)))
    (Double.of_int 1))

/-- The conversion `%.1f` of `printf`: the decimal expansion of the exact value
rounded to one decimal, ties to even, with a minus sign for a negative value. -/
def format_f1 : Double → CStr
  | Double.nan => cstr "nan"
  | Double.pos_inf => cstr "inf"
  | Double.neg_inf => cstr "-inf"
  | Double.num q =>
    (if q < 0 then [45] else []) ++ format_d (round_half_even (|q| * 10) / 10) ++ [46]
      ++ format_d (round_half_even (|q| * 10) % 10)

/-- Embedding of `print_growth_rate` (hw1_wvuep.c:99). -/
def print_growth_rate (c : Console) (growth_rate : Double) : Console :=
  printf c (cstr "The required annual rate of growth, "
    ++ format_f1 (Double.mul growth_rate (Double.of_int 100)) ++ cstr "%, is "
    ++ get_growth_rate_description growth_rate ++ cstr "\n")

/-- Embedding of `calculate_enrollment_estimate` (hw1_wvuep.c:104). -/
def calculate_enrollment_estimate (M : LibM) (initial_enrollment : Int) (growth_rate : Double)
    (initial_year estimate_year : Int) : Outcome Int := do
  let years ← int_sub estimate_year initial_year
  (Double.c_round (Double.mul (Double.of_int initial_enrollment)
    (M.pow (Double.add (Double.of_int 1) growth_rate) (Double.of_int years)))).to_int

/-- The loop of `print_enrollment_estimates` (hw1_wvuep.c:112) from the year
`i` on; `fuel` bounds the number of iterations. The increment of `i` overflows
after the year `INT_MAX`. -/
def print_enrollment_estimates_loop (M : LibM) (initial_enrollment : Int) (growth_rate : Double)
    (initial_year end_year : Int) (fuel : Nat) (i : Int) (c : Console) :
    Console × Outcome Unit :=
  match fuel with
  | 0 => (c, Outcome.diverge)
  | f + 1 =>
    if i ≤ end_year then
      match calculate_enrollment_estimate M initial_enrollment growth_rate initial_year i with
      | Outcome.ret n =>
        let c1 := printf c (format_d i ++ cstr " enrollment estimate: " ++ format_d n
          ++ cstr "\n")
        if i + 1 ≤ (INT_MAX : Int) then
          print_enrollment_estimates_loop M initial_enrollment growth_rate initial_year end_year
            f (i + 1) c1
        else (c1, Outcome.fault)
      | Outcome.exit s => (c, Outcome.exit s)
      | Outcome.fault => (c, Outcome.fault)
      | Outcome.diverge => (c, Outcome.diverge)
    else (c, Outcome.ret ())

/-- Embedding of `print_enrollment_estimates` (hw1_wvuep.c:110). The loop gets
one iteration more than there are years from `initial_year` to `end_year`. -/
def print_enrollment_estimates (M : LibM) (initial_enrollment : Int) (growth_rate : Double)
    (initial_year end_year : Int) (c : Console) : Console × Outcome Unit :=
  print_enrollment_estimates_loop M initial_enrollment growth_rate initial_year end_year
    ((end_year - initial_year).toNat + 2) initial_year c

/-- The line that the specification gives for the year `y` with the estimate
`n`, with the newline that ends it. -/
def estimate_line (y n : Int) : CStr :=
  format_d y ++ cstr " enrollment estimate: " ++ format_d n ++ cstr "\n"

/-- The lines for `k` consecutive years from the year `i` on, in ascending
order, `est y` being the estimate for the year `y`. -/
def estimate_lines (est : Int → Int) (i : Int) : Nat → CStr
  | 0 => []
  | k + 1 => estimate_line i (est i) ++ estimate_lines est (i + 1) k

/-- The double that the literal `0.05` denotes. -/
def lit_0_05 : Double := Double.num (3602879701896397 / 72057594037927936)

/-- A sample `pow`: 1 for the exponent 0 and on the base 1, the correctly
rounded power for an exponent that is a natural number, and NaN elsewhere. -/
def pow_sample (x y : Double) : Double :=
  if y = Double.num 0 then Double.num 1
  else if x = Double.num 1 then Double.num 1
  else
    match x, y with
    | Double.num a, Double.num b =>
      if b.den = 1 ∧ 0 ≤ b.num then Double.round (a ^ b.num.toNat) else Double.nan
    | _, _ => Double.nan

/-- A sample of the mathematical library. -/
def libm_sample : LibM := ⟨pow_sample⟩

/-- The double that the literal `0.025` denotes. -/
def lit_0_025 : Double := Double.num (3602879701896397 / 144115188075855872)

/-- The double that the literal `0.1` denotes. -/
def lit_0_1 : Double := Double.num (3602879701896397 / 36028797018963968)

/-- The double that the literal `-0.02` denotes. -/
def lit_neg_0_02 : Double := Double.num (-(5764607523034235 / 288230376151711744))

/-! ## Normalization with accessible bytes after the duplicate (ctest.c:135-243) -/

/-- Embedding of `clean_newlines` (ctest.c:135) in a memory where the
`strlen(input) + 1` bytes of the duplicate are followed by the bytes `pad`
that the process may access (the part of the allocation beyond the request).
With no such byte this is `clean_newlines`. -/
def clean_newlines_in (pad : List Nat) (env : Env) (input : Option CStr) :
    Outcome (Option CStr) :=
  match duplicate_string env input with
  | none => Outcome.ret none
  | some s => do
    let buf ← clean_newlines_loop (s.length + 1) (s ++ 0 :: pad)
    let r ← Outcome.ofOption (c_str buf)
    Outcome.ret (some r)

/-- The part of `clean_string` that runs whatever the options are
(ctest.c:168-176), the duplicate made by `clean_newlines` being followed by the
accessible bytes `pad`. -/
def clean_always_in (pad : List Nat) (env : Env) (s : CStr) : Outcome (Option CStr) :=
  match duplicate_string env (some s) with
  | none => Outcome.fault
  | some cleaned => clean_newlines_in pad env (some (strip_trailing cleaned))

/-- Embedding of `clean_string` (ctest.c:156), the duplicate made by
`clean_newlines` being followed by the accessible bytes `pad`. With no such
byte this is `clean_string`. -/
def clean_string_in (pad : List Nat) (F : TextMatching) (env : Env) (input : Option CStr)
    (text_matching_options : Nat) : Outcome (Option CStr) :=
  match input with
  | none => Outcome.ret none
  | some s =>
    let o := if text_matching_options = 0 then F.FLEXIBLE else text_matching_options
    do
      let cleaned ← clean_always_in pad env s
      apply_rules F (expand_flexible F o) cleaned

/-! ## Exact compound growth, tolerances and a second sample `pow` -/

/-- The exact value of compound growth that the specification names: the
initial enrollment `e` times `(1 + g)^n`, `g` being the exact value of the
rate. -/
def compound_growth (e : Int) (g : ℚ) (n : Nat) : ℚ := e * (1 + g) ^ n

/-- The relative error of the double computation of compound growth over `n`
years: `n + 1` roundings of relative error `2^-53` (the sum `1 + g`, whose
error the power multiplies by `n`, and the product) and a `pow` of relative
error `eps`. -/
def estimate_tolerance (n : Nat) (eps : ℚ) : ℚ :=
  (1 + 1 / 9007199254740992) ^ (n + 1) * (1 + eps) - 1

/-- The double that the literal `0.005` denotes. -/
def lit_0_005 : Double := Double.num (5764607523034235 / 1152921504606846976)

/-- The bound on the relative error of the computed growth rate: the quotient and
the subtraction round once each, and `pow` has the relative error `eps`. -/
def growth_rate_tolerance (eps : ℚ) : ℚ :=
  (1 + 1 / 9007199254740992) ^ 2 * (1 + eps) - 1

/-- A second sample `pow`: three roots as a C library returns them, the cube root
of the double nearest to 1.331 (the double nearest to 1.1), the square root of the
double nearest to 0.9604 (the double nearest to 0.98) and the square root of 4,
and `pow_sample` elsewhere. -/
def pow_roots (x y : Double) : Double :=
  if x = Double.num (2997145552015065 / 2251799813685248)
      ∧ y = Double.num (6004799503160661 / 18014398509481984) then
    Double.num (2476979795053773 / 2251799813685248)
  else if x = Double.num (8650514164253249 / 9007199254740992) ∧ y = Double.num (1 / 2) then
    Double.num (2206763817411543 / 2251799813685248)
  else if x = Double.num 4 ∧ y = Double.num (1 / 2) then Double.num 2
  else pow_sample x y

/-- The mathematical library with the second sample `pow`. -/
def libm_roots : LibM := ⟨pow_roots⟩

/-! # Properties -/

/-! ## Outcomes and buffers -/

@[simp] theorem Outcome.ret_bind {α β : Type} (a : α) (f : α → Outcome β) :
    (Outcome.ret a >>= f) = f a := rfl

@[simp] theorem Outcome.fault_bind {α β : Type} (f : α → Outcome β) :
    ((Outcome.fault : Outcome α) >>= f) = Outcome.fault := rfl

@[simp] theorem Outcome.exit_bind {α β : Type} (n : Nat) (f : α → Outcome β) :
    ((Outcome.exit n : Outcome α) >>= f) = Outcome.exit n := rfl

@[simp] theorem Outcome.diverge_bind {α β : Type} (f : α → Outcome β) :
    ((Outcome.diverge : Outcome α) >>= f) = Outcome.diverge := rfl

@[simp] theorem Outcome.pure_eq {α : Type} (a : α) : (pure a : Outcome α) = Outcome.ret a := rfl

@[simp] theorem Outcome.bind_ret {α : Type} (x : Outcome α) :
    (x >>= fun a => Outcome.ret a) = x := by
  cases x <;> rfl

theorem Outcome.bind_eq_ret {α β : Type} {x : Outcome α} {f : α → Outcome β} {b : β}
    (h : (x >>= f) = Outcome.ret b) : ∃ a, x = Outcome.ret a ∧ f a = Outcome.ret b := by
  cases x with
  | ret a => exact ⟨a, rfl, h⟩
  | exit n => cases h
  | fault => cases h
  | diverge => cases h

@[simp] theorem Outcome.ofOption_some {α : Type} (a : α) :
    Outcome.ofOption (some a) = Outcome.ret a := rfl

@[simp] theorem Outcome.ofOption_none {α : Type} :
    Outcome.ofOption (none : Option α) = Outcome.fault := rfl

theorem takeWhile_ne_zero_append (s t : List Nat) (hs : NulFree s) :
    (s ++ 0 :: t).takeWhile (fun b => b != 0) = s := by
  induction s with
  | nil => simp
  | cons c s ih =>
    have hc : c ≠ 0 := hs c (List.mem_cons_self _ _)
    have hs1 : NulFree s := fun b hb => hs b (List.mem_cons_of_mem _ hb)
    rw [List.cons_append, List.takeWhile_cons]
    simp [hc, ih hs1]

theorem c_str_append_nul (s t : List Nat) (hs : NulFree s) :
    c_str (s ++ 0 :: t) = some s := by
  simp [c_str, takeWhile_ne_zero_append s t hs]

theorem add_regex_anchors_eq (env : Env) (p : CStr)
    (hm : env.malloc_ok (p.length + 3) = true) :
    add_regex_anchors env (some p) = Outcome.ret (94 :: p ++ [36, 0]) := by
  simp only [add_regex_anchors, malloc, hm, if_true]
  have h1 : store (List.replicate (p.length + 2 + 1) 255) 0 94
      = some (94 :: List.replicate (p.length + 2) 255) := by
    simp [store, List.replicate_succ]
  have h2 : store_range (94 :: List.replicate (p.length + 2) 255) 1 (strncpy_bytes p p.length)
      = some (94 :: p ++ [255, 255]) := by
    have hd : List.drop (1 + p.length) (94 :: List.replicate (p.length + 2) 255)
        = [255, 255] := by
      rw [Nat.add_comm 1, List.drop_succ_cons, List.drop_replicate]
      simp [List.replicate_succ]
    simp only [store_range, strncpy_bytes, List.take_length, Nat.sub_self, List.replicate_zero,
      List.append_nil, List.length_cons, List.length_replicate, hd]
    simp
    omega
  have h3 : store (94 :: (p ++ [255, 255])) (p.length + 1) 36
      = some (94 :: (p ++ [36, 255])) := by
    simp [store, List.set_append]
  have h4 : store (94 :: (p ++ [36, 255])) (p.length + 2) 0
      = some (94 :: (p ++ [36, 0])) := by
    simp [store, List.set_append]
  simp [h1, h2, h3, h4]

/-! ## Pattern matcher -/

theorem does_string_contain_null_text (R : RegexLib) (p : Option CStr) :
    does_string_contain R p none = false := by
  cases p <;> rfl

/-- C1 (the failing part): on a NULL pattern `are_equals_regex` does not return
false: `add_regex_anchors` takes `strlen` of the NULL pointer before
`does_string_contain` and its NULL guard are reached. The three other cases
of the claim hold: `does_string_contain` answers false on a NULL pattern and on
a NULL text, and `are_equals_regex` on a NULL text never answers true. -/
theorem are_equals_regex_null_pattern (R : RegexLib) (env : Env) (p : CStr)
    (s : Option CStr) :
    are_equals_regex R env none s = Outcome.fault
      ∧ does_string_contain R none s = false
      ∧ does_string_contain R (some p) none = false
      ∧ are_equals_regex R env (some p) none ≠ Outcome.ret true := by
  refine ⟨rfl, by cases s <;> rfl, rfl, ?_⟩
  intro h
  unfold are_equals_regex at h
  obtain ⟨buf, _, h⟩ := Outcome.bind_eq_ret h
  obtain ⟨a, _, h⟩ := Outcome.bind_eq_ret h
  rw [does_string_contain_null_text] at h
  cases h

theorem anchored_c_str (p : CStr) (hp : NulFree p) :
    c_str (94 :: p ++ [36, 0]) = some (94 :: p ++ [36]) := by
  have h : NulFree (94 :: p ++ [36]) := by
    intro b hb
    simp only [List.cons_append, List.mem_cons, List.mem_append, List.mem_singleton,
      List.not_mem_nil, or_false] at hb
    rcases hb with hb | hb | hb
    · omega
    · exact hp b hb
    · omega
  have e : (94 :: p ++ [36, 0]) = (94 :: p ++ [36]) ++ 0 :: [] := by simp
  rw [e]
  exact c_str_append_nul _ _ h

theorem are_equals_regex_eq (R : RegexLib) (env : Env) (p : CStr) (s : Option CStr)
    (hp : NulFree p) (hm : env.malloc_ok (p.length + 3) = true) :
    are_equals_regex R env (some p) s
      = Outcome.ret (does_string_contain R (some (94 :: p ++ [36])) s) := by
  simp only [are_equals_regex, add_regex_anchors_eq env p hm, Outcome.ret_bind,
    anchored_c_str p hp, Outcome.ofOption_some]

/-- C2: for a non-NULL pattern `p` (a C string, so free of NUL) whose anchored
copy can be allocated, `add_regex_anchors(p)` returns a block of
`strlen(p) + 3` bytes holding `^`, the characters of `p`, `$` and the
terminating NUL, which reads as the string `^p$` of length `strlen(p) + 2`, and
`are_equals_regex(p, s)` is `does_string_contain` of that string and `s`. -/
theorem are_equals_regex_anchors (R : RegexLib) (env : Env) (p : CStr) (s : Option CStr)
    (hp : NulFree p) (hm : env.malloc_ok (p.length + 3) = true) :
    add_regex_anchors env (some p) = Outcome.ret (94 :: p ++ [36, 0])
      ∧ (94 :: p ++ [36, 0]).length = p.length + 3
      ∧ c_str (94 :: p ++ [36, 0]) = some (94 :: p ++ [36])
      ∧ (94 :: p ++ [36]).length = p.length + 2
      ∧ are_equals_regex R env (some p) s
          = Outcome.ret (does_string_contain R (some (94 :: p ++ [36])) s) :=
  ⟨add_regex_anchors_eq env p hm, by simp, anchored_c_str p hp, by simp,
    are_equals_regex_eq R env p s hp hm⟩

/-- Witness of C2 at the pattern `abc` and the text `abc`. -/
theorem are_equals_regex_anchors_witness :
    (NulFree (cstr "abc") ∧ env_ok.malloc_ok ((cstr "abc").length + 3) = true)
      ∧ (add_regex_anchors env_ok (some (cstr "abc")) = Outcome.ret (94 :: cstr "abc" ++ [36, 0])
      ∧ (94 :: cstr "abc" ++ [36, 0]).length = (cstr "abc").length + 3
      ∧ c_str (94 :: cstr "abc" ++ [36, 0]) = some (94 :: cstr "abc" ++ [36])
      ∧ (94 :: cstr "abc" ++ [36]).length = (cstr "abc").length + 2
      ∧ are_equals_regex posixERE env_ok (some (cstr "abc")) (some (cstr "abc"))
          = Outcome.ret (does_string_contain posixERE (some (94 :: cstr "abc" ++ [36]))
              (some (cstr "abc")))) :=
  ⟨⟨by decide, by decide⟩,
    are_equals_regex_anchors posixERE env_ok (cstr "abc") (some (cstr "abc"))
      (by decide) (by decide)⟩

/-! ## Reference matcher on literal patterns -/

theorem not_special_of_not_punct {c : Nat} (h : ispunct c = false) :
    c ≠ 36 ∧ c ≠ 40 ∧ c ≠ 41 ∧ c ≠ 42 ∧ c ≠ 43 ∧ c ≠ 46 ∧ c ≠ 63 ∧ c ≠ 91 ∧ c ≠ 92
      ∧ c ≠ 94 ∧ c ≠ 123 ∧ c ≠ 124 := by
  simp only [ispunct, Bool.or_eq_false_iff, Bool.and_eq_false_iff, decide_eq_false_iff_not] at h
  omega

theorem parse_dup_stop (f : Nat) (a : Ere) (c : Nat) (r : List Nat)
    (h : c ≠ 42 ∧ c ≠ 43 ∧ c ≠ 63 ∧ c ≠ 123) :
    parse_dup (f + 1) a (c :: r) = Except.ok (a, c :: r) := by
  simp [parse_dup, h.1, h.2.1, h.2.2.1, h.2.2.2]

theorem parse_branch_nil (f nest : Nat) :
    parse_branch (f + 1) nest [] = Except.ok (Ere.empty, []) := by
  simp [parse_branch]

theorem parse_branch_step (f nest c : Nat) (r r1 r2 : List Nat) (a b : Ere)
    (h1 : c ≠ 124) (h2 : c ≠ 41)
    (he : parse_expression f nest (c :: r) = Except.ok (a, r1))
    (hb : parse_branch f nest r1 = Except.ok (b, r2)) :
    parse_branch (f + 1) nest (c :: r) = Except.ok (Ere.seq a b, r2) := by
  simp [parse_branch, h1, h2, he, hb]

theorem parse_expression_char (f nest c : Nat) (r : List Nat) (h : ispunct c = false) :
    parse_expression (f + 1) nest (c :: r) = parse_dup f (Ere.char c) r := by
  have hc := not_special_of_not_punct h
  simp [parse_expression, hc]

theorem parse_expression_bol (f nest : Nat) (r : List Nat) :
    parse_expression (f + 1) nest (94 :: r) = Except.ok (Ere.bol, r) := by
  simp [parse_expression]

theorem parse_expression_eol (f nest : Nat) (r : List Nat) :
    parse_expression (f + 1) nest (36 :: r) = Except.ok (Ere.eol, r) := by
  simp [parse_expression]

theorem parse_reg_exp_single (f nest : Nat) (input : List Nat) (a : Ere)
    (hb : parse_branch f nest input = Except.ok (a, [])) :
    parse_reg_exp (f + 1) nest input = Except.ok (a, []) := by
  simp [parse_reg_exp, hb]

theorem parse_branch_lit (l : List Nat) (hl : ∀ c ∈ l, ispunct c = false) :
    ∀ f, parse_branch (l.length + 3 + f) 0 (l ++ [36]) = Except.ok (lit l, []) := by
  induction l with
  | nil =>
    intro f
    have e : ([] : List Nat).length + 3 + f = (f + 2) + 1 := by simp; omega
    rw [e]
    exact parse_branch_step _ _ _ _ _ _ _ _ (by omega) (by omega)
      (parse_expression_eol (f + 1) 0 []) (parse_branch_nil (f + 1) 0)
  | cons c t ih =>
    intro f
    have hc := hl c (List.mem_cons_self _ _)
    have hcs := not_special_of_not_punct hc
    have ht : ∀ x ∈ t, ispunct x = false := fun x hx => hl x (List.mem_cons_of_mem _ hx)
    have e : (c :: t).length + 3 + f = (t.length + 3 + f) + 1 := by simp; omega
    have e2 : t.length + 3 + f = (t.length + 2 + f) + 1 := by omega
    have e3 : t.length + 2 + f = (t.length + 1 + f) + 1 := by omega
    have hd : parse_dup (t.length + 2 + f) (Ere.char c) (t ++ [36])
        = Except.ok (Ere.char c, t ++ [36]) := by
      rw [e3]
      cases t with
      | nil => exact parse_dup_stop _ _ 36 [] (by omega)
      | cons d t2 =>
        have hd2 := not_special_of_not_punct (hl d (by simp))
        exact parse_dup_stop _ _ d (t2 ++ [36]) (by omega)
    have he : parse_expression (t.length + 3 + f) 0 (c :: (t ++ [36]))
        = Except.ok (Ere.char c, t ++ [36]) := by
      rw [e2, parse_expression_char _ _ _ _ hc, hd]
    rw [e, List.cons_append]
    exact parse_branch_step _ _ _ _ _ _ _ _ (by omega) (by omega) he (ih ht f)

theorem ere_compile_anchored (l : List Nat) (hl : ∀ c ∈ l, ispunct c = false) :
    ere_compile (94 :: l ++ [36]) = Except.ok (Ere.seq Ere.bol (lit l)) := by
  have hb := parse_branch_lit l hl (2 * l.length + 5)
  have e : 3 * (94 :: (l ++ [36])).length + 4
      = (l.length + 3 + (2 * l.length + 5) + 1) + 1 := by
    simp; omega
  have h1 : parse_branch (l.length + 3 + (2 * l.length + 5) + 1) 0 (94 :: (l ++ [36]))
      = Except.ok (Ere.seq Ere.bol (lit l), []) :=
    parse_branch_step _ _ _ _ _ _ _ _ (by omega) (by omega) (parse_expression_bol _ 0 _) hb
  simp only [ere_compile, List.cons_append, e, parse_reg_exp_single _ _ _ _ h1]

theorem run_lit (l : List Nat) :
    ∀ (b : Bool) (s : List Nat), Ere.run (lit l) b s (fun _ _ => true) = decide (s = l) := by
  induction l with
  | nil =>
    intro b s
    cases s <;> simp [lit, Ere.run]
  | cons c t ih =>
    intro b s
    cases s with
    | nil => simp [lit, Ere.run]
    | cons x s2 =>
      simp only [lit, Ere.run, ih]
      by_cases hx : x = c <;> by_cases hs : s2 = t <;> simp [hx, hs]

theorem search_bol_false (r : Ere) (s : List Nat) :
    Ere.search (Ere.seq Ere.bol r) false s = false := by
  induction s with
  | nil => simp [Ere.search, Ere.run]
  | cons c t ih => simp [Ere.search, Ere.run, ih]

theorem search_anchored (l s : List Nat) :
    Ere.search (Ere.seq Ere.bol (lit l)) true s = decide (s = l) := by
  cases s with
  | nil => simp [Ere.search, Ere.run, run_lit]
  | cons c t => simp [Ere.search, Ere.run, run_lit, search_bol_false]

theorem does_string_contain_anchored (l s : List Nat) (hl : ∀ c ∈ l, ispunct c = false) :
    does_string_contain posixERE (some (94 :: l ++ [36])) (some s) = decide (s = l) := by
  simp only [does_string_contain, posixERE, ere_compile_anchored l hl, ere_exec,
    search_anchored]
  by_cases h : s = l <;> simp [h, REG_NOMATCH]

/-! ## Result of the default normalization -/

theorem and_or_self_right (a b : Nat) : (a ||| b) &&& b = b := by
  apply Nat.eq_of_testBit_eq
  intro i
  simp only [Nat.testBit_and, Nat.testBit_or]
  cases Nat.testBit a i <;> cases Nat.testBit b i <;> rfl

theorem and_or_or (a b c : Nat) (h : b &&& c = c) : (a ||| b) &&& c = c := by
  apply Nat.eq_of_testBit_eq
  intro i
  have hi := congrArg (fun n => Nat.testBit n i) h
  simp only [Nat.testBit_and, Nat.testBit_or] at hi ⊢
  revert hi
  cases Nat.testBit a i <;> cases Nat.testBit b i <;> cases Nat.testBit c i <;> simp

theorem c_str_nulFree {buf : List Nat} {r : CStr} (h : c_str buf = some r) : NulFree r := by
  unfold c_str at h
  split at h
  · cases h
    intro b hb
    have := List.mem_takeWhile_imp hb
    simpa using this
  · cases h

theorem clean_newlines_nulFree {env : Env} {i o : Option CStr}
    (h : clean_newlines env i = Outcome.ret o) : NulFreeOpt o := by
  unfold clean_newlines at h
  split at h
  · cases h
    intro s hs
    cases hs
  · obtain ⟨buf, _, h2⟩ := Outcome.bind_eq_ret h
    obtain ⟨r, hr, h3⟩ := Outcome.bind_eq_ret h2
    cases h3
    intro s hs
    cases hs
    cases hc : c_str buf with
    | none => rw [hc] at hr; cases hr
    | some r2 =>
      rw [hc] at hr
      cases hr
      exact c_str_nulFree hc

theorem clean_always_nulFree {env : Env} {x : CStr} {o : Option CStr}
    (h : clean_always env x = Outcome.ret o) : NulFreeOpt o := by
  unfold clean_always at h
  split at h
  · cases h
  · exact clean_newlines_nulFree h

theorem tolower_ne_zero {c : Nat} (h : c ≠ 0) : tolower c ≠ 0 := by
  unfold tolower
  split <;> omega

theorem apply_rule_nulFree {b : Bool} {rule : CStr → Outcome CStr} {o o2 : Option CStr}
    (hr : ∀ c r, NulFree c → rule c = Outcome.ret r → NulFree r)
    (ho : NulFreeOpt o) (h : apply_rule b rule o = Outcome.ret o2) : NulFreeOpt o2 := by
  unfold apply_rule at h
  split at h
  · split at h
    · cases h
    · rename_i c
      obtain ⟨r, h1, h2⟩ := Outcome.bind_eq_ret h
      cases h2
      intro s hs
      cases hs
      exact hr c _ (ho c rfl) h1
  · cases h
    exact ho

theorem lower_case_nulFree (c r : CStr) (hc : NulFree c) (h : lower_case c = Outcome.ret r) :
    NulFree r := by
  unfold lower_case at h
  split at h
  · cases h
  · cases h
    intro b hb
    obtain ⟨a, ha, rfl⟩ := List.mem_map.1 hb
    exact tolower_ne_zero (hc a ha)

theorem remove_chars_nulFree (p : Nat → Bool) (c r : CStr) (hc : NulFree c)
    (h : remove_chars p c = Outcome.ret r) : NulFree r := by
  unfold remove_chars at h
  cases h
  intro b hb
  exact hc b (List.mem_filter.1 hb).1

theorem apply_rule_remove {p : Nat → Bool} {o o2 : Option CStr}
    (h : apply_rule true (remove_chars p) o = Outcome.ret o2) :
    ∀ s, o2 = some s → ∀ c ∈ s, p c = false := by
  unfold apply_rule at h
  simp only [if_true] at h
  split at h
  · cases h
  · rename_i c
    simp only [remove_chars, Outcome.ret_bind] at h
    cases h
    intro s hs
    cases hs
    intro a ha
    simpa using (List.mem_filter.1 ha).2

theorem expand_flexible_default (F : TextMatching) (hF : F.FLEXIBLE ≠ 0) :
    expand_flexible F F.FLEXIBLE &&& F.IGNORE_PUNCTUATION = F.IGNORE_PUNCTUATION := by
  unfold expand_flexible
  rw [if_pos (by rw [Nat.and_self]; exact hF)]
  exact and_or_or _ _ _ (and_or_self_right _ _)

/-- The result of the default normalization is a well-formed string without
punctuation. -/
theorem clean_string_default_literal (F : TextMatching) (env : Env) (x n : CStr)
    (hF : F.FLEXIBLE ≠ 0) (hP : F.IGNORE_PUNCTUATION ≠ 0)
    (h : clean_string F env (some x) 0 = Outcome.ret (some n)) :
    NulFree n ∧ ∀ c ∈ n, ispunct c = false := by
  simp only [clean_string, if_true] at h
  obtain ⟨c0, h0, h⟩ := Outcome.bind_eq_ret h
  unfold apply_rules at h
  obtain ⟨c1, h1, h⟩ := Outcome.bind_eq_ret h
  obtain ⟨c2, h2, h⟩ := Outcome.bind_eq_ret h
  obtain ⟨c3, h3, h⟩ := Outcome.bind_eq_ret h
  obtain ⟨c4, h4, h⟩ := Outcome.bind_eq_ret h
  have n0 := clean_always_nulFree h0
  have n1 := apply_rule_nulFree lower_case_nulFree n0 h1
  have n2 := apply_rule_nulFree (remove_chars_nulFree _) n1 h2
  have n3 := apply_rule_nulFree (remove_chars_nulFree _) n2 h3
  have n4 := apply_rule_nulFree (remove_chars_nulFree _) n3 h4
  have n5 := apply_rule_nulFree (remove_chars_nulFree _) n4 h
  have hb : (expand_flexible F F.FLEXIBLE &&& F.IGNORE_PUNCTUATION != 0) = true := by
    rw [expand_flexible_default F hF]
    simpa using hP
  rw [hb] at h
  exact ⟨n5 n rfl, apply_rule_remove h n rfl⟩

/-! ## Anchoring -/

theorem are_equals_regex_literal (env : Env) (n t : CStr) (hn : NulFree n)
    (hl : ∀ c ∈ n, ispunct c = false) (hm : env.malloc_ok (n.length + 3) = true) :
    are_equals_regex posixERE env (some n) (some t) = Outcome.ret (decide (t = n)) := by
  rw [are_equals_regex_eq posixERE env n (some t) hn hm, does_string_contain_anchored n t hl]

/-- C3 as amended: anchoring holds on default-normalized strings. Let the
pattern `p0` and the text `s0` be exactly equal after default normalization,
`n` being the common result of `clean_string(., 0)` on them (the constants
FLEXIBLE and IGNORE_PUNCTUATION of ctest.h being non-zero flags). Then
`are_equals_regex(n, n)` is true, and for every character `c` both
`are_equals_regex(n, n followed by c)` and `are_equals_regex(n, c followed by
n)` are false. The matcher is the reference POSIX model and the anchored copy
of the pattern can be allocated. -/
theorem are_equals_regex_anchoring (F : TextMatching) (env : Env) (p0 s0 n : CStr)
    (hF : F.FLEXIBLE ≠ 0) (hP : F.IGNORE_PUNCTUATION ≠ 0)
    (hp : clean_string F env (some p0) 0 = Outcome.ret (some n))
    (_hs : clean_string F env (some s0) 0 = Outcome.ret (some n))
    (hm : env.malloc_ok (n.length + 3) = true) :
    are_equals_regex posixERE env (some n) (some n) = Outcome.ret true
      ∧ ∀ c : Nat, c ≠ 0 →
          are_equals_regex posixERE env (some n) (some (n ++ [c])) = Outcome.ret false
            ∧ are_equals_regex posixERE env (some n) (some (c :: n)) = Outcome.ret false := by
  obtain ⟨hn, hl⟩ := clean_string_default_literal F env p0 n hF hP hp
  refine ⟨?_, fun c _ => ⟨?_, ?_⟩⟩
  · rw [are_equals_regex_literal env n n hn hl hm]
    simp
  · rw [are_equals_regex_literal env n _ hn hl hm]
    simp
  · rw [are_equals_regex_literal env n _ hn hl hm]
    have h : c :: n ≠ n := fun e => by
      have := congrArg List.length e
      simp at this
    simp [h]

/-- Counterexample to C3: the pattern `a+` and the text `a+` are equal, before
and after default normalization (which gives `a` on both), and
`are_equals_regex("a+", "a+")` is false: the pattern is read as a regular
expression, in which `+` repeats the `a`. -/
theorem are_equals_regex_anchoring_counterexample :
    clean_string flags_separate env_ok (some (cstr "a+")) 0 = Outcome.ret (some (cstr "a"))
      ∧ are_equals_regex posixERE env_ok (some (cstr "a+")) (some (cstr "a+"))
        = Outcome.ret false := by
  decide

/-- Witness of C3 as amended: the pattern `Hello, World.` and the text `hello world`
both normalise to `helloworld`. -/
theorem are_equals_regex_anchoring_witness :
    (clean_string flags_separate env_ok (some (cstr "Hello, World.")) 0
        = Outcome.ret (some (cstr "helloworld"))
      ∧ clean_string flags_separate env_ok (some (cstr "hello world")) 0
        = Outcome.ret (some (cstr "helloworld")))
      ∧ (are_equals_regex posixERE env_ok (some (cstr "helloworld")) (some (cstr "helloworld"))
          = Outcome.ret true
        ∧ ∀ c : Nat, c ≠ 0 →
          are_equals_regex posixERE env_ok (some (cstr "helloworld"))
              (some (cstr "helloworld" ++ [c])) = Outcome.ret false
            ∧ are_equals_regex posixERE env_ok (some (cstr "helloworld"))
              (some (c :: cstr "helloworld")) = Outcome.ret false) :=
  ⟨⟨by decide, by decide⟩,
    are_equals_regex_anchoring flags_separate env_ok (cstr "Hello, World.") (cstr "hello world")
      (cstr "helloworld") (by decide) (by decide) (by decide) (by decide) (by decide)⟩

/-! ## Options of clean_string -/

/-- C4: a zero options value defaults to FLEXIBLE: for every input string `s`,
`clean_string(s, 0)` and `clean_string(s, FLEXIBLE)` have the same outcome. -/
theorem clean_string_zero_is_flexible (F : TextMatching) (env : Env) (s : CStr) :
    clean_string F env (some s) 0 = clean_string F env (some s) F.FLEXIBLE := by
  by_cases h : F.FLEXIBLE = 0
  · simp [clean_string, h]
  · simp [clean_string, h]

@[simp] theorem apply_rule_off (rule : CStr → Outcome CStr) (o : Option CStr) :
    apply_rule false rule o = Outcome.ret o := by
  simp [apply_rule]
theorem bne_zero_of_ne_zero {a : Nat} (h : a ≠ 0) : (a != 0) = true := by
  simpa using h

theorem expand_flexible_separate (F : TextMatching) (o : Nat) (h : o &&& F.FLEXIBLE = 0) :
    expand_flexible F o = o := by
  simp [expand_flexible, h]

theorem clean_string_nonzero (F : TextMatching) (env : Env) (s : CStr) (o : Nat) (h : o ≠ 0) :
    clean_string F env (some s) o
      = clean_always env s >>= apply_rules F (expand_flexible F o) := by
  simp [clean_string, h]

theorem clean_string_separate (F : TextMatching) (env : Env) (s : CStr) (hF : F.Separate) :
    clean_string F env (some s) F.IGNORE_CASE
        = clean_always env s >>= apply_rule true lower_case
      ∧ clean_string F env (some s) F.IGNORE_WHITESPACE
        = clean_always env s >>= apply_rule true (remove_chars isspace)
      ∧ clean_string F env (some s) F.IGNORE_LINE_BREAKS
        = clean_always env s >>= apply_rule true (remove_chars (fun c => c == 10))
      ∧ clean_string F env (some s) F.IGNORE_PERIODS
        = clean_always env s >>= apply_rule true (remove_chars (fun c => c == 46))
      ∧ clean_string F env (some s) F.IGNORE_PUNCTUATION
        = clean_always env s >>= apply_rule true (remove_chars ispunct) := by
  obtain ⟨⟨z1, z2, z3, z4, z5⟩, ⟨f1, f2, f3, f4, f5⟩,
    ⟨d12, d13, d14, d15, d23, d24, d25, d34, d35, d45⟩⟩ := hF
  have c21 := (Nat.land_comm _ _).trans d12
  have c31 := (Nat.land_comm _ _).trans d13
  have c41 := (Nat.land_comm _ _).trans d14
  have c51 := (Nat.land_comm _ _).trans d15
  have c32 := (Nat.land_comm _ _).trans d23
  have c42 := (Nat.land_comm _ _).trans d24
  have c52 := (Nat.land_comm _ _).trans d25
  have c43 := (Nat.land_comm _ _).trans d34
  have c53 := (Nat.land_comm _ _).trans d35
  have c54 := (Nat.land_comm _ _).trans d45
  refine ⟨?_, ?_, ?_, ?_, ?_⟩
  · rw [clean_string_nonzero F env s _ z1, expand_flexible_separate F _ f1]
    congr 1
    funext o
    simp [apply_rules, Nat.and_self, bne_zero_of_ne_zero z1, d12, d13, d14, d15]
  · rw [clean_string_nonzero F env s _ z2, expand_flexible_separate F _ f2]
    congr 1
    funext o
    simp [apply_rules, Nat.and_self, bne_zero_of_ne_zero z2, c21, d23, d24, d25]
  · rw [clean_string_nonzero F env s _ z3, expand_flexible_separate F _ f3]
    congr 1
    funext o
    simp [apply_rules, Nat.and_self, bne_zero_of_ne_zero z3, c31, c32, d34, d35]
  · rw [clean_string_nonzero F env s _ z4, expand_flexible_separate F _ f4]
    congr 1
    funext o
    simp [apply_rules, Nat.and_self, bne_zero_of_ne_zero z4, c41, c42, c43, d45]
  · rw [clean_string_nonzero F env s _ z5, expand_flexible_separate F _ f5]
    congr 1
    funext o
    simp [apply_rules, Nat.and_self, bne_zero_of_ne_zero z5, c51, c52, c53, c54]

theorem expand_flexible_union (G : TextMatching) (x : Nat) (hG : G.IsUnion)
    (hx : x &&& G.FLEXIBLE = x) :
    expand_flexible G (if x = 0 then G.FLEXIBLE else x) = expand_flexible G G.FLEXIBLE := by
  by_cases h0 : x = 0
  · simp [h0]
  · have hf : G.FLEXIBLE ≠ 0 := by
      intro hz
      rw [hz] at hx
      simp at hx
      exact h0 hx.symm
    simp only [h0, if_false, expand_flexible, hx, Nat.and_self, hf, ne_eq, not_false_eq_true,
      if_true]
    unfold TextMatching.IsUnion at hG
    apply Nat.eq_of_testBit_eq
    intro i
    have hxi := congrArg (fun n => Nat.testBit n i) hx
    have hGi := congrArg (fun n => Nat.testBit n i) hG
    simp only [Nat.testBit_and, Nat.testBit_or] at hxi hGi ⊢
    revert hxi hGi
    cases Nat.testBit x i <;> cases Nat.testBit G.FLEXIBLE i <;>
      cases Nat.testBit G.IGNORE_CASE i <;> cases Nat.testBit G.IGNORE_PUNCTUATION i <;>
      cases Nat.testBit G.IGNORE_WHITESPACE i <;> cases Nat.testBit G.IGNORE_LINE_BREAKS i <;>
      cases Nat.testBit G.IGNORE_PERIODS i <;> simp

theorem clean_string_of_expand (G : TextMatching) (env : Env) (s : CStr) (x y : Nat)
    (h : expand_flexible G (if x = 0 then G.FLEXIBLE else x)
      = expand_flexible G (if y = 0 then G.FLEXIBLE else y)) :
    clean_string G env (some s) x = clean_string G env (some s) y := by
  simp only [clean_string, h]

theorem sub_union_1 (a b c d e : Nat) : a &&& (a ||| b ||| c ||| d ||| e) = a := by
  apply Nat.eq_of_testBit_eq
  intro i
  simp only [Nat.testBit_and, Nat.testBit_or]
  cases Nat.testBit a i <;> simp

theorem sub_union_2 (a b c d e : Nat) : b &&& (a ||| b ||| c ||| d ||| e) = b := by
  apply Nat.eq_of_testBit_eq
  intro i
  simp only [Nat.testBit_and, Nat.testBit_or]
  cases Nat.testBit b i <;> simp

theorem sub_union_3 (a b c d e : Nat) : c &&& (a ||| b ||| c ||| d ||| e) = c := by
  apply Nat.eq_of_testBit_eq
  intro i
  simp only [Nat.testBit_and, Nat.testBit_or]
  cases Nat.testBit c i <;> simp

theorem sub_union_4 (a b c d e : Nat) : d &&& (a ||| b ||| c ||| d ||| e) = d := by
  apply Nat.eq_of_testBit_eq
  intro i
  simp only [Nat.testBit_and, Nat.testBit_or]
  cases Nat.testBit d i <;> simp

theorem sub_union_5 (a b c d e : Nat) : e &&& (a ||| b ||| c ||| d ||| e) = e := by
  apply Nat.eq_of_testBit_eq
  intro i
  simp only [Nat.testBit_and, Nat.testBit_or]
  cases Nat.testBit e i <;> simp

theorem clean_string_union (G : TextMatching) (env : Env) (s : CStr) (hG : G.IsUnion) :
    clean_string G env (some s) G.IGNORE_CASE = clean_string G env (some s) G.FLEXIBLE
      ∧ clean_string G env (some s) G.IGNORE_WHITESPACE
        = clean_string G env (some s) G.FLEXIBLE
      ∧ clean_string G env (some s) G.IGNORE_LINE_BREAKS
        = clean_string G env (some s) G.FLEXIBLE
      ∧ clean_string G env (some s) G.IGNORE_PERIODS
        = clean_string G env (some s) G.FLEXIBLE
      ∧ clean_string G env (some s) G.IGNORE_PUNCTUATION
        = clean_string G env (some s) G.FLEXIBLE := by
  have key : ∀ x, x &&& G.FLEXIBLE = x →
      clean_string G env (some s) x = clean_string G env (some s) G.FLEXIBLE := by
    intro x hx
    apply clean_string_of_expand
    rw [expand_flexible_union G x hG hx]
    by_cases h : G.FLEXIBLE = 0 <;> simp [h]
  have hU := hG
  unfold TextMatching.IsUnion at hU
  refine ⟨key _ ?_, key _ ?_, key _ ?_, key _ ?_, key _ ?_⟩
  · rw [hU]; exact sub_union_1 _ _ _ _ _
  · rw [hU]; exact sub_union_3 _ _ _ _ _
  · rw [hU]; exact sub_union_4 _ _ _ _ _
  · rw [hU]; exact sub_union_5 _ _ _ _ _
  · rw [hU]; exact sub_union_2 _ _ _ _ _

/-- C5 as amended: the rules of `clean_string` are independent when the five
rule flags are non-zero, share no bit with each other and FLEXIBLE is a flag of
its own that shares no bit with them: called with exactly one rule flag,
`clean_string` runs the unconditional part (duplicate, trailing-whitespace
strip, CRLF cleanup) and then that rule alone. When FLEXIBLE is the union of
the five rule flags, every single rule flag selects all five rules: the call
has the outcome of `clean_string(s, FLEXIBLE)`. -/
theorem clean_string_single_rule (F G : TextMatching) (env : Env) (s : CStr)
    (hF : F.Separate) (hG : G.IsUnion) :
    (clean_string F env (some s) F.IGNORE_CASE
        = clean_always env s >>= apply_rule true lower_case
      ∧ clean_string F env (some s) F.IGNORE_WHITESPACE
        = clean_always env s >>= apply_rule true (remove_chars isspace)
      ∧ clean_string F env (some s) F.IGNORE_LINE_BREAKS
        = clean_always env s >>= apply_rule true (remove_chars (fun c => c == 10))
      ∧ clean_string F env (some s) F.IGNORE_PERIODS
        = clean_always env s >>= apply_rule true (remove_chars (fun c => c == 46))
      ∧ clean_string F env (some s) F.IGNORE_PUNCTUATION
        = clean_always env s >>= apply_rule true (remove_chars ispunct))
    ∧ (clean_string G env (some s) G.IGNORE_CASE = clean_string G env (some s) G.FLEXIBLE
      ∧ clean_string G env (some s) G.IGNORE_WHITESPACE
        = clean_string G env (some s) G.FLEXIBLE
      ∧ clean_string G env (some s) G.IGNORE_LINE_BREAKS
        = clean_string G env (some s) G.FLEXIBLE
      ∧ clean_string G env (some s) G.IGNORE_PERIODS
        = clean_string G env (some s) G.FLEXIBLE
      ∧ clean_string G env (some s) G.IGNORE_PUNCTUATION
        = clean_string G env (some s) G.FLEXIBLE) :=
  ⟨clean_string_separate F env s hF, clean_string_union G env s hG⟩

/-- Counterexample to C5: with FLEXIBLE the union of the five rule flags,
`clean_string("A b.c", IGNORE_CASE)` is `abc`: the interior space and the
period are gone, so the result is not the lower-cased input `a b.c`. -/
theorem clean_string_single_rule_counterexample :
    flags_union.IsUnion
      ∧ clean_string flags_union env_ok (some (cstr "A b.c")) flags_union.IGNORE_CASE
        = Outcome.ret (some (cstr "abc"))
      ∧ clean_string flags_union env_ok (some (cstr "A b.c")) flags_union.IGNORE_CASE
        ≠ Outcome.ret (some ((cstr "A b.c").map tolower))
      ∧ (cstr "A b.c").map tolower = cstr "a b.c" := by
  decide

/-- Witness of C5 as amended, on the input `A b.c`. -/
theorem clean_string_single_rule_witness :
    (flags_separate.Separate ∧ flags_union.IsUnion)
      ∧ clean_string flags_separate env_ok (some (cstr "A b.c")) flags_separate.IGNORE_CASE
        = Outcome.ret (some (cstr "a b.c"))
      ∧ clean_string flags_separate env_ok (some (cstr "A b.c")) flags_separate.IGNORE_PERIODS
        = Outcome.ret (some (cstr "A bc"))
      ∧ clean_string flags_union env_ok (some (cstr "A b.c")) flags_union.IGNORE_PERIODS
        = clean_string flags_union env_ok (some (cstr "A b.c")) flags_union.FLEXIBLE := by
  have h := clean_string_single_rule flags_separate flags_union env_ok (cstr "A b.c")
    (by decide) (by decide)
  refine ⟨⟨by decide, by decide⟩, ?_, ?_, h.2.2.2.2.1⟩
  · rw [h.1.1]
    decide
  · rw [h.1.2.2.2.1]
    decide

/-! ## Files -/

theorem store_range_replicate (c : List Nat) :
    store_range (List.replicate (c.length + 1) 255) 0 c = some (c ++ [255]) := by
  have hd : List.drop c.length (List.replicate (c.length + 1) 255) = [255] := by
    rw [List.drop_replicate]
    simp
  simp [store_range, hd]

theorem store_last (c : List Nat) (v w : Nat) :
    store (c ++ [v]) c.length w = some (c ++ [w]) := by
  simp [store, List.set_append]

/-- The bytes of a stream read into a fresh buffer of one byte more and
terminated read back as the part of the stream before its first NUL. -/
theorem read_buffer (d : List Nat) :
    (do
      let b1 ← Outcome.ofOption (store_range (List.replicate (d.length + 1) 255) 0 d)
      let b2 ← Outcome.ofOption (store b1 d.length 0)
      let r ← Outcome.ofOption (c_str b2)
      Outcome.ret (some r) : Outcome (Option CStr))
      = Outcome.ret (some (d.takeWhile (fun b => b != 0))) := by
  have h1 : c_str (d ++ [0]) = some (d.takeWhile (fun b => b != 0)) := by
    have hmem : (0 : Nat) ∈ d ++ [0] := by simp
    simp only [c_str, hmem, if_true]
    congr 1
    induction d with
    | nil => simp
    | cons x t ih =>
      rw [List.cons_append, List.takeWhile_cons, List.takeWhile_cons]
      by_cases hx : x = 0
      · simp [hx]
      · simp [hx, ih]
  simp [store_range_replicate, store_last, h1]

theorem read_file_eq (env : Env) (fs : FileSys) (p : CStr) :
    read_file env fs (some p)
      = match fopen_r fs p with
        | none => Outcome.ret none
        | some d =>
          if env.malloc_ok (d.length + 1) then
            Outcome.ret (some (d.takeWhile (fun b => b != 0)))
          else Outcome.ret none := by
  cases h : fopen_r fs p with
  | none => simp [read_file, h]
  | some d =>
    simp only [read_file, get_file_size, h, malloc]
    by_cases hm : env.malloc_ok (d.length + 1) = true
    · simp only [hm, if_true, List.take_length, ne_eq, not_true_eq_false, if_false]
      exact read_buffer d
    · simp [hm]

theorem read_file_returns (env : Env) (fs : FileSys) (path : Option CStr) :
    ∃ r, read_file env fs path = Outcome.ret r := by
  cases path with
  | none => exact ⟨none, rfl⟩
  | some p =>
    rw [read_file_eq]
    cases fopen_r fs p with
    | none => exact ⟨_, rfl⟩
    | some d =>
      by_cases hm : env.malloc_ok (d.length + 1) = true
      · exact ⟨some (d.takeWhile (fun b => b != 0)), by simp [hm]⟩
      · exact ⟨none, by simp [hm]⟩

theorem takeWhile_nulFree (c : CStr) (hc : NulFree c) :
    c.takeWhile (fun b => b != 0) = c := by
  rw [List.takeWhile_eq_self_iff]
  intro b hb
  simpa using hc b hb

theorem write_file_overwrite (env : Env) (fs : FileSys) (p c : CStr)
    (hw : fs.writable p = true) :
    ∃ old, write_file env fs (some p) (some c) true = Outcome.ret (old, fs.put p c)
      ∧ (does_file_exist fs p = true → read_file env fs (some p) = Outcome.ret old) := by
  have ht : ∀ old, write_file_tail fs p (some c) old = Outcome.ret (old, fs.put p c) := by
    intro old
    have e : fputs (fs.put p []) p c = fs.put p c := by
      simp only [fputs, FileSys.put, if_true, Option.getD_some, List.nil_append]
      congr 1
      funext q
      by_cases hq : q = p <;> simp [hq]
    simp [write_file_tail, fopen_w, hw, e]
  cases h : fopen_r fs p with
  | none =>
    refine ⟨none, ?_, ?_⟩
    · simp [write_file, h, ht]
    · intro he
      simp [does_file_exist, h] at he
  | some d =>
    obtain ⟨r, hr⟩ := read_file_returns env fs (some p)
    refine ⟨r, ?_, fun _ => hr⟩
    simp [write_file, h, hr, ht]

/-- C6: for every file system, path and NUL-free content string such that the
path can be opened for writing and then for reading and a buffer for the
content can be allocated, `write_file(path, content, true)` returns, whether or
not a file existed at the path before, and `read_file(path)` on the file system
it leaves behind returns exactly `content`. -/
theorem write_file_read_file_round_trip (env : Env) (fs : FileSys) (p c : CStr)
    (hc : NulFree c) (hw : fs.writable p = true) (hr : fs.readable p = true)
    (hm : env.malloc_ok (c.length + 1) = true) :
    ∃ old fs1, write_file env fs (some p) (some c) true = Outcome.ret (old, fs1)
      ∧ read_file env fs1 (some p) = Outcome.ret (some c) := by
  obtain ⟨old, h1, _⟩ := write_file_overwrite env fs p c hw
  refine ⟨old, fs.put p c, h1, ?_⟩
  have ho : fopen_r (fs.put p c) p = some c := by
    simp [fopen_r, FileSys.put, hr]
  rw [read_file_eq, ho]
  simp [hm, takeWhile_nulFree c hc]

/-- Witness of C6 on a path with a file (`f`) and on a path without one (`g`). -/
theorem write_file_read_file_round_trip_witness :
    (NulFree (cstr "new") ∧ fs_sample.writable (cstr "f") = true
        ∧ fs_sample.readable (cstr "f") = true
        ∧ env_ok.malloc_ok ((cstr "new").length + 1) = true)
      ∧ (∃ old fs1, write_file env_ok fs_sample (some (cstr "f")) (some (cstr "new")) true
            = Outcome.ret (old, fs1)
          ∧ read_file env_ok fs1 (some (cstr "f")) = Outcome.ret (some (cstr "new")))
      ∧ (∃ old fs1, write_file env_ok fs_sample (some (cstr "g")) (some (cstr "new")) true
            = Outcome.ret (old, fs1)
          ∧ read_file env_ok fs1 (some (cstr "g")) = Outcome.ret (some (cstr "new"))) :=
  ⟨⟨by decide, by decide, by decide, by decide⟩,
    write_file_read_file_round_trip env_ok fs_sample (cstr "f") (cstr "new")
      (by decide) (by decide) (by decide) (by decide),
    write_file_read_file_round_trip env_ok fs_sample (cstr "g") (cstr "new")
      (by decide) (by decide) (by decide) (by decide)⟩

theorem write_file_keep (env : Env) (fs : FileSys) (p : CStr) (new : Option CStr)
    (he : does_file_exist fs p = true) :
    write_file env fs (some p) new false = Outcome.ret (none, fs) := by
  cases h : fopen_r fs p with
  | none => simp [does_file_exist, h] at he
  | some d =>
    obtain ⟨r, hr⟩ := read_file_returns env fs (some p)
    simp [write_file, h, hr]

/-- C7 as amended: for every path at which a file exists (it opens for
reading), `write_file(path, new, false)` returns NULL: the previous content is
read and freed, not returned. The previous content, as `read_file` gives it, is
what a call with `overwrite = true` returns when the path can be written. -/
theorem write_file_no_overwrite_returns_null (env : Env) (fs : FileSys) (p c : CStr)
    (new : Option CStr) (he : does_file_exist fs p = true) :
    (write_file env fs (some p) new false >>= fun r => Outcome.ret r.1) = Outcome.ret none
      ∧ (fs.writable p = true →
          (write_file env fs (some p) (some c) true >>= fun r => Outcome.ret r.1)
            = read_file env fs (some p)) := by
  constructor
  · rw [write_file_keep env fs p new he]
    rfl
  · intro hw
    obtain ⟨old, h1, h2⟩ := write_file_overwrite env fs p c hw
    rw [h1, h2 he]
    rfl

/-- Counterexample to C7: the file `f` holds `old`, and
`write_file("f", "new", false)` returns NULL, not `old`. -/
theorem write_file_no_overwrite_counterexample :
    does_file_exist fs_sample (cstr "f") = true
      ∧ read_file env_ok fs_sample (some (cstr "f")) = Outcome.ret (some (cstr "old"))
      ∧ (write_file env_ok fs_sample (some (cstr "f")) (some (cstr "new")) false
          >>= fun r => Outcome.ret r.1) = Outcome.ret none
      ∧ (write_file env_ok fs_sample (some (cstr "f")) (some (cstr "new")) false
          >>= fun r => Outcome.ret r.1) ≠ Outcome.ret (some (cstr "old")) := by
  decide

/-- Witness of C7 as amended, on the file `f` holding `old`. -/
theorem write_file_no_overwrite_returns_null_witness :
    does_file_exist fs_sample (cstr "f") = true
      ∧ (write_file env_ok fs_sample (some (cstr "f")) (some (cstr "new")) false
          >>= fun r => Outcome.ret r.1) = Outcome.ret none
      ∧ (fs_sample.writable (cstr "f") = true →
          (write_file env_ok fs_sample (some (cstr "f")) (some (cstr "new")) true
            >>= fun r => Outcome.ret r.1) = read_file env_ok fs_sample (some (cstr "f"))) :=
  ⟨by decide,
    write_file_no_overwrite_returns_null env_ok fs_sample (cstr "f") (cstr "new")
      (some (cstr "new")) (by decide)⟩

theorem write_file_unreadable (env : Env) (fs : FileSys) (p c : CStr)
    (hr : does_file_exist fs p = false) (hw : fs.writable p = true) :
    write_file env fs (some p) (some c) false
      = Outcome.ret (none, fputs (fs.put p []) p c) := by
  have h : fopen_r fs p = none := by
    cases h : fopen_r fs p with
    | none => rfl
    | some d => simp [does_file_exist, h] at hr
  simp [write_file, h, write_file_tail, fopen_w, hw]

theorem fputs_data (fs : FileSys) (p c : CStr) :
    (fputs (fs.put p []) p c).data p = some c
      ∧ ∀ q, q ≠ p → (fputs (fs.put p []) p c).data q = fs.data q := by
  constructor
  · simp [fputs, FileSys.put]
  · intro q hq
    simp [fputs, FileSys.put, hq]

/-- C8 as amended: the test of `write_file` for an existing file is that the
path opens for reading. For every path that opens for reading,
`write_file(path, new, false)` returns and leaves the file system as it was: the
file at the path keeps its content and no other file changes. For a path that
does not open for reading, also when a file is there, and that can be written,
`write_file(path, new, false)` writes: afterwards the file at the path holds
`new`, and no other file changes. -/
theorem write_file_no_overwrite_leaves_files (env : Env) (fs : FileSys) (p c : CStr)
    (new : Option CStr) :
    (does_file_exist fs p = true →
        ∃ r, write_file env fs (some p) new false = Outcome.ret (r, fs))
      ∧ (does_file_exist fs p = false → fs.writable p = true →
          ∃ fs2, write_file env fs (some p) (some c) false = Outcome.ret (none, fs2)
            ∧ fs2.data p = some c ∧ ∀ q, q ≠ p → fs2.data q = fs.data q) := by
  refine ⟨fun he => ⟨none, write_file_keep env fs p new he⟩, fun hr hw => ?_⟩
  exact ⟨_, write_file_unreadable env fs p c hr hw, fputs_data fs p c⟩

/-- Counterexample to C8: the file `f` exists and holds `old`, it cannot be
opened for reading and can be written; `write_file("f", "new", false)` returns
NULL and leaves `f` holding `new`: the file did not stay untouched. -/
theorem write_file_no_overwrite_leaves_files_counterexample :
    fs_hidden.data (cstr "f") = some (cstr "old")
      ∧ does_file_exist fs_hidden (cstr "f") = false
      ∧ ∃ fs2, write_file env_ok fs_hidden (some (cstr "f")) (some (cstr "new")) false
          = Outcome.ret (none, fs2)
        ∧ fs2.data (cstr "f") = some (cstr "new")
        ∧ fs2.data (cstr "f") ≠ fs_hidden.data (cstr "f") := by
  refine ⟨by decide, by decide, _, write_file_unreadable env_ok fs_hidden (cstr "f") (cstr "new")
    (by decide) (by decide), (fputs_data _ _ _).1, ?_⟩
  rw [(fputs_data _ _ _).1]
  decide

/-- Witness of C8 as amended: the readable file `f` of one file system is left
as it is, the unreadable file `f` of another is rewritten. -/
theorem write_file_no_overwrite_leaves_files_witness :
    does_file_exist fs_sample (cstr "f") = true
      ∧ (∃ r, write_file env_ok fs_sample (some (cstr "f")) (some (cstr "new")) false
          = Outcome.ret (r, fs_sample))
      ∧ does_file_exist fs_hidden (cstr "f") = false ∧ fs_hidden.writable (cstr "f") = true
      ∧ ∃ fs2, write_file env_ok fs_hidden (some (cstr "f")) (some (cstr "new")) false
          = Outcome.ret (none, fs2) ∧ fs2.data (cstr "f") = some (cstr "new") := by
  have h1 := write_file_no_overwrite_leaves_files env_ok fs_sample (cstr "f") (cstr "new")
    (some (cstr "new"))
  have h2 := write_file_no_overwrite_leaves_files env_ok fs_hidden (cstr "f") (cstr "new")
    (some (cstr "new"))
  obtain ⟨fs2, e1, e2, _⟩ := h2.2 (by decide) (by decide)
  exact ⟨by decide, h1.1 (by decide), by decide, by decide, fs2, e1, e2⟩

/-! ## Trimming -/

theorem size_mod_eq : SIZE_MOD = 18446744073709551616 := by
  norm_num [SIZE_MOD]

theorem size_sub_eq (a b : Nat) (hb : b ≤ a) (ha : a < SIZE_MOD) : size_sub a b = a - b := by
  unfold size_sub
  rw [size_mod_eq] at *
  omega

theorem size_add_eq (a b : Nat) (h : a + b < SIZE_MOD) : size_add a b = a + b := by
  unfold size_add
  exact Nat.mod_eq_of_lt h

theorem read_char_mid (pre : List Nat) (x : Nat) (t : List Nat) :
    read_char (pre ++ x :: t) pre.length = some x := by
  have h : pre.length < (pre ++ x :: t).length := by simp
  simp only [read_char, h, if_true]
  rw [List.get?_eq_getElem?, List.getElem?_append_right (Nat.le_refl _)]
  simp

/-- The first loop stops on the first character that is no whitespace. -/
theorem trim_first_eq (ws : List Nat) :
    ∀ (pre r : List Nat) (fuel : Nat), (∀ c ∈ ws, isspace c = true) →
      (r = [] ∨ ∃ a r1, r = a :: r1 ∧ isspace a = false) →
      (pre ++ ws ++ r).length < SIZE_MOD → ws.length < fuel →
      trim_first (pre ++ ws ++ r) fuel pre.length = Outcome.ret (pre.length + ws.length) := by
  induction ws with
  | nil =>
    intro pre r fuel _ hr _ hf
    obtain ⟨f, rfl⟩ : ∃ f, fuel = f + 1 := ⟨fuel - 1, by simp at hf; omega⟩
    rcases hr with rfl | ⟨a, r1, rfl, ha⟩
    · simp [trim_first]
    · have h := read_char_mid pre a r1
      simp only [List.append_nil] at h ⊢
      simp [trim_first, h, ha]
  | cons w ws1 ih =>
    intro pre r fuel hws hr hlen hf
    obtain ⟨f, rfl⟩ : ∃ f, fuel = f + 1 := ⟨fuel - 1, by simp at hf; omega⟩
    have hw : isspace w = true := hws w (List.mem_cons_self _ _)
    have hws1 : ∀ c ∈ ws1, isspace c = true := fun c hc => hws c (List.mem_cons_of_mem _ hc)
    have e : pre ++ w :: ws1 ++ r = (pre ++ [w]) ++ ws1 ++ r := by simp
    have h := read_char_mid pre w (ws1 ++ r)
    have hlt : pre.length < (pre ++ w :: ws1 ++ r).length := by simp
    have hadd : size_add pre.length 1 = (pre ++ [w]).length := by
      rw [size_add_eq]
      · simp
      · simp at hlen; omega
    have hi := ih (pre ++ [w]) r f hws1 hr (by rw [← e]; exact hlen) (by simp at hf; omega)
    have h2 : read_char (pre ++ w :: ws1 ++ r) pre.length = some w := by
      simpa using h
    rw [trim_first]
    simp only [hlt, if_true, h2, hw]
    rw [hadd, e, hi]
    simp
    omega

/-- The second loop stops on the last character that is no whitespace. -/
theorem trim_last_eq (ws : List Nat) :
    ∀ (l post : List Nat) (first fuel : Nat), (∀ c ∈ ws, isspace c = true) →
      (∃ m b, l = m ++ [b] ∧ isspace b = false) → first < l.length →
      (l ++ ws ++ post).length < SIZE_MOD → ws.length < fuel →
      trim_last (l ++ ws ++ post) first fuel (l.length + ws.length - 1)
        = Outcome.ret (l.length - 1) := by
  induction ws using List.reverseRecOn with
  | nil =>
    intro l post first fuel _ hl hfirst _ hf
    obtain ⟨f, rfl⟩ : ∃ f, fuel = f + 1 := ⟨fuel - 1, by simp at hf; omega⟩
    obtain ⟨m, b, rfl, hb⟩ := hl
    have h := read_char_mid m b post
    have hge : (m ++ [b]).length + ([] : List Nat).length - 1 ≥ first := by
      simp at hfirst ⊢; omega
    have e : (m ++ [b]).length + ([] : List Nat).length - 1 = m.length := by simp
    rw [trim_last]
    simp only [hge, if_true]
    rw [e]
    have h2 : read_char (m ++ [b] ++ [] ++ post) m.length = some b := by simpa using h
    simp only [h2, hb]
    simp
  | append_singleton ws1 w ih =>
    intro l post first fuel hws hl hfirst hlen hf
    obtain ⟨f, rfl⟩ : ∃ f, fuel = f + 1 := ⟨fuel - 1, by simp at hf; omega⟩
    have hw : isspace w = true := hws w (by simp)
    have hws1 : ∀ c ∈ ws1, isspace c = true := fun c hc => hws c (by simp [hc])
    have e : l ++ (ws1 ++ [w]) ++ post = l ++ ws1 ++ (w :: post) := by simp
    have ej : l.length + (ws1 ++ [w]).length - 1 = (l ++ ws1).length := by simp
    have h := read_char_mid (l ++ ws1) w post
    have hge : (l ++ ws1).length ≥ first := by simp; omega
    have hsub : size_sub (l ++ ws1).length 1 = l.length + ws1.length - 1 := by
      rw [size_sub_eq]
      · simp
      · simp; omega
      · simp at hlen ⊢; omega
    have hi := ih l (w :: post) first f hws1 hl hfirst (by rw [← e]; exact hlen)
      (by simp at hf; omega)
    rw [trim_last, ej]
    simp only [hge, if_true]
    rw [e]
    have h2 : read_char (l ++ ws1 ++ w :: post) (l ++ ws1).length = some w := by simpa using h
    simp only [h2, hw, if_true]
    rw [hsub, hi]

/-- Every string is a run of whitespace, a core, and a run of whitespace,
where the core is empty or has a first and a last character that are no
whitespace; the core is what the specification of `trim` keeps. -/
theorem trim_shape (s : CStr) :
    ∃ ws1 core ws2, s = ws1 ++ core ++ ws2 ∧ (∀ c ∈ ws1, isspace c = true)
      ∧ (∀ c ∈ ws2, isspace c = true)
      ∧ (core = [] ∨ ((∃ a m, core = a :: m ∧ isspace a = false)
          ∧ (∃ m b, core = m ++ [b] ∧ isspace b = false)))
      ∧ trim_spec s = core := by
  have hs : s = s.takeWhile isspace ++ s.dropWhile isspace :=
    (List.takeWhile_append_dropWhile isspace s).symm
  have hr : (s.dropWhile isspace).reverse
      = (s.dropWhile isspace).reverse.takeWhile isspace
        ++ (s.dropWhile isspace).reverse.dropWhile isspace :=
    (List.takeWhile_append_dropWhile isspace _).symm
  have hrest : s.dropWhile isspace
      = ((s.dropWhile isspace).reverse.dropWhile isspace).reverse
        ++ ((s.dropWhile isspace).reverse.takeWhile isspace).reverse := by
    have h := congrArg List.reverse hr
    rw [List.reverse_reverse, List.reverse_append] at h
    exact h
  refine ⟨s.takeWhile isspace, ((s.dropWhile isspace).reverse.dropWhile isspace).reverse,
    ((s.dropWhile isspace).reverse.takeWhile isspace).reverse, ?_, ?_, ?_, ?_, rfl⟩
  · rw [List.append_assoc, ← hrest]
    exact hs
  · intro c hc
    exact List.mem_takeWhile_imp hc
  · intro c hc
    exact List.mem_takeWhile_imp (List.mem_reverse.1 hc)
  · cases hd : (s.dropWhile isspace).reverse.dropWhile isspace with
    | nil => left; simp
    | cons b d =>
      right
      have hb : isspace b = false := by
        have h := List.head?_dropWhile_not isspace (s.dropWhile isspace).reverse
        rw [hd] at h
        simpa using h
      constructor
      · cases hrs : s.dropWhile isspace with
        | nil => rw [hrs] at hd; simp at hd
        | cons a r1 =>
          have ha : isspace a = false := by
            have h := List.head?_dropWhile_not isspace s
            rw [hrs] at h
            simpa using h
          have h2 := hrest
          rw [hd, hrs] at h2
          cases hdr : (b :: d).reverse with
          | nil => simp at hdr
          | cons x m =>
            rw [hdr] at h2
            simp only [List.cons_append, List.cons.injEq] at h2
            exact ⟨x, m, rfl, by rw [← h2.1]; exact ha⟩
      · exact ⟨d.reverse, b, by simp, hb⟩

theorem trim_spec_of_shape (ws1 core ws2 : List Nat) (h1 : ∀ c ∈ ws1, isspace c = true)
    (h2 : ∀ c ∈ ws2, isspace c = true)
    (hc : core = [] ∨ ((∃ a m, core = a :: m ∧ isspace a = false)
          ∧ (∃ m b, core = m ++ [b] ∧ isspace b = false))) :
    trim_spec (ws1 ++ core ++ ws2) = core := by
  unfold trim_spec
  rcases hc with rfl | ⟨⟨a, m, rfl, ha⟩, ⟨m2, b, hm, hb⟩⟩
  · have hall : ∀ c ∈ ws1 ++ [] ++ ws2, isspace c = true := by
      intro c hc
      simp only [List.append_nil, List.mem_append] at hc
      rcases hc with hc | hc
      · exact h1 c hc
      · exact h2 c hc
    rw [List.dropWhile_eq_nil_iff.2 hall]
    simp
  · rw [List.append_assoc, List.dropWhile_append_of_pos h1, List.cons_append,
      List.dropWhile_cons_of_neg (by simp [ha])]
    rw [← List.cons_append, hm, List.reverse_append,
      List.dropWhile_append_of_pos (fun c hc => h2 c (List.mem_reverse.1 hc))]
    rw [List.reverse_append, List.reverse_singleton, List.singleton_append,
      List.dropWhile_cons_of_neg (by simp [hb])]
    simp

theorem read_range_mid (pre core post : List Nat) :
    read_range (pre ++ core ++ post) pre.length core.length = some core := by
  have h : pre.length + core.length ≤ (pre ++ core ++ post).length + 1 := by simp; omega
  simp only [read_range, h, if_true]
  congr 1
  rw [List.append_assoc, List.append_assoc, List.drop_left, List.take_left]

theorem trim_copy (core : CStr) (hn : NulFree core) :
    (do
      let b1 ← Outcome.ofOption (store_range (List.replicate (core.length + 1) 255) 0 core)
      let b2 ← Outcome.ofOption (store b1 core.length 0)
      let r ← Outcome.ofOption (c_str b2)
      Outcome.ret (some r) : Outcome (Option CStr))
      = Outcome.ret (some core) := by
  rw [read_buffer, takeWhile_nulFree core hn]

/-- The embedding of `test_support_trim` computes what the specification of
`trim` says, on every well-formed string that fits in memory with its
terminator; it returns NULL exactly when the result cannot be allocated. -/
theorem test_support_trim_eq (env : Env) (s : CStr) (hn : NulFree s)
    (hs : s.length + 1 < SIZE_MOD) :
    test_support_trim env (some s)
      = if env.malloc_ok ((trim_spec s).length + 1) then Outcome.ret (some (trim_spec s))
        else Outcome.ret none := by
  obtain ⟨ws1, core, ws2, rfl, h1, h2, hc, hspec⟩ := trim_shape s
  rw [hspec]
  have hlen : (ws1 ++ core ++ ws2).length < SIZE_MOD := by omega
  rcases hc with rfl | ⟨⟨a, m, hcore, ha⟩, hlast⟩
  · have hall : ∀ c ∈ ws1 ++ ws2, isspace c = true := by
      intro c hc
      rcases List.mem_append.1 hc with hc | hc
      · exact h1 c hc
      · exact h2 c hc
    have h := trim_first_eq (ws1 ++ ws2) [] [] ((ws1 ++ ws2).length + 1) hall (Or.inl rfl)
      (by simpa using hlen) (by simp)
    simp only [List.nil_append, List.append_nil, List.length_nil, Nat.zero_add] at h
    simp only [test_support_trim, List.append_nil, h, Outcome.ret_bind, if_true, malloc,
      List.length_nil, Nat.zero_add]
    by_cases hm : env.malloc_ok 1 = true
    · simp only [hm, if_true]
      rfl
    · simp [hm]
  · have hr : core ++ ws2 = [] ∨ ∃ a r1, core ++ ws2 = a :: r1 ∧ isspace a = false :=
      Or.inr ⟨a, m ++ ws2, by rw [hcore]; rfl, ha⟩
    have hfirst := trim_first_eq ws1 [] (core ++ ws2) ((ws1 ++ core ++ ws2).length + 1) h1 hr
      (by simpa using hlen) (by simp; omega)
    simp only [List.nil_append, List.length_nil, Nat.zero_add, ← List.append_assoc] at hfirst
    have hcl : 0 < core.length := by rw [hcore]; simp
    have hL : (ws1 ++ core ++ ws2).length = ws1.length + core.length + ws2.length := by
      simp only [List.length_append]
    have hL2 : (ws1 ++ core).length = ws1.length + core.length := by
      simp only [List.length_append]
    have hlast2 := trim_last_eq ws2 (ws1 ++ core) [] ws1.length
      ((ws1 ++ core ++ ws2).length + 1) h2
      (by
        obtain ⟨m2, b, hm2, hb⟩ := hlast
        exact ⟨ws1 ++ m2, b, by rw [hm2]; simp, hb⟩)
      (by omega) (by simpa using hlen) (by omega)
    simp only [List.append_nil] at hlast2
    have hsub : size_sub (ws1 ++ core ++ ws2).length 1
        = (ws1 ++ core).length + ws2.length - 1 := by
      rw [size_sub_eq _ _ (by omega) hlen]
      omega
    have hne : ws1.length ≠ (ws1 ++ core ++ ws2).length := by omega
    have hlenc : size_add (size_sub ((ws1 ++ core).length - 1) ws1.length) 1 = core.length := by
      rw [size_sub_eq _ _ (by omega) (by omega), size_add_eq _ _ (by omega)]
      omega
    have hsz : size_add core.length 1 = core.length + 1 :=
      size_add_eq _ _ (by omega)
    have hnc : NulFree core := fun b hb => hn b (by simp [hb])
    simp only [test_support_trim, hfirst, Outcome.ret_bind, hne, if_false, hsub, hlast2, hlenc,
      hsz, malloc]
    by_cases hm : env.malloc_ok (core.length + 1) = true
    · simp only [hm, if_true, read_range_mid, Outcome.ofOption_some, Outcome.ret_bind]
      exact trim_copy core hnc
    · simp [hm]

theorem trim_spec_facts (s : CStr) (hn : NulFree s) :
    NulFree (trim_spec s) ∧ (trim_spec s).length ≤ s.length
      ∧ trim_spec (trim_spec s) = trim_spec s := by
  obtain ⟨ws1, core, ws2, rfl, h1, h2, hc, hspec⟩ := trim_shape s
  rw [hspec]
  refine ⟨fun b hb => hn b (by simp [hb]), by simp only [List.length_append]; omega, ?_⟩
  have h := trim_spec_of_shape [] core [] (by simp) (by simp) hc
  simpa using h

/-- The two loops of `test_support_trim` end on indices inside the string. -/
theorem trim_indices (s : CStr) (hs : s.length + 1 < SIZE_MOD) :
    ∃ first, trim_first s (s.length + 1) 0 = Outcome.ret first ∧ first ≤ s.length
      ∧ (first ≠ s.length → 1 ≤ s.length ∧ size_sub s.length 1 = s.length - 1
          ∧ ∃ last, trim_last s first (s.length + 1) (size_sub s.length 1) = Outcome.ret last
              ∧ first ≤ last ∧ last < s.length) := by
  obtain ⟨ws1, core, ws2, rfl, h1, h2, hc, _⟩ := trim_shape s
  have hlen : (ws1 ++ core ++ ws2).length < SIZE_MOD := by omega
  have hL : (ws1 ++ core ++ ws2).length = ws1.length + core.length + ws2.length := by
    simp only [List.length_append]
  have hL2 : (ws1 ++ core).length = ws1.length + core.length := by
    simp only [List.length_append]
  rcases hc with rfl | ⟨⟨a, m, hcore, ha⟩, hlast⟩
  · have hall : ∀ c ∈ ws1 ++ ws2, isspace c = true := by
      intro c hc
      rcases List.mem_append.1 hc with hc | hc
      · exact h1 c hc
      · exact h2 c hc
    have h := trim_first_eq (ws1 ++ ws2) [] [] ((ws1 ++ ws2).length + 1) hall (Or.inl rfl)
      (by simpa using hlen) (by simp)
    simp only [List.nil_append, List.append_nil, List.length_nil, Nat.zero_add] at h
    refine ⟨(ws1 ++ ws2).length, by simpa using h, by simp, fun hne => ?_⟩
    simp at hne
  · have hr : core ++ ws2 = [] ∨ ∃ a r1, core ++ ws2 = a :: r1 ∧ isspace a = false :=
      Or.inr ⟨a, m ++ ws2, by rw [hcore]; rfl, ha⟩
    have hfirst := trim_first_eq ws1 [] (core ++ ws2) ((ws1 ++ core ++ ws2).length + 1) h1 hr
      (by simpa using hlen) (by omega)
    simp only [List.nil_append, List.length_nil, Nat.zero_add, ← List.append_assoc] at hfirst
    have hcl : 0 < core.length := by rw [hcore]; simp
    have hlast2 := trim_last_eq ws2 (ws1 ++ core) [] ws1.length
      ((ws1 ++ core ++ ws2).length + 1) h2
      (by
        obtain ⟨m2, b, hm2, hb⟩ := hlast
        exact ⟨ws1 ++ m2, b, by rw [hm2]; simp, hb⟩)
      (by omega) (by simpa using hlen) (by omega)
    simp only [List.append_nil] at hlast2
    have hsub : size_sub (ws1 ++ core ++ ws2).length 1
        = (ws1 ++ core).length + ws2.length - 1 := by
      rw [size_sub_eq _ _ (by omega) hlen]
      omega
    refine ⟨ws1.length, hfirst, by omega, fun _ => ⟨by omega, ?_, (ws1 ++ core).length - 1, ?_,
      by omega, by omega⟩⟩
    · rw [hsub]
      omega
    · rw [hsub]
      exact hlast2

/-- C9: `trim` is idempotent: for every well-formed string `s` (free of NUL,
fitting in memory with its terminator), when the allocations succeed
`test_support_trim(s)` returns a string `t`, and `test_support_trim(t)`
returns `t` again. -/
theorem test_support_trim_idempotent (env : Env) (s : CStr) (hn : NulFree s)
    (hs : s.length + 1 < SIZE_MOD) (hm : ∀ n, env.malloc_ok n = true) :
    ∃ t, test_support_trim env (some s) = Outcome.ret (some t)
      ∧ test_support_trim env (some t) = Outcome.ret (some t) := by
  obtain ⟨h1, h2, h3⟩ := trim_spec_facts s hn
  refine ⟨trim_spec s, ?_, ?_⟩
  · rw [test_support_trim_eq env s hn hs]
    simp [hm]
  · rw [test_support_trim_eq env (trim_spec s) h1 (by omega), h3]
    simp [hm]

/-- Witness of C9 on the string `"  a b \n"`, which trims to `"a b"`. -/
theorem test_support_trim_idempotent_witness :
    (NulFree (cstr "  a b \n") ∧ (cstr "  a b \n").length + 1 < SIZE_MOD
        ∧ ∀ n, env_ok.malloc_ok n = true)
      ∧ ∃ t, test_support_trim env_ok (some (cstr "  a b \n")) = Outcome.ret (some t)
          ∧ test_support_trim env_ok (some t) = Outcome.ret (some t) :=
  ⟨⟨by decide, by decide, fun _ => rfl⟩,
    test_support_trim_idempotent env_ok (cstr "  a b \n") (by decide) (by decide)
      (fun _ => rfl)⟩

/-- C10: for every well-formed string `s` (free of NUL, fitting in memory with
its terminator) `test_support_trim(s)` returns exactly `s` without its maximal
leading and trailing runs of whitespace (NULL when that result cannot be
allocated); the empty string and every string made of whitespace trim to the
empty string. No read leaves the string (the outcome is no fault) and no size
underflows: the first loop ends on an index `first` at most `strlen(s)`, and
when `first` is not `strlen(s)` the string is not empty, `strlen(s) - 1` does
not wrap, and the second loop ends on an index `last` with
`first <= last < strlen(s)`. -/
theorem test_support_trim_spec (env : Env) (s : CStr) (hn : NulFree s)
    (hs : s.length + 1 < SIZE_MOD) :
    test_support_trim env (some s)
        = (if env.malloc_ok ((trim_spec s).length + 1) then Outcome.ret (some (trim_spec s))
          else Outcome.ret none)
      ∧ trim_spec [] = []
      ∧ ((∀ c ∈ s, isspace c = true) → trim_spec s = [])
      ∧ ∃ first, trim_first s (s.length + 1) 0 = Outcome.ret first ∧ first ≤ s.length
          ∧ (first ≠ s.length → 1 ≤ s.length ∧ size_sub s.length 1 = s.length - 1
            ∧ ∃ last, trim_last s first (s.length + 1) (size_sub s.length 1)
                  = Outcome.ret last
                ∧ first ≤ last ∧ last < s.length) := by
  refine ⟨test_support_trim_eq env s hn hs, rfl, ?_, trim_indices s hs⟩
  intro h
  unfold trim_spec
  rw [List.dropWhile_eq_nil_iff.2 h]
  rfl

/-- Witness of C10 on the strings `"  a b \n"`, `""` and `"   "`. -/
theorem test_support_trim_spec_witness :
    (NulFree (cstr "  a b \n") ∧ (cstr "  a b \n").length + 1 < SIZE_MOD)
      ∧ test_support_trim env_ok (some (cstr "  a b \n")) = Outcome.ret (some (cstr "a b"))
      ∧ test_support_trim env_ok (some (cstr "")) = Outcome.ret (some (cstr ""))
      ∧ test_support_trim env_ok (some (cstr "   ")) = Outcome.ret (some (cstr "")) := by
  have h1 := (test_support_trim_spec env_ok (cstr "  a b \n") (by decide) (by decide)).1
  have h2 := (test_support_trim_spec env_ok (cstr "") (by decide) (by decide)).1
  have h3 := (test_support_trim_spec env_ok (cstr "   ") (by decide) (by decide)).1
  refine ⟨⟨by decide, by decide⟩, ?_, ?_, ?_⟩
  · rw [h1]; decide
  · rw [h2]; decide
  · rw [h3]; decide

/-! ## Pointer validator -/

theorem sigaction_restore (st : Process) (sa : Sigaction) :
    (sigaction (sigaction st sa).2 (sigaction st sa).1).2 = st := by
  cases st
  rfl

theorem is_pointer_valid_eq (st : Process) (p : Ptr) :
    is_pointer_valid st p = Outcome.ret (decide (access st p ≠ Perm.unreadable), st) := by
  by_cases hp : p = NULL
  · simp [is_pointer_valid, access, hp]
  · have hr := sigaction_restore st validator_action
    have ha : access (sigaction st validator_action).2 p = access st p := rfl
    have hh : (sigaction st validator_action).2.sigsegv.sa_handler = sigsegv_handler := rfl
    simp only [is_pointer_valid, hp, if_false, protected_access, ha, hh, if_true]
    by_cases hu : access st p = Perm.unreadable
    · simp [hu, hr]
    · simp [hu, hr]

theorem is_pointer_read_only_eq (st : Process) (p : Ptr) :
    is_pointer_read_only st p = Outcome.ret (decide (access st p ≠ Perm.read_write), st) := by
  have hr := sigaction_restore st validator_action
  have ha : access (sigaction st validator_action).2 p = access st p := rfl
  have hh : (sigaction st validator_action).2.sigsegv.sa_handler = sigsegv_handler := rfl
  simp only [is_pointer_read_only, protected_access, ha, hh, if_true]
  by_cases hu : access st p = Perm.read_write
  · simp [hu, hr]
  · simp [hu, hr]

/-- C11: `is_pointer_valid(NULL)` is false and `is_pointer_null_or_valid(NULL)`
is true; on every pointer that is not NULL the two functions agree; and
`ctest_get_malloc_size(NULL)` is 0. Each call returns and leaves the process as
it was. -/
theorem null_pointer_validity (st : Process) :
    is_pointer_valid st NULL = Outcome.ret (false, st)
      ∧ is_pointer_null_or_valid st NULL = Outcome.ret (true, st)
      ∧ (∀ p : Ptr, p ≠ NULL → is_pointer_null_or_valid st p = is_pointer_valid st p)
      ∧ ctest_get_malloc_size st NULL = Outcome.ret (0, st) := by
  refine ⟨rfl, rfl, ?_, rfl⟩
  intro p hp
  simp [is_pointer_null_or_valid, hp]

/-- C12 (the failing part): `is_pointer_read_only(NULL)` is true although
`is_pointer_valid(NULL)` is false, and the same holds of every address that
cannot be read: the read half of the probing access raises the signal, and the
handler branch answers that the pointer is read-only. -/
theorem read_only_of_invalid_pointer (st : Process) :
    is_pointer_read_only st NULL = Outcome.ret (true, st)
      ∧ is_pointer_valid st NULL = Outcome.ret (false, st)
      ∧ ∀ p : Ptr, access st p = Perm.unreadable →
          is_pointer_read_only st p = Outcome.ret (true, st)
            ∧ is_pointer_valid st p = Outcome.ret (false, st) := by
  refine ⟨?_, rfl, ?_⟩
  · rw [is_pointer_read_only_eq]
    rfl
  · intro p hp
    rw [is_pointer_read_only_eq, is_pointer_valid_eq]
    simp [hp]

/-- C13: for every pointer and every state of the process, on both outcomes
(the access goes through, or it raises SIGSEGV and the handler jumps back),
`is_pointer_valid` and `is_pointer_read_only` return, and the action installed
for SIGSEGV after the call is the action that was installed before it. -/
theorem sigsegv_action_restored (st : Process) (p : Ptr) :
    (∃ b st1, is_pointer_valid st p = Outcome.ret (b, st1) ∧ st1.sigsegv = st.sigsegv)
      ∧ (∃ b st1, is_pointer_read_only st p = Outcome.ret (b, st1)
          ∧ st1.sigsegv = st.sigsegv) :=
  ⟨⟨_, st, is_pointer_valid_eq st p, rfl⟩, ⟨_, st, is_pointer_read_only_eq st p, rfl⟩⟩

/-! ## Allocation failure -/

theorem malloc_fail (env : Env) (hfail : ∀ n, env.malloc_ok n = false) (n : Nat) :
    malloc env n = none := by
  simp [malloc, hfail]

theorem read_file_alloc_fail (env : Env) (fs : FileSys) (path : Option CStr)
    (hfail : ∀ n, env.malloc_ok n = false) : read_file env fs path = Outcome.ret none := by
  cases path with
  | none => rfl
  | some p =>
    rw [read_file_eq]
    cases fopen_r fs p with
    | none => rfl
    | some d => simp [hfail]

/-- C14 as amended: when the allocation fails, `add_regex_anchors`,
`build_path` (on its own allocation) and `get_directory` report and terminate
the process with a failure status, without returning; `duplicate_string` (and
with it `build_path` on a NULL directory), `read_file` (which reports when the
file opens), `fix_string_null_termination` and `test_support_trim` return NULL
to their caller. -/
theorem allocation_failure (env : Env) (fs : FileSys) (st : Process) (ptr : Ptr)
    (p d f s : CStr) (hfail : ∀ n, env.malloc_ok n = false) (hn : NulFree s)
    (hs : s.length + 1 < SIZE_MOD) :
    (add_regex_anchors env (some p) = Outcome.exit EXIT_FAILURE
        ∧ add_regex_anchors_report env (some p) = [alloc_report])
      ∧ (build_path env (some d) (some f) = Outcome.exit EXIT_FAILURE
        ∧ build_path_report env (some d) (some f) = [alloc_report])
      ∧ (get_directory env (some p) = Outcome.exit 1
        ∧ get_directory_report env (some p)
          = [⟨StdStream.stdout, "Could not malloc memory: %s.\n"⟩])
      ∧ duplicate_string env (some s) = none
      ∧ build_path env none (some f) = Outcome.ret none
      ∧ (read_file env fs (some p) = Outcome.ret none
        ∧ (does_file_exist fs p = true → read_file_report env fs (some p) = [alloc_report]))
      ∧ fix_string_null_termination env st ptr s = Outcome.ret (none, st)
      ∧ test_support_trim env (some s) = Outcome.ret none := by
  have hm := malloc_fail env hfail
  refine ⟨⟨?_, ?_⟩, ⟨?_, ?_⟩, ⟨?_, ?_⟩, ?_, ?_, ⟨?_, ?_⟩, ?_, ?_⟩
  · simp [add_regex_anchors, hm]
  · simp [add_regex_anchors_report, hm]
  · simp [build_path, hm]
  · simp [build_path_report, hm]
  · cases h : strrchr p 47 <;> simp [get_directory, h, hm]
  · simp [get_directory_report, hm]
  · simp [duplicate_string, hm]
  · simp [build_path, duplicate_string, hm]
  · exact read_file_alloc_fail env fs (some p) hfail
  · intro he
    cases h : fopen_r fs p with
    | none => simp [does_file_exist, h] at he
    | some stream => simp [read_file_report, get_file_size_report, h, hm]
  · rw [fix_string_null_termination, is_pointer_valid_eq]
    by_cases hv : access st ptr = Perm.unreadable
    · simp [hv]
    · simp [hv, hm]
  · rw [test_support_trim_eq env s hn hs]
    simp [hfail]

/-- Counterexample to C14: with an allocator on which every request fails,
`duplicate_string("abc")`, `read_file("f")` on an existing file,
`test_support_trim("a")` and `fix_string_null_termination` on a valid pointer
return NULL to their caller instead of terminating the process. -/
theorem allocation_failure_counterexample :
    duplicate_string env_fail (some (cstr "abc")) = none
      ∧ read_file env_fail fs_sample (some (cstr "f")) = Outcome.ret none
      ∧ test_support_trim env_fail (some (cstr "a")) = Outcome.ret none
      ∧ (fix_string_null_termination env_fail process_sample 12 (cstr "abc")
          >>= fun r => Outcome.ret r.1) = Outcome.ret none := by
  decide

/-- Witness of C14 as amended, with the allocator on which every request
fails. -/
theorem allocation_failure_witness :
    ((∀ n, env_fail.malloc_ok n = false) ∧ NulFree (cstr "a")
        ∧ (cstr "a").length + 1 < SIZE_MOD)
      ∧ add_regex_anchors env_fail (some (cstr "abc")) = Outcome.exit EXIT_FAILURE
      ∧ get_directory env_fail (some (cstr "abc")) = Outcome.exit 1
      ∧ test_support_trim env_fail (some (cstr "a")) = Outcome.ret none := by
  have h := allocation_failure env_fail fs_sample process_sample 12 (cstr "abc")
    (cstr "/tmp/") (cstr "x") (cstr "a") (fun _ => rfl) (by decide) (by decide)
  exact ⟨⟨fun _ => rfl, by decide, by decide⟩, h.1.1, h.2.2.1.1, h.2.2.2.2.2.2.2⟩

/-! ## File failures -/

theorem read_file_not_open (env : Env) (fs : FileSys) (p : CStr) (h : fopen_r fs p = none) :
    read_file env fs (some p) = Outcome.ret none := by
  rw [read_file_eq, h]

theorem write_file_locked (env : Env) (fs : FileSys) (p : CStr) (contents : Option CStr)
    (hw : fs.writable p = false) :
    write_file env fs (some p) contents true = Outcome.exit EXIT_FAILURE := by
  have ht : ∀ old, write_file_tail fs p contents old = Outcome.exit EXIT_FAILURE := by
    intro old
    simp [write_file_tail, fopen_w, hw]
  cases h : fopen_r fs p with
  | none => simp [write_file, h, ht]
  | some d =>
    obtain ⟨r, hr⟩ := read_file_returns env fs (some p)
    simp [write_file, h, hr, ht]

theorem wexitstatus_exited (code : Nat) :
    WEXITSTATUS (wait_status (ChildFate.exited code)) = code % 256 := by
  simp only [WEXITSTATUS, wait_status]
  omega

theorem wexitstatus_signaled (sig : Nat) :
    WEXITSTATUS (wait_status (ChildFate.signaled sig)) = 0 := by
  simp only [WEXITSTATUS, wait_status]
  omega

theorem parent_branch_value (t : SandboxTest) (ht : t ≠ SandboxTest.prompt) (status : Nat) :
    parent_branch t status
      = if WEXITSTATUS status = 255 then Verdict.not_implemented
        else if status ≠ 0 then Verdict.functional_failure
        else Verdict.reads_result := by
  cases t <;> first | exact absurd rfl ht | rfl

/-- C16 as amended: in the parent branch of every one of the five tests, exit
code 255 records the function as not implemented and fails the test, and
status 0 lets the test go on to read its result. In the four tests with a
shared slot every other non-zero status (another exit code, or termination by
a signal such as the kill signal) fails the test as a functional failure, and
only status 0 reaches the slot. In `test_2d_prompt_target_enrollment_prompt`
every status other than exit code 255, termination by a signal included, lets
the test go on to read the output file. -/
theorem exit_classification (t : SandboxTest) (code sig : Nat) (hc : code < 256)
    (hs : 0 < sig ∧ sig < 128) :
    parent_branch t (wait_status (ChildFate.exited 255)) = Verdict.not_implemented
      ∧ parent_branch t (wait_status (ChildFate.completed true)) = Verdict.not_implemented
      ∧ parent_branch t 0 = Verdict.reads_result
      ∧ (t ≠ SandboxTest.prompt → code ≠ 0 → code ≠ 255 →
          parent_branch t (wait_status (ChildFate.exited code)) = Verdict.functional_failure)
      ∧ (t ≠ SandboxTest.prompt →
          parent_branch t (wait_status (ChildFate.signaled sig)) = Verdict.functional_failure)
      ∧ (t ≠ SandboxTest.prompt → ∀ status,
          parent_branch t status = Verdict.reads_result → status = 0)
      ∧ (code ≠ 255 → parent_branch SandboxTest.prompt (wait_status (ChildFate.exited code))
          = Verdict.reads_result)
      ∧ parent_branch SandboxTest.prompt (wait_status (ChildFate.signaled sig))
          = Verdict.reads_result := by
  have h255 : WEXITSTATUS (wait_status (ChildFate.exited 255)) = 255 := by decide
  have hcode : WEXITSTATUS (wait_status (ChildFate.exited code)) = code := by
    rw [wexitstatus_exited]
    omega
  have hsig := wexitstatus_signaled sig
  refine ⟨?_, ?_, ?_, ?_, ?_, ?_, ?_, ?_⟩
  · cases t <;> simp [parent_branch, h255]
  · cases t <;> decide
  · cases t <;> decide
  · intro ht h0 h1
    rw [parent_branch_value t ht, hcode]
    have : wait_status (ChildFate.exited code) ≠ 0 := by
      simp only [wait_status]
      omega
    simp [h1, this]
  · intro ht
    rw [parent_branch_value t ht, hsig]
    have : wait_status (ChildFate.signaled sig) ≠ 0 := by
      simp only [wait_status]
      omega
    simp [this]
  · intro ht status h
    rw [parent_branch_value t ht] at h
    by_cases h1 : WEXITSTATUS status = 255
    · simp [h1] at h
    · by_cases h2 : status = 0
      · exact h2
      · simp [h1, h2] at h
  · intro h1
    simp [parent_branch, hcode, h1]
  · simp [parent_branch, hsig]

/-- Counterexample to C16: in `test_2d_prompt_target_enrollment_prompt` a child
terminated by the kill signal leaves a non-zero status that is not exit code
255, and the parent branch goes on to read the output file instead of failing
the test. -/
theorem exit_classification_counterexample :
    wait_status (ChildFate.signaled SIGKILL) ≠ 0
      ∧ WEXITSTATUS (wait_status (ChildFate.signaled SIGKILL)) ≠ 255
      ∧ parent_branch SandboxTest.prompt (wait_status (ChildFate.signaled SIGKILL))
        = Verdict.reads_result
      ∧ (run_sandbox_test SandboxTest.prompt
          ⟨false, true, true, ChildFate.signaled SIGKILL⟩).verdict = Verdict.reads_result := by
  decide

/-- Witness of C16 as amended, with exit code 3 and the kill signal in
`test_2d_prompt_target_enrollment_negative`. -/
theorem exit_classification_witness :
    ((3 : Nat) < 256 ∧ 0 < SIGKILL ∧ SIGKILL < 128)
      ∧ parent_branch SandboxTest.negative (wait_status (ChildFate.exited 3))
        = Verdict.functional_failure
      ∧ parent_branch SandboxTest.negative (wait_status (ChildFate.signaled SIGKILL))
        = Verdict.functional_failure
      ∧ parent_branch SandboxTest.negative (wait_status (ChildFate.exited 255))
        = Verdict.not_implemented := by
  have h := exit_classification SandboxTest.negative 3 SIGKILL (by decide) (by decide)
  exact ⟨by decide, h.2.2.2.1 (by decide) (by decide) (by decide), h.2.2.2.2.1 (by decide), h.1⟩

/-- C17 (the failing part): in `test_2d_prompt_target_enrollment_negative` a
child killed before its cleanup leaves both temp files and the segment, which
the parent neither detaches nor removes; a child that completes removes the
files and the segment, and the parent stays attached; and in
`test_2d_prompt_target_enrollment_nonnumeric` a failed `fork` leaves both
files and the segment. -/
theorem sandbox_resources_left :
    (run_sandbox_test SandboxTest.negative
        ⟨false, true, true, ChildFate.signaled SIGKILL⟩).resources
        = ⟨true, true, true, true, false⟩
      ∧ (run_sandbox_test SandboxTest.negative
        ⟨false, true, true, ChildFate.completed false⟩).resources
        = ⟨false, false, true, true, true⟩
      ∧ (run_sandbox_test SandboxTest.nonnumeric
        ⟨false, true, false, ChildFate.completed false⟩).resources
        = ⟨true, true, true, true, false⟩
      ∧ (run_sandbox_test SandboxTest.negative
        ⟨false, true, true, ChildFate.signaled SIGKILL⟩).resources.released = false
      ∧ (run_sandbox_test SandboxTest.negative
        ⟨false, true, true, ChildFate.completed false⟩).resources.released = false
      ∧ (run_sandbox_test SandboxTest.nonnumeric
        ⟨false, true, false, ChildFate.completed false⟩).resources.released = false := by
  decide

/-! ## Growth-rate description -/

/-- A representable number that is at least `2^-7` is a multiple of
`2^-59`. -/
theorem representable_grid {q : ℚ} (hq : Representable q) (h : (1 / 128 : ℚ) ≤ q) :
    ∃ N : ℤ, q = N / 2 ^ 59 := by
  obtain ⟨m, n, hm, rfl⟩ := hq
  by_cases hn : 1015 ≤ n
  · obtain ⟨k, rfl⟩ : ∃ k, n = 1015 + k := ⟨n - 1015, by omega⟩
    refine ⟨m * 2 ^ k, ?_⟩
    have e : (2 : ℚ) ^ 1074 = 2 ^ 1015 * 2 ^ 59 := by norm_num
    rw [e, pow_add]
    push_cast
    field_simp
    ring
  · exfalso
    have hn2 : n ≤ 1014 := by omega
    have hm1 : (m : ℚ) < 2 ^ 53 := by
      have : m < 2 ^ 53 := lt_of_le_of_lt (le_abs_self m) hm
      exact_mod_cast this
    have hp : (2 : ℚ) ^ n ≤ 2 ^ 1014 := pow_le_pow_right₀ (by norm_num) hn2
    have hpos : (0 : ℚ) < 2 ^ n := by positivity
    have h1 : (m : ℚ) * 2 ^ n < 2 ^ 53 * 2 ^ 1014 := by
      calc (m : ℚ) * 2 ^ n < 2 ^ 53 * 2 ^ n := by
            exact mul_lt_mul_of_pos_right hm1 hpos
        _ ≤ 2 ^ 53 * 2 ^ 1014 := by
            exact mul_le_mul_of_nonneg_left hp (by positivity)
    have h2 : (m : ℚ) * 2 ^ n / 2 ^ 1074 < 2 ^ 53 * 2 ^ 1014 / 2 ^ 1074 :=
      div_lt_div_of_pos_right h1 (by positivity)
    have h3 : (2 : ℚ) ^ 53 * 2 ^ 1014 / 2 ^ 1074 = 1 / 128 := by norm_num
    rw [h3] at h2
    exact absurd h (not_le.2 h2)

/-- Between a decimal bound `t` and the double `K / 2^59` nearest above it lies
no double. -/
theorem representable_threshold {q t : ℚ} (K : ℤ) (hq : Representable q)
    (ht : (1 / 128 : ℚ) ≤ t) (hlow : ((K - 1 : ℤ) : ℚ) / 2 ^ 59 < t)
    (hup : t ≤ (K : ℚ) / 2 ^ 59) : q < (K : ℚ) / 2 ^ 59 ↔ q < t := by
  constructor
  · intro h
    by_contra hc
    have hge : t ≤ q := not_lt.1 hc
    obtain ⟨N, rfl⟩ := representable_grid hq (le_trans ht hge)
    have hpos : (0 : ℚ) < 2 ^ 59 := by positivity
    have h1 : (N : ℚ) < K := by
      have := (div_lt_div_iff_of_pos_right hpos).1 h
      exact this
    have h2 : ((K - 1 : ℤ) : ℚ) < N := by
      have := lt_of_lt_of_le hlow hge
      exact (div_lt_div_iff_of_pos_right hpos).1 this
    have h1' : N < K := by exact_mod_cast h1
    have h2' : K - 1 < N := by exact_mod_cast h2
    omega
  · intro h
    exact lt_of_lt_of_le h hup

theorem lt_0_01_iff {q : ℚ} (hq : Representable q) :
    q < 5764607523034235 / 576460752303423488 ↔ q < 1 / 100 := by
  have h := representable_threshold (t := 1 / 100) 5764607523034235 hq (by norm_num)
    (by norm_num) (by norm_num)
  have e : ((5764607523034235 : ℤ) : ℚ) / 2 ^ 59 = 5764607523034235 / 576460752303423488 := by
    norm_num
  rw [e] at h
  exact h

theorem lt_0_02_iff {q : ℚ} (hq : Representable q) :
    q < 5764607523034235 / 288230376151711744 ↔ q < 1 / 50 := by
  have h := representable_threshold (t := 1 / 50) 11529215046068470 hq (by norm_num)
    (by norm_num) (by norm_num)
  have e : ((11529215046068470 : ℤ) : ℚ) / 2 ^ 59 = 5764607523034235 / 288230376151711744 := by
    norm_num
  rw [e] at h
  exact h

theorem lt_0_04_iff {q : ℚ} (hq : Representable q) :
    q < 5764607523034235 / 144115188075855872 ↔ q < 1 / 25 := by
  have h := representable_threshold (t := 1 / 25) 23058430092136940 hq (by norm_num)
    (by norm_num) (by norm_num)
  have e : ((23058430092136940 : ℤ) : ℚ) / 2 ^ 59 = 5764607523034235 / 144115188075855872 := by
    norm_num
  rw [e] at h
  exact h

theorem bracket_le_four (r : Double) (b : Nat) (hb : bracket r = some b) : b ≤ 4 := by
  cases r with
  | nan => simp [bracket] at hb
  | neg_inf => simp [bracket] at hb; omega
  | pos_inf => simp [bracket] at hb; omega
  | num q =>
    simp only [bracket] at hb
    split_ifs at hb <;> simp at hb <;> omega

/-- The description of a rate is the label of its bracket followed by a
newline. -/
theorem description_eq (r : Double) (hv : r.IsValue) (b : Nat) (hb : bracket r = some b) :
    get_growth_rate_description r = bracket_label b ++ [10] := by
  cases r with
  | nan => simp [bracket] at hb
  | neg_inf =>
    simp only [bracket, Option.some.injEq] at hb
    subst hb
    simp [get_growth_rate_description, Double.lt]
    decide
  | pos_inf =>
    simp only [bracket, Option.some.injEq] at hb
    subst hb
    simp [get_growth_rate_description, Double.lt, Double.ge, lit_0_01, lit_0_02, lit_0_04]
    decide
  | num q =>
    have hq : Representable q := hv
    have h1 := lt_0_01_iff hq
    have h2 := lt_0_02_iff hq
    have h4 := lt_0_04_iff hq
    simp only [bracket] at hb
    simp only [get_growth_rate_description, Double.lt, Double.ge, lit_0_01, lit_0_02, lit_0_04,
      decide_eq_true_eq, Bool.and_eq_true, Bool.not_eq_true', decide_eq_false_iff_not, h1, h2,
      h4]
    by_cases c0 : q < 0
    · simp only [c0, if_true, Option.some.injEq] at hb
      subst hb
      simp only [c0, if_true]
      decide
    · by_cases c1 : q < 1 / 100
      · simp only [c0, c1, if_true, if_false, Option.some.injEq] at hb
        subst hb
        simp only [c0, c1, not_false_eq_true, true_and, if_true, if_false]
        decide
      · by_cases c2 : q < 1 / 50
        · simp only [c0, c1, c2, if_true, if_false, Option.some.injEq] at hb
          subst hb
          simp only [c0, c1, c2, not_false_eq_true, true_and, and_false, if_true, if_false]
          decide
        · by_cases c3 : q < 1 / 25
          · simp only [c0, c1, c2, c3, if_true, if_false, Option.some.injEq] at hb
            subst hb
            simp only [c0, c1, c2, c3, not_false_eq_true, true_and, and_false, if_true,
              if_false]
            decide
          · simp only [c0, c1, c2, c3, if_false, Option.some.injEq] at hb
            subst hb
            simp only [c0, c1, c2, c3, not_false_eq_true, true_and, and_false, if_true,
              if_false]
            decide

theorem bracket_label_injective :
    ∀ a, a ≤ 4 → ∀ b, b ≤ 4 → bracket_label a = bracket_label b → a = b := by
  decide

theorem bracket_some (r : Double) (hn : r ≠ Double.nan) : ∃ b, bracket r = some b := by
  cases r with
  | nan => exact absurd rfl hn
  | neg_inf => exact ⟨0, rfl⟩
  | pos_inf => exact ⟨4, rfl⟩
  | num q =>
    simp only [bracket]
    split_ifs <;> exact ⟨_, rfl⟩

/-- C18 (the failing part): the description is not the bare label: on the rates
-0.01, 0, 0.01, 0.02 and 0.04 of the tests the function returns `negative`,
`reasonable`, `ambitious`, `high` and `unreasonable` each followed by a
newline character. -/
theorem description_has_newline :
    (get_growth_rate_description (Double.num (-(5764607523034235 / 576460752303423488)))
        = cstr "negative\n"
      ∧ get_growth_rate_description (Double.num 0) = cstr "reasonable\n"
      ∧ get_growth_rate_description lit_0_01 = cstr "ambitious\n"
      ∧ get_growth_rate_description lit_0_02 = cstr "high\n"
      ∧ get_growth_rate_description lit_0_04 = cstr "unreasonable\n")
    ∧ (cstr "negative\n" ≠ cstr "negative" ∧ cstr "reasonable\n" ≠ cstr "reasonable"
      ∧ cstr "ambitious\n" ≠ cstr "ambitious" ∧ cstr "high\n" ≠ cstr "high"
      ∧ cstr "unreasonable\n" ≠ cstr "unreasonable") := by
  refine ⟨⟨?_, ?_, ?_, ?_, ?_⟩, by decide⟩ <;>
    norm_num [get_growth_rate_description, Double.lt, Double.ge, lit_0_01, lit_0_02, lit_0_04]

/-- C19: on the doubles that are numbers, `get_growth_rate_description` draws
the five brackets `r < 0`, `[0, 0.01)`, `[0.01, 0.02)`, `[0.02, 0.04)` and
`[0.04, infinity)` of the specification: every rate has a bracket, its
description is the label of the bracket followed by a newline, the five labels
are pairwise distinct, and two rates get the same string exactly when they lie
in the same bracket. The bounds 0, 0.01, 0.02 and 0.04 lie in the bracket
above them. -/
theorem description_brackets (r1 r2 : Double) (h1 : r1.IsValue) (h2 : r2.IsValue)
    (n1 : r1 ≠ Double.nan) (n2 : r2 ≠ Double.nan) :
    (∃ b, bracket r1 = some b ∧ b ≤ 4
        ∧ get_growth_rate_description r1 = bracket_label b ++ [10])
      ∧ (∀ a, a ≤ 4 → ∀ b, b ≤ 4 → bracket_label a = bracket_label b → a = b)
      ∧ (get_growth_rate_description r1 = get_growth_rate_description r2
          ↔ bracket r1 = bracket r2)
      ∧ (bracket (Double.num 0) = some 1 ∧ bracket lit_0_01 = some 2
          ∧ bracket lit_0_02 = some 3 ∧ bracket lit_0_04 = some 4) := by
  obtain ⟨b1, hb1⟩ := bracket_some r1 n1
  obtain ⟨b2, hb2⟩ := bracket_some r2 n2
  have l1 := bracket_le_four r1 b1 hb1
  have l2 := bracket_le_four r2 b2 hb2
  have d1 := description_eq r1 h1 b1 hb1
  have d2 := description_eq r2 h2 b2 hb2
  refine ⟨⟨b1, hb1, l1, d1⟩, bracket_label_injective, ?_, ?_⟩
  · rw [d1, d2, hb1, hb2]
    constructor
    · intro h
      have h3 := List.append_cancel_right h
      rw [bracket_label_injective b1 l1 b2 l2 h3]
    · intro h
      cases h
      rfl
  · refine ⟨?_, ?_, ?_, ?_⟩ <;> norm_num [bracket, lit_0_01, lit_0_02, lit_0_04]

theorem representable_zero : Representable 0 := ⟨0, 0, by norm_num, by norm_num⟩

theorem representable_0_01 :
    Representable (5764607523034235 / 576460752303423488) :=
  ⟨5764607523034235, 1015, by norm_num, by norm_num⟩

/-- Witness of C19 on the rates 0 and 0.01, which lie in different brackets
and get different strings. -/
theorem description_brackets_witness :
    ((Double.num 0).IsValue ∧ lit_0_01.IsValue ∧ Double.num 0 ≠ Double.nan
        ∧ lit_0_01 ≠ Double.nan)
      ∧ get_growth_rate_description (Double.num 0) ≠ get_growth_rate_description lit_0_01 := by
  have h := description_brackets (Double.num 0) lit_0_01 representable_zero representable_0_01
    (by decide) (by decide)
  refine ⟨⟨representable_zero, representable_0_01, by decide, by decide⟩, ?_⟩
  intro hc
  have hb := h.2.2.1.1 hc
  rw [h.2.2.2.1, h.2.2.2.2.1] at hb
  cases hb

/-! ## Newline cleanup -/

theorem memmove_overrun (buf : List Nat) (dst src n : Nat) (h : buf.length < src + n) :
    memmove buf dst src n = none := by
  unfold memmove
  rw [if_neg (by omega)]

theorem clean_newlines_loop_step (f : Nat) (s t : List Nat) (hs : NulFree s) :
    clean_newlines_loop (f + 1) (s ++ 0 :: t)
      = match strstr s [13, 10] with
        | none => Outcome.ret (s ++ 0 :: t)
        | some off =>
          match memmove (s ++ 0 :: t) off (off + 1) (s.length - off + 1 + 1) with
          | none => Outcome.fault
          | some buf1 => clean_newlines_loop f buf1 := by
  rw [clean_newlines_loop, c_str_append_nul s t hs]

theorem clean_newlines_fault (env : Env) (s : CStr) (off : Nat) (hs : NulFree s)
    (hm : env.malloc_ok (s.length + 1) = true) (h : strstr s [13, 10] = some off) :
    clean_newlines env (some s) = Outcome.fault := by
  have hov : memmove (s ++ [0]) off (off + 1) (s.length - off + 1 + 1) = none :=
    memmove_overrun _ _ _ _ (by simp only [List.length_append, List.length_singleton]; omega)
  simp only [clean_newlines, duplicate_string, malloc, hm, if_true]
  rw [clean_newlines_loop_step _ s [] hs, h]
  simp only [hov]
  rfl

theorem clean_newlines_keep (env : Env) (s : CStr) (hs : NulFree s)
    (hm : env.malloc_ok (s.length + 1) = true) (h : strstr s [13, 10] = none) :
    clean_newlines env (some s) = Outcome.ret (some s) := by
  simp only [clean_newlines, duplicate_string, malloc, hm, if_true]
  rw [clean_newlines_loop_step _ s [] hs, h]
  simp only [Outcome.ret_bind, c_str_append_nul s [] hs, Outcome.ofOption]

theorem strstr_cons_none {c : Nat} {t needle : CStr} (h : strstr (c :: t) needle = none) :
    needle.isPrefixOf (c :: t) = false ∧ strstr t needle = none := by
  rw [strstr] at h
  split at h
  · cases h
  · rename_i hp
    refine ⟨Bool.eq_false_iff.2 hp, ?_⟩
    cases ht : strstr t needle with
    | none => rfl
    | some i => rw [ht] at h; cases h

theorem replace_crlf_of_none (s : CStr) (h : strstr s [13, 10] = none) : replace_crlf s = s := by
  induction s with
  | nil => rfl
  | cons c t ih =>
    obtain ⟨hp, ht⟩ := strstr_cons_none h
    cases t with
    | nil => rfl
    | cons d u =>
      rw [replace_crlf]
      have hcd : ¬ (c = 13 ∧ d = 10) := by
        rintro ⟨rfl, rfl⟩
        simp [List.isPrefixOf] at hp
      rw [if_neg hcd, ih ht]

/-- C28 (the failing part): the first move of `clean_newlines` leaves the block
of the duplicate. On every well-formed string that holds a CR LF pair, at
offset `off`, the call `memmove(newline, newline + 1, strlen - off + 2)` reads
up to offset `strlen + 3` of a block of `strlen + 1` bytes, so with partial
indexing the move is undefined and so is the call; `a\r\nb` is such a string. -/
theorem clean_newlines_overrun :
    (∀ (env : Env) (s : CStr) (off : Nat), NulFree s → env.malloc_ok (s.length + 1) = true →
        strstr s [13, 10] = some off →
          (s ++ [0]).length < (off + 1) + (s.length - off + 1 + 1)
            ∧ memmove (s ++ [0]) off (off + 1) (s.length - off + 1 + 1) = none
            ∧ clean_newlines env (some s) = Outcome.fault)
      ∧ strstr (cstr "a\r\nb") [13, 10] = some 1
      ∧ memmove (cstr "a\r\nb" ++ [0]) 1 2 5 = none
      ∧ clean_newlines env_ok (some (cstr "a\r\nb")) = Outcome.fault := by
  refine ⟨?_, by decide, by decide, by decide⟩
  intro env s off hs hm h
  have hlen : (s ++ [0]).length < (off + 1) + (s.length - off + 1 + 1) := by
    simp only [List.length_append, List.length_singleton]
    omega
  exact ⟨hlen, memmove_overrun _ _ _ _ hlen, clean_newlines_fault env s off hs hm h⟩

/-- C29 (the failing part): `clean_newlines(NULL)` is NULL and a string without
a CR LF pair is returned unchanged, as the claim says, but on a string that
holds a CR LF pair the call is undefined (the overrun of C28) instead of
returning the string with the pair replaced: `a\r\nb` does not give `a\nb`.
And the loop searches again from the start of the string after every move, so
on a block with spare room `\r\r\n` ends as `\n`, not as `\r\n`. -/
theorem clean_newlines_crlf :
    (∀ env : Env, clean_newlines env none = Outcome.ret none)
      ∧ (∀ (env : Env) (s : CStr), NulFree s → env.malloc_ok (s.length + 1) = true →
          strstr s [13, 10] = none →
            clean_newlines env (some s) = Outcome.ret (some (replace_crlf s)))
      ∧ replace_crlf (cstr "a\r\nb") = cstr "a\nb"
      ∧ clean_newlines env_ok (some (cstr "a\r\nb")) = Outcome.fault
      ∧ replace_crlf (cstr "\r\r\n") = cstr "\r\n"
      ∧ (clean_newlines_loop 4 (cstr "\r\r\n" ++ [0, 255, 255])).bind
          (fun buf => Outcome.ofOption (c_str buf)) = Outcome.ret (cstr "\n") := by
  refine ⟨fun _ => rfl, ?_, by decide, by decide, by decide, by decide⟩
  intro env s hs hm h
  rw [replace_crlf_of_none s h]
  exact clean_newlines_keep env s hs hm h

/-! ## Flexible matching -/

theorem and_or_mem (o a b c d e x : Nat)
    (h : x = a ∨ x = b ∨ x = c ∨ x = d ∨ x = e) :
    (o ||| (a ||| b ||| c ||| d ||| e ||| b)) &&& x = x := by
  apply Nat.eq_of_testBit_eq
  intro i
  simp only [Nat.testBit_and, Nat.testBit_or]
  rcases h with rfl | rfl | rfl | rfl | rfl <;> cases Nat.testBit x i <;> simp

theorem expand_flexible_all (F : TextMatching) (hF : F.NonZero) :
    (expand_flexible F F.FLEXIBLE &&& F.IGNORE_CASE != 0) = true
      ∧ (expand_flexible F F.FLEXIBLE &&& F.IGNORE_WHITESPACE != 0) = true
      ∧ (expand_flexible F F.FLEXIBLE &&& F.IGNORE_LINE_BREAKS != 0) = true
      ∧ (expand_flexible F F.FLEXIBLE &&& F.IGNORE_PERIODS != 0) = true
      ∧ (expand_flexible F F.FLEXIBLE &&& F.IGNORE_PUNCTUATION != 0) = true := by
  obtain ⟨h0, h1, h2, h3, h4, h5⟩ := hF
  unfold expand_flexible
  rw [if_pos (by rw [Nat.and_self]; exact h0)]
  refine ⟨?_, ?_, ?_, ?_, ?_⟩
  · rw [and_or_mem _ _ _ _ _ _ _ (Or.inl rfl)]; exact bne_zero_of_ne_zero h1
  · rw [and_or_mem _ _ _ _ _ _ _ (Or.inr (Or.inr (Or.inl rfl)))]; exact bne_zero_of_ne_zero h2
  · rw [and_or_mem _ _ _ _ _ _ _ (Or.inr (Or.inr (Or.inr (Or.inl rfl))))]
    exact bne_zero_of_ne_zero h3
  · rw [and_or_mem _ _ _ _ _ _ _ (Or.inr (Or.inr (Or.inr (Or.inr rfl))))]
    exact bne_zero_of_ne_zero h4
  · rw [and_or_mem _ _ _ _ _ _ _ (Or.inr (Or.inl rfl))]; exact bne_zero_of_ne_zero h5

theorem isspace_tolower (c : Nat) : isspace (tolower c) = isspace c := by
  unfold tolower
  split
  · rename_i h
    have h1 : isspace (c + 32) = false := by
      simp only [isspace, Bool.or_eq_false_iff, Bool.and_eq_false_iff, beq_eq_false_iff_ne,
        decide_eq_false_iff_not]
      omega
    have h2 : isspace c = false := by
      simp only [isspace, Bool.or_eq_false_iff, Bool.and_eq_false_iff, beq_eq_false_iff_ne,
        decide_eq_false_iff_not]
      omega
    rw [h1, h2]
  · rfl

theorem keep_pred_eq (c : Nat) :
    (!ispunct c && (!(c == 46) && (!(c == 10) && !isspace c))) = (!isspace c && !ispunct c) := by
  by_cases h46 : c = 46
  · subst h46; decide
  · by_cases h10 : c = 10
    · subst h10; decide
    · have e46 : (c == 46) = false := by simpa using h46
      have e10 : (c == 10) = false := by simpa using h10
      rw [e46, e10]
      cases isspace c <;> cases ispunct c <;> rfl

theorem filter_rules (l : CStr) :
    (((l.filter (fun c => !isspace c)).filter (fun c => !(c == 10))).filter
        (fun c => !(c == 46))).filter (fun c => !ispunct c)
      = l.filter (fun c => !isspace c && !ispunct c) := by
  simp only [List.filter_filter]
  congr 1
  funext c
  exact keep_pred_eq c

theorem strip_end_space (s : CStr) (e i : Nat) (h1 : strip_end s e < i) (h2 : i ≤ e) :
    isspace (s.getD i 0) = true := by
  induction e with
  | zero => simp only [strip_end] at h1; omega
  | succ e ih =>
    rw [strip_end] at h1
    by_cases hs : isspace (s.getD (e + 1) 0) = true
    · rw [if_pos hs] at h1
      by_cases hi : i = e + 1
      · rw [hi]; exact hs
      · exact ih h1 (by omega)
    · rw [if_neg hs] at h1
      omega

theorem strip_trailing_dropped (s : CStr) :
    ∃ t : CStr, s = strip_trailing s ++ t ∧ ∀ x ∈ t, isspace x = true := by
  unfold strip_trailing
  by_cases h : s = []
  · exact ⟨[], by simp [h], by simp⟩
  · rw [if_neg h]
    refine ⟨s.drop (strip_end s (s.length - 1) + 1), (List.take_append_drop _ _).symm, ?_⟩
    intro x hx
    obtain ⟨j, hj, rfl⟩ := List.getElem_of_mem hx
    rw [List.length_drop] at hj
    rw [List.getElem_drop]
    have := strip_end_space s (s.length - 1) (strip_end s (s.length - 1) + 1 + j)
      (by omega) (by omega)
    rw [List.getD_eq_getElem _ _ (by omega)] at this
    exact this

theorem strip_trailing_nulFree {s : CStr} (hs : NulFree s) : NulFree (strip_trailing s) := by
  obtain ⟨t, ht, _⟩ := strip_trailing_dropped s
  intro b hb
  exact hs b (by rw [ht]; exact List.mem_append_left _ hb)

theorem strip_trailing_length (s : CStr) : (strip_trailing s).length ≤ s.length := by
  obtain ⟨t, ht, _⟩ := strip_trailing_dropped s
  have := congrArg List.length ht
  rw [List.length_append] at this
  omega

theorem filter_strip_trailing (s : CStr) :
    ((strip_trailing s).map tolower).filter (fun c => !isspace c && !ispunct c)
      = (s.map tolower).filter (fun c => !isspace c && !ispunct c) := by
  obtain ⟨t, ht, hsp⟩ := strip_trailing_dropped s
  have ht2 : (t.map tolower).filter (fun c => !isspace c && !ispunct c) = [] := by
    rw [List.filter_eq_nil_iff]
    intro a ha
    obtain ⟨b, hb, rfl⟩ := List.mem_map.1 ha
    simp [isspace_tolower, hsp b hb]
  conv_rhs => rw [ht, List.map_append, List.filter_append, ht2, List.append_nil]

theorem clean_string_flexible_eq (F : TextMatching) (env : Env) (s : CStr) (hF : F.NonZero)
    (hs : NulFree s) (hm : ∀ n, env.malloc_ok n = true) (hl : s.length ≤ INT_MAX)
    (hc : strstr (strip_trailing s) [13, 10] = none) :
    clean_string F env (some s) F.FLEXIBLE = Outcome.ret (some (flexible_form s)) := by
  obtain ⟨h1, h2, h3, h4, h5⟩ := expand_flexible_all F hF
  have hlen : ¬ (strip_trailing s).length > INT_MAX := by
    have := strip_trailing_length s
    omega
  simp only [clean_string, if_neg hF.1, clean_always, duplicate_string, malloc, hm, if_true,
    clean_newlines_keep env _ (strip_trailing_nulFree hs) (hm _) hc, Outcome.ret_bind,
    apply_rules, h1, h2, h3, h4, h5, apply_rule, lower_case, if_neg hlen, remove_chars,
    filter_rules, flexible_form, filter_strip_trailing]

theorem strstr_none_of_not_mem (l : CStr) (h : 13 ∉ l) : strstr l [13, 10] = none := by
  induction l with
  | nil => simp [strstr]
  | cons c t ih =>
    have hc : c ≠ 13 := fun e => h (by rw [e]; exact List.mem_cons_self _ _)
    have ht : 13 ∉ t := fun m => h (List.mem_cons_of_mem _ m)
    rw [strstr, ih ht]
    have hp : List.isPrefixOf [13, 10] (c :: t) = false := by
      simp [List.isPrefixOf, Ne.symm hc]
    simp [hp]

theorem flexible_form_mem {s : CStr} {c : Nat} (h : c ∈ flexible_form s) :
    ¬ (65 ≤ c ∧ c ≤ 90) ∧ isspace c = false ∧ c ≠ 10 ∧ c ≠ 46 ∧ ispunct c = false := by
  unfold flexible_form at h
  obtain ⟨hm, hp⟩ := List.mem_filter.1 h
  obtain ⟨b, _, rfl⟩ := List.mem_map.1 hm
  have hsp : isspace (tolower b) = false := by
    cases hx : isspace (tolower b) <;> simp [hx] at hp ⊢
  have hpu : ispunct (tolower b) = false := by
    cases hx : ispunct (tolower b) <;> simp [hx] at hp ⊢
  refine ⟨?_, hsp, ?_, ?_, hpu⟩
  · unfold tolower
    split <;> omega
  · intro e
    rw [e] at hsp
    exact absurd hsp (by decide)
  · intro e
    rw [e] at hpu
    exact absurd hpu (by decide)

theorem flexible_form_idem (s : CStr) : flexible_form (flexible_form s) = flexible_form s := by
  have hmap : (flexible_form s).map tolower = flexible_form s := by
    conv_rhs => rw [← List.map_id (flexible_form s)]
    apply List.map_congr_left
    intro c hc
    have := (flexible_form_mem hc).1
    simp only [tolower, id]
    rw [if_neg this]
  conv_lhs => rw [flexible_form, hmap]
  rw [List.filter_eq_self]
  intro c hc
  obtain ⟨_, h1, _, _, h2⟩ := flexible_form_mem hc
  simp [h1, h2]

theorem flexible_form_nulFree {s : CStr} (hs : NulFree s) : NulFree (flexible_form s) := by
  intro b hb
  unfold flexible_form at hb
  obtain ⟨a, ha, rfl⟩ := List.mem_map.1 (List.mem_filter.1 hb).1
  exact tolower_ne_zero (hs a ha)

theorem flexible_form_length (s : CStr) : (flexible_form s).length ≤ s.length := by
  unfold flexible_form
  exact (List.length_filter_le _ _).trans (by rw [List.length_map])

/-! ## Prompt for the enrollment target -/

theorem format_u_head (fuel n : Nat) (acc : List Nat) (h0 : acc = [] → 0 < fuel)
    (h1 : ∀ h t, acc = h :: t → 48 ≤ h ∧ h ≤ 57) :
    ∃ h t, format_u fuel n acc = h :: t ∧ 48 ≤ h ∧ h ≤ 57 := by
  induction fuel generalizing n acc with
  | zero =>
    cases acc with
    | nil => exact absurd (h0 rfl) (by decide)
    | cons h t => exact ⟨h, t, rfl, h1 h t rfl⟩
  | succ f ih =>
    rw [format_u]
    split
    · exact ⟨48 + n, acc, rfl, by omega, by omega⟩
    · apply ih
      · intro h; cases h
      · intro h t e
        cases e
        omega

theorem format_d_head (y : Int) : ∃ h t, format_d y = h :: t ∧ h ≠ 116 := by
  unfold format_d
  split
  · exact ⟨45, _, rfl, by decide⟩
  · obtain ⟨h, t, e, h1, h2⟩ := format_u_head (y.natAbs + 1) y.natAbs [] (fun _ => by omega)
      (fun h t e => by cases e)
    exact ⟨h, t, e, by omega⟩

theorem scanf_d_stdout (c : Console) (x : Int) : (scanf_d c x).1.stdout = c.stdout := by
  unfold scanf_d
  split
  · rfl
  · simp only
    repeat' split
    all_goals rfl

theorem prompt_stdout_grows (fuel : Nat) (y : Int) (c : Console) :
    c.stdout <+: (prompt_target_enrollment fuel y c).1.stdout := by
  induction fuel generalizing y c with
  | zero => exact List.prefix_refl _
  | succ f ih =>
    rw [prompt_target_enrollment]
    have hs := scanf_d_stdout (printf c prompt_text) y
    have hp : c.stdout <+: (scanf_d (printf c prompt_text) y).1.stdout := by
      rw [hs]
      exact List.prefix_append _ _
    change c.stdout <+: (match scanf_d (printf c prompt_text) y with
      | (c2, Outcome.ret y) =>
        if y < 0 then prompt_target_enrollment f y c2 else (c2, Outcome.ret y)
      | (c2, o) => (c2, o)).1.stdout
    split
    · rename_i c2 y2 heq
      rw [heq] at hp
      split
      · exact hp.trans (ih y2 c2)
      · exact hp
    · rename_i c2 o _ heq
      rw [heq] at hp
      exact hp

theorem prompt_stdout_step (f : Nat) (y : Int) (c : Console) :
    c.stdout ++ prompt_text <+: (prompt_target_enrollment (f + 1) y c).1.stdout := by
  rw [prompt_target_enrollment]
  have hs := scanf_d_stdout (printf c prompt_text) y
  have hp : c.stdout ++ prompt_text <+: (scanf_d (printf c prompt_text) y).1.stdout := by
    rw [hs]
    exact List.prefix_refl _
  change c.stdout ++ prompt_text <+: (match scanf_d (printf c prompt_text) y with
    | (c2, Outcome.ret y) =>
      if y < 0 then prompt_target_enrollment f y c2 else (c2, Outcome.ret y)
    | (c2, o) => (c2, o)).1.stdout
  split
  · rename_i c2 y2 heq
    rw [heq] at hp
    split
    · exact hp.trans (prompt_stdout_grows f y2 c2)
    · exact hp
  · rename_i c2 o _ heq
    rw [heq] at hp
    exact hp

theorem prompt_zero_step (y : Int) (fuel : Nat) (rest : List Nat) (t : Bool) (out : CStr) :
    prompt_target_enrollment (fuel + 1) y ⟨cstr "0\n" ++ rest, t, out⟩
      = (⟨cstr "\n" ++ rest, t, out ++ prompt_text⟩, Outcome.ret 0) := by
  simp [prompt_target_enrollment, scanf_d, printf, prompt_text, cstr, isspace, isdigit,
    digits_value, INT_MIN, INT_MAX]

theorem prompt_nonnumeric_step (y : Int) (fuel : Nat) (rest : List Nat) (t : Bool) (out : CStr) :
    prompt_target_enrollment (fuel + 1) y ⟨cstr "abc\n" ++ rest, t, out⟩
      = if y < 0 then prompt_target_enrollment fuel y ⟨cstr "abc\n" ++ rest, t, out ++ prompt_text⟩
        else (⟨cstr "abc\n" ++ rest, t, out ++ prompt_text⟩, Outcome.ret y) := by
  simp [prompt_target_enrollment, scanf_d, printf, prompt_text, cstr, isspace, isdigit]

theorem prompt_nonnumeric_loop (y : Int) (hy : y < 0) (rest : List Nat) (t : Bool) (fuel : Nat)
    (out : CStr) :
    (prompt_target_enrollment fuel y ⟨cstr "abc\n" ++ rest, t, out⟩).2 = Outcome.diverge := by
  induction fuel generalizing out with
  | zero => rfl
  | succ f ih => rw [prompt_nonnumeric_step, if_pos hy]; exact ih _

/-- C24 (the failing part): the prompt does not name the year. On a terminal
where nothing is typed the call waits in its first read, for every year `y`,
having written the text `Enter the enrollment target for the year
target_year: `, and on every console this text is what the call writes first.
Its first line, trimmed, ends in the word `target_year:` and so differs from
the prompt with the decimal digits of `y` that the test expects, whatever `y`
is. -/
theorem prompt_text_ignores_year :
    (∀ (y : Int) (fuel : Nat),
        prompt_target_enrollment (fuel + 1) y ⟨[], true, []⟩
          = (⟨[], true, prompt_text⟩, Outcome.diverge))
      ∧ (∀ (y : Int) (fuel : Nat) (c : Console),
          c.stdout ++ prompt_text <+: (prompt_target_enrollment (fuel + 1) y c).1.stdout)
      ∧ fgets 100 prompt_text = some prompt_text
      ∧ test_support_trim env_ok (some prompt_text)
        = Outcome.ret (some (cstr "Enter the enrollment target for the year target_year:"))
      ∧ (∀ y : Int,
          expected_prompt y ≠ cstr "Enter the enrollment target for the year target_year:")
      ∧ expected_prompt 2040 = cstr "Enter the enrollment target for the year 2040:" := by
  refine ⟨fun _ _ => rfl, fun y fuel c => prompt_stdout_step fuel y c, by decide, ?_, ?_,
    by decide⟩
  · rw [test_support_trim_eq env_ok prompt_text (by decide) (by decide)]
    decide
  · intro y h
    obtain ⟨d, t, e, hd⟩ := format_d_head y
    have h2 : cstr "Enter the enrollment target for the year target_year:"
        = cstr "Enter the enrollment target for the year " ++ cstr "target_year:" := by decide
    rw [expected_prompt, h2, List.append_assoc, List.append_cancel_left_eq, e] at h
    have h3 := congrArg List.head? h
    simp [cstr] at h3
    exact hd h3

/-- C25 (the failing part): a zero is accepted. Whatever the year and whatever
follows on standard input, when the first line of the input is `0` the call
prints one prompt and returns 0, so on the input of the test, `0`, `0`, `v`,
it returns 0 and not `v`. Negative values are rejected as the claim says: on
`-5`, `-17`, `12345` the call prompts three times and returns 12345. -/
theorem prompt_accepts_zero :
    (∀ (y : Int) (fuel : Nat) (rest : List Nat) (t : Bool) (out : CStr),
        prompt_target_enrollment (fuel + 1) y ⟨cstr "0\n" ++ rest, t, out⟩
          = (⟨cstr "\n" ++ rest, t, out ++ prompt_text⟩, Outcome.ret 0))
      ∧ prompt_target_enrollment 3 2032 ⟨cstr "0\n0\n12345\n", false, []⟩
        = (⟨cstr "\n0\n12345\n", false, prompt_text⟩, Outcome.ret 0)
      ∧ prompt_target_enrollment 3 2022 ⟨cstr "-5\n-17\n12345\n", false, []⟩
        = (⟨cstr "\n", false, prompt_text ++ prompt_text ++ prompt_text⟩, Outcome.ret 12345) :=
  ⟨prompt_zero_step, by decide, by decide⟩

/-- C26 (the failing part): text that is no number is never read over. On the
input of the test, the lines `abc`, `def`, `29862`, with the year 2024 the
call prints one prompt, fails to read a number, and returns the year 2024
itself, not 29862, leaving the whole input unread; the same holds for every
year that is not negative. With a negative year the call never returns: it
prompts again and again on the same unread text. -/
theorem prompt_nonnumeric :
    prompt_target_enrollment 3 2024 ⟨cstr "abc\ndef\n29862\n", false, []⟩
        = (⟨cstr "abc\ndef\n29862\n", false, prompt_text⟩, Outcome.ret 2024)
      ∧ (∀ (y : Int) (fuel : Nat) (rest : List Nat) (t : Bool) (out : CStr), 0 ≤ y →
          prompt_target_enrollment (fuel + 1) y ⟨cstr "abc\n" ++ rest, t, out⟩
            = (⟨cstr "abc\n" ++ rest, t, out ++ prompt_text⟩, Outcome.ret y))
      ∧ (∀ (y : Int) (fuel : Nat) (rest : List Nat) (t : Bool) (out : CStr), y < 0 →
          (prompt_target_enrollment fuel y ⟨cstr "abc\n" ++ rest, t, out⟩).2
            = Outcome.diverge) := by
  refine ⟨by decide, ?_, ?_⟩
  · intro y fuel rest t out hy
    rw [prompt_nonnumeric_step, if_neg (by omega)]
  · intro y fuel rest t out hy
    exact prompt_nonnumeric_loop y hy rest t fuel out

/-! ## Rounding to double -/

theorem round_half_even_int (n : ℤ) : round_half_even (n : ℚ) = n := by
  simp [round_half_even]

theorem le_round_half_even {n : ℤ} {x : ℚ} (h : (n : ℚ) ≤ x) : n ≤ round_half_even x := by
  have hf : n ≤ ⌊x⌋ := Int.le_floor.2 h
  unfold round_half_even
  split_ifs <;> omega

theorem round_half_even_le {n : ℤ} {x : ℚ} (h : x ≤ (n : ℚ)) : round_half_even x ≤ n := by
  have hf : ⌊x⌋ ≤ n := by
    have := Int.floor_le x
    exact_mod_cast (this.trans h)
  unfold round_half_even
  split_ifs with h1 h2 h3
  · exact hf
  · have hlt : ⌊x⌋ < n := by
      rw [Int.floor_lt]
      rcases lt_or_eq_of_le h with h4 | h4
      · exact h4
      · exfalso
        rw [h4, Int.floor_intCast] at h2
        simp at h2
        linarith
    omega
  · exact hf
  · have hlt : ⌊x⌋ < n := by
      rw [Int.floor_lt]
      rcases lt_or_eq_of_le h with h4 | h4
      · exact h4
      · exfalso
        rw [h4, Int.floor_intCast] at h1
        simp at h1
    omega

theorem representable_zpow {a : ℚ} (ha : Representable a) :
    ∃ (m : ℤ) (n : ℕ), |(m : ℚ)| < 2 ^ (53 : ℤ) ∧ a = m * 2 ^ ((n : ℤ) - 1074) := by
  obtain ⟨m, n, hm, rfl⟩ := ha
  refine ⟨m, n, ?_, ?_⟩
  · have : ((|m| : ℤ) : ℚ) < ((2 ^ 53 : ℤ) : ℚ) := by exact_mod_cast hm
    rw [zpow_ofNat]
    simpa using this
  · rw [zpow_sub₀ (two_ne_zero), zpow_natCast, zpow_ofNat, mul_div_assoc]

theorem representable_multiple {a : ℚ} {e : ℤ} (ha : Representable a)
    (h : (2 : ℚ) ^ e ≤ |a| ∨ e ≤ -1022) : ∃ z : ℤ, a = z * 2 ^ (e - 52) := by
  obtain ⟨m, n, hm, rfl⟩ := representable_zpow ha
  have hd : 0 ≤ (n : ℤ) - 1074 - (e - 52) := by
    rcases h with h | h
    · by_contra hneg
      rw [abs_mul, abs_of_pos (by positivity : (0 : ℚ) < 2 ^ ((n : ℤ) - 1074))] at h
      have h1 : |(m : ℚ)| * 2 ^ ((n : ℤ) - 1074) < 2 ^ (53 : ℤ) * 2 ^ ((n : ℤ) - 1074) :=
        mul_lt_mul_of_pos_right hm (by positivity)
      rw [← zpow_add₀ (by norm_num : (2 : ℚ) ≠ 0)] at h1
      have h2 : (2 : ℚ) ^ (53 + ((n : ℤ) - 1074)) ≤ 2 ^ e :=
        zpow_le_zpow_right₀ (by norm_num) (by omega)
      linarith
    · omega
  obtain ⟨d, hdd⟩ := Int.eq_ofNat_of_zero_le hd
  refine ⟨m * 2 ^ d, ?_⟩
  have he : (n : ℤ) - 1074 = d + (e - 52) := by omega
  rw [he, zpow_add₀ (by norm_num : (2 : ℚ) ≠ 0), zpow_natCast]
  push_cast
  ring

theorem binade_ge (q : ℚ) : -1022 ≤ binade q := le_max_right _ _

theorem binade_le_abs {q : ℚ} (hq : q ≠ 0) : (2 : ℚ) ^ binade q ≤ |q| ∨ binade q ≤ -1022 := by
  unfold binade
  rcases le_total (Int.log 2 |q|) (-1022) with h | h
  · right
    rw [max_eq_right h]
  · left
    rw [max_eq_left h]
    have := Int.zpow_log_le_self (b := 2) (r := |q|) (by norm_num) (abs_pos.2 hq)
    simpa using this

theorem abs_lt_binade (q : ℚ) : |q| < (2 : ℚ) ^ (binade q + 1) := by
  have h1 := Int.lt_zpow_succ_log_self (b := 2) (by norm_num) |q|
  have h2 : (2 : ℚ) ^ (Int.log 2 |q| + 1) ≤ 2 ^ (binade q + 1) :=
    zpow_le_zpow_right₀ (by norm_num) (by unfold binade; have := le_max_left (Int.log 2 |q|) (-1022); omega)
  have h3 : |q| < (2 : ℚ) ^ (Int.log 2 |q| + 1) := by simpa using h1
  linarith

theorem binade_eq {q : ℚ} {e : ℤ} (h1 : (2 : ℚ) ^ e ≤ |q|) (h2 : |q| < 2 ^ (e + 1))
    (he : -1022 ≤ e) : binade q = e := by
  have hpos : 0 < |q| := lt_of_lt_of_le (by positivity) h1
  have hlog : Int.log 2 |q| = e := by
    apply le_antisymm
    · have := (Int.lt_zpow_iff_log_lt (b := 2) (by norm_num) hpos).1 (by simpa using h2)
      omega
    · exact (Int.zpow_le_iff_le_log (b := 2) (by norm_num) hpos).1 (by simpa using h1)
  unfold binade
  rw [hlog, max_eq_left he]

theorem round_value_multiple {q : ℚ} {z : ℤ} (h : q = z * 2 ^ (binade q - 52)) :
    round_value q = q := by
  have hu : (2 : ℚ) ^ (binade q - 52) ≠ 0 := by positivity
  have hz : q / 2 ^ (binade q - 52) = z := by
    rw [div_eq_iff hu]
    exact h
  unfold round_value
  rw [hz, round_half_even_int, ← h]

theorem round_value_representable {q : ℚ} (hq : Representable q) : round_value q = q := by
  by_cases h0 : q = 0
  · subst h0
    simp [round_value, round_half_even]
  · obtain ⟨z, hz⟩ := representable_multiple hq (binade_le_abs h0)
    exact round_value_multiple hz

/-- An exact result that a `double` can hold is not changed by the rounding. -/
theorem round_representable {q : ℚ} (hq : Representable q) (h : |q| < 2 ^ 1024) :
    Double.round q = Double.num q := by
  unfold Double.round
  rw [round_value_representable hq, if_neg (not_le.2 h)]

theorem round_half_even_near {x : ℚ} {k : ℤ} (h : |x - k| < 1 / 2) : round_half_even x = k := by
  rw [abs_lt] at h
  obtain ⟨h1, h2⟩ := h
  rcases le_or_lt (k : ℚ) x with hk | hk
  · have hf : ⌊x⌋ = k := by
      rw [Int.floor_eq_iff]
      constructor <;> linarith
    unfold round_half_even
    rw [hf, if_pos (by linarith)]
  · have hf : ⌊x⌋ = k - 1 := by
      rw [Int.floor_eq_iff]
      push_cast
      constructor <;> linarith
    unfold round_half_even
    rw [hf]
    push_cast
    rw [if_neg (by linarith), if_pos (by linarith)]
    omega

theorem round_value_eval {q : ℚ} {e k : ℤ} (h1 : (2 : ℚ) ^ e ≤ |q|) (h2 : |q| < 2 ^ (e + 1))
    (he : -1022 ≤ e) (hk : |q / 2 ^ (e - 52) - k| < 1 / 2) :
    round_value q = k * 2 ^ (e - 52) := by
  unfold round_value
  rw [binade_eq h1 h2 he, round_half_even_near hk]

theorem round_value_nonneg {q : ℚ} (h : 0 ≤ q) : 0 ≤ round_value q := by
  unfold round_value
  have hu : (0 : ℚ) < 2 ^ (binade q - 52) := by positivity
  have : (0 : ℤ) ≤ round_half_even (q / 2 ^ (binade q - 52)) :=
    le_round_half_even (by simpa using div_nonneg h hu.le)
  have h2 : (0 : ℚ) ≤ (round_half_even (q / 2 ^ (binade q - 52)) : ℚ) := by exact_mod_cast this
  positivity

theorem round_value_nonpos {q : ℚ} (h : q ≤ 0) : round_value q ≤ 0 := by
  unfold round_value
  have hu : (0 : ℚ) < 2 ^ (binade q - 52) := by positivity
  have : round_half_even (q / 2 ^ (binade q - 52)) ≤ (0 : ℤ) :=
    round_half_even_le (by simpa using div_nonpos_of_nonpos_of_nonneg h hu.le)
  have h2 : (round_half_even (q / 2 ^ (binade q - 52)) : ℚ) ≤ 0 := by exact_mod_cast this
  exact mul_nonpos_of_nonpos_of_nonneg h2 hu.le

theorem pow_binade_split (q : ℚ) :
    (4503599627370496 : ℚ) * 2 ^ (binade q - 52) = 2 ^ binade q := by
  have h : (4503599627370496 : ℚ) = 2 ^ (52 : ℤ) := by norm_num
  rw [h, ← zpow_add₀ (by norm_num : (2 : ℚ) ≠ 0)]
  congr 1
  omega

/-- The rounding does not go below a positive representable number that the
exact result reaches. -/
theorem round_value_ge {a q : ℚ} (ha : Representable a) (h0 : 0 < a) (h : a ≤ q) :
    a ≤ round_value q := by
  have hq0 : q ≠ 0 := by linarith
  have hu : (0 : ℚ) < 2 ^ (binade q - 52) := by positivity
  by_cases hc : (2 : ℚ) ^ binade q ≤ |a| ∨ binade q ≤ -1022
  · obtain ⟨z, hz⟩ := representable_multiple ha hc
    have hzq : (z : ℚ) ≤ q / 2 ^ (binade q - 52) := by
      rw [le_div_iff₀ hu, ← hz]
      exact h
    have := le_round_half_even hzq
    have h2 : (z : ℚ) ≤ (round_half_even (q / 2 ^ (binade q - 52)) : ℚ) := by exact_mod_cast this
    unfold round_value
    rw [hz]
    exact mul_le_mul_of_nonneg_right h2 hu.le
  · push_neg at hc
    obtain ⟨hc1, hc2⟩ := hc
    have hq : (2 : ℚ) ^ binade q ≤ q := by
      rcases binade_le_abs hq0 with h3 | h3
      · rwa [abs_of_pos (by linarith)] at h3
      · omega
    have h4 := pow_binade_split q
    have hzq : ((4503599627370496 : ℤ) : ℚ) ≤ q / 2 ^ (binade q - 52) := by
      rw [le_div_iff₀ hu]
      push_cast
      linarith
    have := le_round_half_even hzq
    have h2 : (4503599627370496 : ℚ) ≤ (round_half_even (q / 2 ^ (binade q - 52)) : ℚ) := by
      exact_mod_cast this
    unfold round_value
    have h3 : (4503599627370496 : ℚ) * 2 ^ (binade q - 52)
        ≤ (round_half_even (q / 2 ^ (binade q - 52)) : ℚ) * 2 ^ (binade q - 52) :=
      mul_le_mul_of_nonneg_right h2 hu.le
    rw [abs_of_pos h0] at hc1
    linarith

/-- The rounding of a positive exact result does not go above a representable
number that bounds it. -/
theorem round_value_le {b q : ℚ} (hb : Representable b) (h0 : 0 < q) (h : q ≤ b) :
    round_value q ≤ b := by
  have hq0 : q ≠ 0 := by linarith
  have hu : (0 : ℚ) < 2 ^ (binade q - 52) := by positivity
  have hc : (2 : ℚ) ^ binade q ≤ |b| ∨ binade q ≤ -1022 := by
    rcases binade_le_abs hq0 with h3 | h3
    · left
      rw [abs_of_pos h0] at h3
      rw [abs_of_pos (by linarith)]
      linarith
    · exact Or.inr h3
  obtain ⟨z, hz⟩ := representable_multiple hb hc
  have hzq : q / 2 ^ (binade q - 52) ≤ (z : ℚ) := by
    rw [div_le_iff₀ hu, ← hz]
    exact h
  have := round_half_even_le hzq
  have h2 : (round_half_even (q / 2 ^ (binade q - 52)) : ℚ) ≤ (z : ℚ) := by exact_mod_cast this
  unfold round_value
  rw [hz]
  exact mul_le_mul_of_nonneg_right h2 hu.le

/-- The rounding does not go above a negative representable number that
bounds the exact result. -/
theorem round_value_le_neg {b q : ℚ} (hb : Representable b) (h0 : b < 0) (h : q ≤ b) :
    round_value q ≤ b := by
  have hq0 : q ≠ 0 := by linarith
  have hu : (0 : ℚ) < 2 ^ (binade q - 52) := by positivity
  by_cases hc : (2 : ℚ) ^ binade q ≤ |b| ∨ binade q ≤ -1022
  · obtain ⟨z, hz⟩ := representable_multiple hb hc
    have hzq : q / 2 ^ (binade q - 52) ≤ (z : ℚ) := by
      rw [div_le_iff₀ hu, ← hz]
      exact h
    have := round_half_even_le hzq
    have h2 : (round_half_even (q / 2 ^ (binade q - 52)) : ℚ) ≤ (z : ℚ) := by exact_mod_cast this
    unfold round_value
    rw [hz]
    exact mul_le_mul_of_nonneg_right h2 hu.le
  · push_neg at hc
    obtain ⟨hc1, hc2⟩ := hc
    have hq : (2 : ℚ) ^ binade q ≤ -q := by
      rcases binade_le_abs hq0 with h3 | h3
      · rwa [abs_of_neg (by linarith)] at h3
      · omega
    have h4 := pow_binade_split q
    have hzq : q / 2 ^ (binade q - 52) ≤ (((-4503599627370496 : ℤ)) : ℚ) := by
      rw [div_le_iff₀ hu]
      push_cast
      linarith
    have := round_half_even_le hzq
    have h2 : (round_half_even (q / 2 ^ (binade q - 52)) : ℚ) ≤ -(4503599627370496 : ℚ) := by
      exact_mod_cast this
    unfold round_value
    have h3 : (round_half_even (q / 2 ^ (binade q - 52)) : ℚ) * 2 ^ (binade q - 52)
        ≤ -(4503599627370496 : ℚ) * 2 ^ (binade q - 52) :=
      mul_le_mul_of_nonneg_right h2 hu.le
    rw [abs_of_neg h0] at hc1
    linarith

/-! ## Enrollment estimates -/

theorem representable_int (n : ℤ) (h : |n| < 2 ^ 53) : Representable (n : ℚ) :=
  ⟨n, 1074, h, by field_simp⟩

theorem int32_abs {n : ℤ} (h1 : INT_MIN ≤ n) (h2 : n ≤ (INT_MAX : Int)) : |n| < 2 ^ 53 := by
  unfold INT_MIN at h1
  unfold INT_MAX at h2
  rw [abs_lt]
  constructor <;> norm_num <;> omega

theorem round_int (n : ℤ) (h : |n| < 2 ^ 53) : Double.round (n : ℚ) = Double.num n := by
  apply round_representable (representable_int n h)
  have h1 : |(n : ℚ)| < 2 ^ 53 := by exact_mod_cast h
  have h2 : (2 : ℚ) ^ 53 ≤ 2 ^ 1024 :=
    pow_le_pow_right₀ (by norm_num : (1 : ℚ) ≤ 2) (by norm_num : 53 ≤ 1024)
  exact lt_of_lt_of_le h1 h2

theorem of_int_eq (n : ℤ) (h : |n| < 2 ^ 53) : Double.of_int n = Double.num n :=
  round_int n h

theorem round_half_away_int (n : ℤ) : round_half_away (n : ℚ) = n := by
  unfold round_half_away
  split
  · rw [Int.floor_eq_iff]
    constructor <;> norm_num
  · have : ⌊-(n : ℚ) + 1 / 2⌋ = -n := by
      rw [Int.floor_eq_iff]
      push_cast
      constructor <;> norm_num
    rw [this]
    omega

theorem to_int_int (n : ℤ) (h1 : INT_MIN ≤ n) (h2 : n ≤ (INT_MAX : Int)) :
    (Double.num n).to_int = Outcome.ret n := by
  simp [Double.to_int, h1, h2]

theorem int_sub_eq (a b : Int) (h1 : INT_MIN ≤ a - b) (h2 : a - b ≤ (INT_MAX : Int)) :
    int_sub a b = Outcome.ret (a - b) := by
  simp [int_sub, h1, h2]

theorem calculate_enrollment_estimate_eq (M : LibM) (e : Int) (g : Double) (iy ey : Int)
    (hy1 : INT_MIN ≤ ey - iy) (hy2 : ey - iy ≤ (INT_MAX : Int)) :
    calculate_enrollment_estimate M e g iy ey
      = (Double.c_round (Double.mul (Double.of_int e)
          (M.pow (Double.add (Double.of_int 1) g) (Double.of_int (ey - iy))))).to_int := by
  unfold calculate_enrollment_estimate
  rw [int_sub_eq _ _ hy1 hy2]
  rfl

theorem calculate_enrollment_estimate_of_pow_one (M : LibM) (e : Int) (g : Double)
    (iy ey : Int) (he1 : INT_MIN ≤ e) (he2 : e ≤ (INT_MAX : Int)) (hy1 : INT_MIN ≤ ey - iy)
    (hy2 : ey - iy ≤ (INT_MAX : Int))
    (hp : M.pow (Double.add (Double.of_int 1) g) (Double.of_int (ey - iy)) = Double.num 1) :
    calculate_enrollment_estimate M e g iy ey = Outcome.ret e := by
  rw [calculate_enrollment_estimate_eq M e g iy ey hy1 hy2, hp,
    of_int_eq e (int32_abs he1 he2)]
  have hm : Double.mul (Double.num e) (Double.num 1) = Double.num e := by
    show Double.round ((e : ℚ) * 1) = Double.num e
    rw [mul_one]
    exact round_int e (int32_abs he1 he2)
  rw [hm]
  show (Double.num (round_half_away (e : ℚ))).to_int = Outcome.ret e
  rw [round_half_away_int]
  exact to_int_int e he1 he2

theorem calculate_enrollment_estimate_zero_rate (M : LibM) (hM : M.AnnexF) (e iy ey : Int)
    (he1 : INT_MIN ≤ e) (he2 : e ≤ (INT_MAX : Int)) (hy1 : INT_MIN ≤ ey - iy)
    (hy2 : ey - iy ≤ (INT_MAX : Int)) :
    calculate_enrollment_estimate M e (Double.num 0) iy ey = Outcome.ret e := by
  apply calculate_enrollment_estimate_of_pow_one M e _ iy ey he1 he2 hy1 hy2
  have h1 : Double.add (Double.of_int 1) (Double.num 0) = Double.num 1 := by
    rw [of_int_eq 1 (by norm_num)]
    show Double.round (((1 : ℤ) : ℚ) + 0) = Double.num 1
    rw [add_zero]
    exact round_int 1 (by norm_num)
  rw [h1]
  exact hM.1 _

theorem calculate_enrollment_estimate_first_year (M : LibM) (hM : M.AnnexF) (e : Int)
    (g : Double) (iy : Int) (he1 : INT_MIN ≤ e) (he2 : e ≤ (INT_MAX : Int)) :
    calculate_enrollment_estimate M e g iy iy = Outcome.ret e := by
  apply calculate_enrollment_estimate_of_pow_one M e _ iy iy he1 he2
    (by rw [sub_self]; decide) (by rw [sub_self]; decide)
  rw [sub_self, of_int_eq 0 (by norm_num)]
  exact hM.2.1 _

theorem print_enrollment_estimates_loop_eq (M : LibM) (e : Int) (g : Double)
    (iy end_year : Int) (est : Int → Int) (hend : end_year < (INT_MAX : Int))
    (k : Nat) : ∀ (i : Int) (fuel : Nat) (c : Console), i + k = end_year + 1 → k < fuel →
      (∀ y, i ≤ y → y ≤ end_year → calculate_enrollment_estimate M e g iy y = Outcome.ret (est y)) →
      print_enrollment_estimates_loop M e g iy end_year fuel i c
        = (⟨c.stdin, c.terminal, c.stdout ++ estimate_lines est i k⟩, Outcome.ret ()) := by
  induction k with
  | zero =>
    intro i fuel c hi hf _
    obtain ⟨f, rfl⟩ : ∃ f, fuel = f + 1 := ⟨fuel - 1, by omega⟩
    rw [print_enrollment_estimates_loop, if_neg (by omega)]
    simp [estimate_lines]
  | succ k ih =>
    intro i fuel c hi hf hest
    obtain ⟨f, rfl⟩ : ∃ f, fuel = f + 1 := ⟨fuel - 1, by omega⟩
    have hle : i ≤ end_year := by omega
    rw [print_enrollment_estimates_loop, if_pos hle, hest i le_rfl hle]
    simp only
    rw [if_pos (by omega), ih (i + 1) f _ (by omega) (by omega)
      (fun y h1 h2 => hest y (by omega) h2)]
    simp [printf, estimate_lines, estimate_line, List.append_assoc]

theorem print_enrollment_estimates_eq (M : LibM) (e : Int) (g : Double)
    (iy end_year : Int) (est : Int → Int) (c : Console) (h1 : iy ≤ end_year)
    (hend : end_year < (INT_MAX : Int))
    (hest : ∀ y, iy ≤ y → y ≤ end_year →
      calculate_enrollment_estimate M e g iy y = Outcome.ret (est y)) :
    print_enrollment_estimates M e g iy end_year c
      = (⟨c.stdin, c.terminal,
          c.stdout ++ estimate_lines est iy ((end_year - iy).toNat + 1)⟩, Outcome.ret ()) := by
  unfold print_enrollment_estimates
  exact print_enrollment_estimates_loop_eq M e g iy end_year est hend _ iy _ c
    (by push_cast; rw [Int.toNat_of_nonneg (by omega)]; omega) (by omega) hest

theorem format_u_chars (fuel n : Nat) (acc : List Nat) (h : ∀ c ∈ acc, 48 ≤ c ∧ c ≤ 57) :
    ∀ c ∈ format_u fuel n acc, 48 ≤ c ∧ c ≤ 57 := by
  induction fuel generalizing n acc with
  | zero => exact h
  | succ f ih =>
    rw [format_u]
    split
    · intro c hc
      rcases List.mem_cons.1 hc with rfl | hc
      · omega
      · exact h c hc
    · apply ih
      intro c hc
      rcases List.mem_cons.1 hc with rfl | hc
      · omega
      · exact h c hc

theorem format_d_chars (y : Int) : ∀ c ∈ format_d y, c = 45 ∨ (48 ≤ c ∧ c ≤ 57) := by
  unfold format_d
  split
  · intro c hc
    rcases List.mem_cons.1 hc with rfl | hc
    · exact Or.inl rfl
    · exact Or.inr (format_u_chars _ _ [] (fun c h => absurd h (List.not_mem_nil c)) c hc)
  · intro c hc
    exact Or.inr (format_u_chars _ _ [] (fun c h => absurd h (List.not_mem_nil c)) c hc)

theorem isspace_format_char {c : Nat} (h : c = 45 ∨ (48 ≤ c ∧ c ≤ 57)) : isspace c = false := by
  simp only [isspace, Bool.or_eq_false_iff, Bool.and_eq_false_iff, beq_eq_false_iff_ne,
    decide_eq_false_iff_not]
  omega

theorem format_d_no_newline (y : Int) : (format_d y).count 10 = 0 := by
  rw [List.count_eq_zero]
  intro h
  have := format_d_chars y 10 h
  omega

theorem estimate_lines_count (est : Int → Int) (i : Int) (k : Nat) :
    (estimate_lines est i k).count 10 = k := by
  induction k generalizing i with
  | zero => rfl
  | succ k ih =>
    rw [estimate_lines, List.count_append, ih, estimate_line, List.count_append,
      List.count_append, List.count_append, format_d_no_newline, format_d_no_newline]
    have h1 : (cstr " enrollment estimate: ").count 10 = 0 := by decide
    have h2 : (cstr "\n").count 10 = 1 := by decide
    rw [h1, h2]
    omega

theorem trim_spec_line (x : CStr) (h l : Nat) (t u : CStr) (hx : x = h :: t)
    (hh : isspace h = false) (hr : x.reverse = l :: u) (hl : isspace l = false) :
    trim_spec (x ++ [10]) = x := by
  unfold trim_spec
  have h1 : (x ++ [10]).dropWhile isspace = x ++ [10] := by
    rw [hx, List.cons_append, List.dropWhile_cons_of_neg (by simp [hh])]
  rw [h1, List.reverse_append, List.reverse_singleton, List.singleton_append,
    List.dropWhile_cons_of_pos (by decide), hr, List.dropWhile_cons_of_neg (by simp [hl]),
    ← hr, List.reverse_reverse]

theorem estimate_line_trim (y n : Int) :
    trim_spec (estimate_line y n)
      = format_d y ++ cstr " enrollment estimate: " ++ format_d n := by
  obtain ⟨h, t, e1, _⟩ := format_d_head y
  have hh : isspace h = false :=
    isspace_format_char (format_d_chars y h (by rw [e1]; exact List.mem_cons_self _ _))
  obtain ⟨d, v, e2, _⟩ := format_d_head n
  have hne : (format_d n).reverse ≠ [] := by
    rw [e2]
    simp
  obtain ⟨l, u, e3⟩ := List.exists_cons_of_ne_nil hne
  have hl : isspace l = false := by
    apply isspace_format_char
    apply format_d_chars n
    rw [← List.mem_reverse, e3]
    exact List.mem_cons_self _ _
  unfold estimate_line
  apply trim_spec_line _ h l (t ++ cstr " enrollment estimate: " ++ format_d n)
    (u ++ (cstr " enrollment estimate: ").reverse ++ (format_d y).reverse) _ hh _ hl
  · rw [e1]
    simp
  · rw [List.reverse_append, List.reverse_append, e3]
    simp

theorem representable_of_zpow (m z : ℤ) (hm : |m| < 2 ^ 53) (hz : -1074 ≤ z) :
    Representable ((m : ℚ) * 2 ^ z) := by
  obtain ⟨n, hn⟩ := Int.eq_ofNat_of_zero_le (by omega : 0 ≤ z + 1074)
  refine ⟨m, n, hm, ?_⟩
  have hz2 : z = (n : ℤ) - 1074 := by omega
  rw [hz2, zpow_sub₀ (two_ne_zero), zpow_natCast, zpow_ofNat, mul_div_assoc]

theorem round_value_isValue (q : ℚ) : Representable (round_value q) := by
  have hu : (0 : ℚ) < 2 ^ (binade q - 52) := by positivity
  have h4 := pow_binade_split q
  have hlt := abs_lt_binade q
  have hsplit : (2 : ℚ) ^ (binade q + 1) = 9007199254740992 * 2 ^ (binade q - 52) := by
    have h : (9007199254740992 : ℚ) = 2 ^ (53 : ℤ) := by norm_num
    rw [h, ← zpow_add₀ (by norm_num : (2 : ℚ) ≠ 0)]
    congr 1
    omega
  rw [hsplit, abs_lt] at hlt
  have hk1 : round_half_even (q / 2 ^ (binade q - 52)) ≤ 9007199254740992 := by
    apply round_half_even_le
    rw [div_le_iff₀ hu]
    push_cast
    linarith
  have hk2 : -9007199254740992 ≤ round_half_even (q / 2 ^ (binade q - 52)) := by
    apply le_round_half_even
    rw [le_div_iff₀ hu]
    push_cast
    linarith
  have hb := binade_ge q
  unfold round_value
  generalize round_half_even (q / 2 ^ (binade q - 52)) = k at hk1 hk2
  by_cases hk : |k| < 2 ^ 53
  · exact representable_of_zpow k _ hk (by omega)
  · have hk3 : k = 9007199254740992 ∨ k = -9007199254740992 := by
      rw [abs_lt] at hk
      norm_num at hk
      omega
    have he : (2 : ℚ) ^ (binade q - 52 + 1) = 2 * 2 ^ (binade q - 52) := by
      rw [zpow_add₀ (by norm_num : (2 : ℚ) ≠ 0), zpow_one, mul_comm]
    rcases hk3 with rfl | rfl
    · have := representable_of_zpow 4503599627370496 (binade q - 52 + 1) (by norm_num)
        (by omega)
      rw [he] at this
      convert this using 1
      push_cast
      ring
    · have := representable_of_zpow (-4503599627370496) (binade q - 52 + 1) (by norm_num)
        (by omega)
      rw [he] at this
      convert this using 1
      push_cast
      ring

/-- The rounding of an exact result is a `double`. -/
theorem round_isValue (q : ℚ) : (Double.round q).IsValue := by
  unfold Double.round
  split_ifs
  · trivial
  · trivial
  · exact round_value_isValue q

theorem representable_one : Representable 1 := by
  have := representable_int 1 (by norm_num)
  simpa using this

theorem libm_sample_annexF : libm_sample.AnnexF := by
  refine ⟨?_, ?_, ?_⟩
  · intro y
    show pow_sample (Double.num 1) y = Double.num 1
    unfold pow_sample
    split_ifs with h1 h2
    · rfl
    · rfl
    · exact absurd rfl h2
  · intro x
    show pow_sample x (Double.num 0) = Double.num 1
    unfold pow_sample
    rw [if_pos rfl]
  · intro x y _ _
    show (pow_sample x y).IsValue
    unfold pow_sample
    split_ifs
    · exact representable_one
    · exact representable_one
    · split
      · split_ifs
        · exact round_isValue _
        · trivial
      · trivial

theorem round_of_value {q r : ℚ} (hv : round_value q = r) (hr : |r| < 2 ^ 53) :
    Double.round q = Double.num r := by
  have h2 : (2 : ℚ) ^ 53 ≤ 2 ^ 1024 :=
    pow_le_pow_right₀ (by norm_num : (1 : ℚ) ≤ 2) (by norm_num : 53 ≤ 1024)
  unfold Double.round
  rw [hv, if_neg (not_le.2 (lt_of_lt_of_le hr h2))]

theorem one_plus_0_05 :
    Double.add (Double.of_int 1) lit_0_05
      = Double.num (4728779608739021 / 4503599627370496) := by
  rw [of_int_eq 1 (by norm_num)]
  show Double.round (((1 : ℤ) : ℚ) + 3602879701896397 / 72057594037927936) = _
  apply round_of_value _ (by rw [abs_of_pos (by norm_num)]; norm_num)
  have h := round_value_eval (q := ((1 : ℤ) : ℚ) + 3602879701896397 / 72057594037927936)
    (e := 0) (k := 4728779608739021)
    (by rw [abs_of_pos (by norm_num)]; norm_num)
    (by rw [abs_of_pos (by norm_num)]; norm_num) (by norm_num)
    (by rw [abs_lt]; constructor <;> norm_num)
  rw [h]
  norm_num

theorem estimate_of_pow_bounds (M : LibM) (p : ℚ)
    (hp : M.pow (Double.num (4728779608739021 / 4503599627370496)) (Double.num 15)
      = Double.num p)
    (h1 : 2078925 / 1000000 ≤ p) (h2 : p ≤ 2078930 / 1000000) :
    calculate_enrollment_estimate M 29107 lit_0_05 2020 2035 = Outcome.ret 60511 := by
  rw [calculate_enrollment_estimate_eq M 29107 lit_0_05 2020 2035 (by norm_num [INT_MIN])
    (by norm_num [INT_MAX])]
  have h15 : Double.of_int (2035 - 2020) = Double.num 15 := by
    have := of_int_eq 15 (by norm_num)
    simpa using this
  have h29 : Double.of_int 29107 = Double.num 29107 := by
    have := of_int_eq 29107 (by norm_num)
    simpa using this
  rw [one_plus_0_05, h15, hp, h29]
  show (Double.c_round (Double.round (29107 * p))).to_int = Outcome.ret 60511
  have hlo : (60511 : ℚ) ≤ round_value (29107 * p) := by
    have hr : Representable (60511 : ℚ) := by
      have := representable_int 60511 (by norm_num)
      simpa using this
    apply round_value_ge hr (by norm_num)
    linarith
  have hhi : round_value (29107 * p) ≤ 968183 / 16 := by
    have hr : Representable (968183 / 16 : ℚ) := by
      have := representable_of_zpow 968183 (-4) (by norm_num) (by norm_num)
      convert this using 1
      norm_num
    apply round_value_le hr
    · linarith
    · linarith
  rw [round_of_value rfl (by rw [abs_lt]; constructor <;> norm_num <;> linarith)]
  have hr : round_half_away (round_value (29107 * p)) = 60511 := by
    unfold round_half_away
    rw [if_pos (by linarith), Int.floor_eq_iff]
    constructor <;> push_cast <;> linarith
  show (Double.num (round_half_away (round_value (29107 * p)) : ℚ)).to_int = _
  rw [hr]
  have := to_int_int 60511 (by norm_num [INT_MIN]) (by norm_num [INT_MAX])
  simpa using this

theorem pow_sample_15 :
    libm_sample.pow (Double.num (4728779608739021 / 4503599627370496)) (Double.num 15)
      = Double.num (1170332521765883 / 562949953421312) := by
  show pow_sample (Double.num (4728779608739021 / 4503599627370496)) (Double.num 15)
    = Double.num (1170332521765883 / 562949953421312)
  unfold pow_sample
  rw [if_neg (by simp), if_neg (by norm_num)]
  simp only [Rat.den_ofNat, Rat.num_ofNat, true_and]
  rw [if_pos (by norm_num)]
  have hn : ((15 : ℤ)).toNat = 15 := rfl
  rw [hn]
  apply round_of_value _ (by rw [abs_of_pos (by norm_num)]; norm_num)
  have h := round_value_eval
    (q := ((4728779608739021 : ℚ) / 4503599627370496) ^ 15) (e := 1) (k := 4681330087063532)
    (by rw [abs_of_pos (by positivity)]; norm_num)
    (by rw [abs_of_pos (by positivity)]; norm_num) (by norm_num)
    (by rw [abs_lt]; constructor <;> norm_num)
  rw [h]
  norm_num

/-- C21: with the growth rate exactly 0 every estimate is the initial figure.
For every `pow` that follows Annex F of the C standard (`pow(1, y)` is 1), every
`int` value `e` and all years whose difference fits an `int`,
`calculate_enrollment_estimate(e, 0.0, initial_year, estimate_year)` returns
`e`: every operation of the computation is exact. So
`print_enrollment_estimates(25994, 0.0, 2024, 2070)` returns after printing the
47 lines of the years 2024 to 2070, each of them with the estimate 25994. -/
theorem zero_rate_estimates (M : LibM) (hM : M.AnnexF) (e iy ey : Int) (c : Console)
    (he1 : INT_MIN ≤ e) (he2 : e ≤ (INT_MAX : Int)) (hy1 : INT_MIN ≤ ey - iy)
    (hy2 : ey - iy ≤ (INT_MAX : Int)) :
    calculate_enrollment_estimate M e (Double.num 0) iy ey = Outcome.ret e
      ∧ (∀ y : Int, 2024 ≤ y → y ≤ 2070 →
          calculate_enrollment_estimate M 25994 (Double.num 0) 2024 y = Outcome.ret 25994)
      ∧ print_enrollment_estimates M 25994 (Double.num 0) 2024 2070 c
        = (⟨c.stdin, c.terminal, c.stdout ++ estimate_lines (fun _ => 25994) 2024 47⟩,
            Outcome.ret ())
      ∧ (estimate_lines (fun _ => 25994) 2024 47).count 10 = 47 := by
  have hall : ∀ y : Int, 2024 ≤ y → y ≤ 2070 →
      calculate_enrollment_estimate M 25994 (Double.num 0) 2024 y = Outcome.ret 25994 := by
    intro y h1 h2
    apply calculate_enrollment_estimate_zero_rate M hM
    · norm_num [INT_MIN]
    · norm_num [INT_MAX]
    · unfold INT_MIN; omega
    · unfold INT_MAX; omega
  refine ⟨calculate_enrollment_estimate_zero_rate M hM e iy ey he1 he2 hy1 hy2, hall, ?_,
    estimate_lines_count _ _ _⟩
  exact print_enrollment_estimates_eq M 25994 (Double.num 0) 2024 2070 (fun _ => 25994) c
    (by norm_num) (by norm_num [INT_MAX]) hall

/-- Witness of C21 with the sample `pow`, on the call of the specification. -/
theorem zero_rate_estimates_witness :
    (libm_sample.AnnexF ∧ INT_MIN ≤ 25994 ∧ (25994 : Int) ≤ (INT_MAX : Int)
        ∧ INT_MIN ≤ 2070 - 2024 ∧ (2070 - 2024 : Int) ≤ (INT_MAX : Int))
      ∧ calculate_enrollment_estimate libm_sample 25994 (Double.num 0) 2024 2070
        = Outcome.ret 25994
      ∧ print_enrollment_estimates libm_sample 25994 (Double.num 0) 2024 2070 ⟨[], false, []⟩
        = (⟨[], false, estimate_lines (fun _ => 25994) 2024 47⟩, Outcome.ret ()) := by
  have h := zero_rate_estimates libm_sample libm_sample_annexF 25994 2024 2070 ⟨[], false, []⟩
    (by norm_num [INT_MIN]) (by norm_num [INT_MAX]) (by norm_num [INT_MIN])
    (by norm_num [INT_MAX])
  exact ⟨⟨libm_sample_annexF, by norm_num [INT_MIN], by norm_num [INT_MAX],
    by norm_num [INT_MIN], by norm_num [INT_MAX]⟩, h.1, h.2.2.1⟩

/-- C27: for every `int` initial enrollment, every rate and all years with
`initial_year <= end_year < INT_MAX` for which the estimates are defined
(`est y` being the value of `calculate_enrollment_estimate` for the year `y`),
`print_enrollment_estimates` returns after printing exactly
`end_year - initial_year + 1` lines, in ascending order of the year, the line
of the year `y` being, once trimmed, `y enrollment estimate: n` with
`n = est y`. The first line carries the initial enrollment itself, `pow(x, 0)`
being 1. For (29107, 0.05, 2020, 2035) the first line reads
`2020 enrollment estimate: 29107`, and the last one reads
`2035 enrollment estimate: 60511` when `pow(1.05, 15)` lies between 2.078925
and 2.078930 (its exact value is 2.0789281...). -/
theorem estimate_lines_printed (M : LibM) (hM : M.AnnexF) (e : Int) (g : Double)
    (iy end_year : Int) (est : Int → Int) (c : Console)
    (he1 : INT_MIN ≤ e) (he2 : e ≤ (INT_MAX : Int)) (h1 : iy ≤ end_year)
    (hend : end_year < (INT_MAX : Int))
    (hest : ∀ y, iy ≤ y → y ≤ end_year →
      calculate_enrollment_estimate M e g iy y = Outcome.ret (est y)) :
    print_enrollment_estimates M e g iy end_year c
        = (⟨c.stdin, c.terminal,
            c.stdout ++ estimate_lines est iy ((end_year - iy).toNat + 1)⟩, Outcome.ret ())
      ∧ (estimate_lines est iy ((end_year - iy).toNat + 1)).count 10
        = (end_year - iy).toNat + 1
      ∧ (∀ (y : Int) (k : Nat), estimate_lines est y (k + 1)
          = estimate_line y (est y) ++ estimate_lines est (y + 1) k)
      ∧ (∀ y n : Int, trim_spec (estimate_line y n)
          = format_d y ++ cstr " enrollment estimate: " ++ format_d n)
      ∧ est iy = e
      ∧ calculate_enrollment_estimate M 29107 lit_0_05 2020 2020 = Outcome.ret 29107
      ∧ (∀ p : ℚ,
          M.pow (Double.num (4728779608739021 / 4503599627370496)) (Double.num 15)
            = Double.num p →
          2078925 / 1000000 ≤ p → p ≤ 2078930 / 1000000 →
            calculate_enrollment_estimate M 29107 lit_0_05 2020 2035 = Outcome.ret 60511)
      ∧ trim_spec (estimate_line 2020 29107) = cstr "2020 enrollment estimate: 29107"
      ∧ trim_spec (estimate_line 2035 60511) = cstr "2035 enrollment estimate: 60511" := by
  refine ⟨print_enrollment_estimates_eq M e g iy end_year est c h1 hend hest,
    estimate_lines_count _ _ _, fun _ _ => rfl, estimate_line_trim, ?_, ?_,
    fun p hp hp1 hp2 => estimate_of_pow_bounds M p hp hp1 hp2, ?_, ?_⟩
  · have h2 := hest iy le_rfl h1
    rw [calculate_enrollment_estimate_first_year M hM e g iy he1 he2] at h2
    cases h2
    rfl
  · exact calculate_enrollment_estimate_first_year M hM 29107 lit_0_05 2020
      (by norm_num [INT_MIN]) (by norm_num [INT_MAX])
  · rw [estimate_line_trim]
    decide
  · rw [estimate_line_trim]
    decide

/-- Witness of C27 with the sample `pow`: the sixteen lines of the years 2020
to 2035 at the rate 0, and the estimate for 2035 at the rate 0.05. -/
theorem estimate_lines_printed_witness :
    (libm_sample.AnnexF ∧ INT_MIN ≤ 29107 ∧ (29107 : Int) ≤ (INT_MAX : Int)
        ∧ (2020 : Int) ≤ 2035 ∧ (2035 : Int) < (INT_MAX : Int))
      ∧ print_enrollment_estimates libm_sample 29107 (Double.num 0) 2020 2035 ⟨[], false, []⟩
        = (⟨[], false, estimate_lines (fun _ => 29107) 2020 16⟩, Outcome.ret ())
      ∧ calculate_enrollment_estimate libm_sample 29107 lit_0_05 2020 2035
        = Outcome.ret 60511 := by
  have hest : ∀ y : Int, 2020 ≤ y → y ≤ 2035 →
      calculate_enrollment_estimate libm_sample 29107 (Double.num 0) 2020 y
        = Outcome.ret 29107 := by
    intro y h1 h2
    apply calculate_enrollment_estimate_zero_rate libm_sample libm_sample_annexF
    · norm_num [INT_MIN]
    · norm_num [INT_MAX]
    · unfold INT_MIN; omega
    · unfold INT_MAX; omega
  have h := estimate_lines_printed libm_sample libm_sample_annexF 29107 (Double.num 0) 2020
    2035 (fun _ => 29107) ⟨[], false, []⟩ (by norm_num [INT_MIN]) (by norm_num [INT_MAX])
    (by norm_num) (by norm_num [INT_MAX]) hest
  exact ⟨⟨libm_sample_annexF, by norm_num [INT_MIN], by norm_num [INT_MAX], by norm_num,
    by norm_num [INT_MAX]⟩, h.1,
    h.2.2.2.2.2.2.1 _ pow_sample_15 (by norm_num) (by norm_num)⟩

/-! ## Growth-rate line -/

theorem description_label (g : Double) :
    ∃ label ∈ [cstr "negative", cstr "reasonable", cstr "ambitious", cstr "high",
        cstr "unreasonable"],
      get_growth_rate_description g = label ++ cstr "\n" := by
  unfold get_growth_rate_description
  split_ifs
  · exact ⟨cstr "negative", by decide, by decide⟩
  · exact ⟨cstr "reasonable", by decide, by decide⟩
  · exact ⟨cstr "ambitious", by decide, by decide⟩
  · exact ⟨cstr "high", by decide, by decide⟩
  · exact ⟨cstr "unreasonable", by decide, by decide⟩

theorem percent_0_025 : Double.mul lit_0_025 (Double.of_int 100) = Double.num (5 / 2) := by
  have h100 : Double.of_int 100 = Double.num 100 := by
    have := of_int_eq 100 (by norm_num)
    simpa using this
  rw [h100]
  show Double.round (3602879701896397 / 144115188075855872 * 100) = _
  apply round_of_value _ (by rw [abs_of_pos (by norm_num)]; norm_num)
  have h := round_value_eval (q := (3602879701896397 / 144115188075855872 * 100 : ℚ))
    (e := 1) (k := 5629499534213120)
    (by rw [abs_of_pos (by norm_num)]; norm_num)
    (by rw [abs_of_pos (by norm_num)]; norm_num) (by norm_num)
    (by rw [abs_lt]; constructor <;> norm_num)
  rw [h]
  norm_num

theorem format_f1_2_5 : format_f1 (Double.num (5 / 2)) = cstr "2.5" := by
  have h : round_half_even (|(5 / 2 : ℚ)| * 10) = 25 := by
    have e : |(5 / 2 : ℚ)| * 10 = ((25 : ℤ) : ℚ) := by
      rw [abs_of_pos (by norm_num)]
      norm_num
    rw [e, round_half_even_int]
  unfold format_f1
  simp only [h]
  rw [if_neg (by norm_num)]
  decide

/-- C23 (the failing part): the line ends without a period. For every rate the
text printed is `The required annual rate of growth, P%, is ` followed by one
of the five labels and two newline characters, `P` being the product of the
rate and 100 with one decimal; no period follows the label. For the rate 0.025
of the test the text is `The required annual rate of growth, 2.5%, is high`
and two newlines, so its first line, trimmed, is not the line
`The required annual rate of growth, 2.5%, is high.` of the claim. -/
theorem growth_rate_line_without_period :
    (∀ (c : Console) (g : Double),
        ∃ label ∈ [cstr "negative", cstr "reasonable", cstr "ambitious", cstr "high",
            cstr "unreasonable"],
          (print_growth_rate c g).stdout
            = c.stdout ++ (cstr "The required annual rate of growth, "
                ++ format_f1 (Double.mul g (Double.of_int 100)) ++ cstr "%, is " ++ label
                ++ cstr "\n\n"))
      ∧ (print_growth_rate ⟨[], false, []⟩ lit_0_025).stdout
        = cstr "The required annual rate of growth, 2.5%, is high\n\n"
      ∧ fgets 100 (cstr "The required annual rate of growth, 2.5%, is high\n\n")
        = some (cstr "The required annual rate of growth, 2.5%, is high\n")
      ∧ test_support_trim env_ok
          (some (cstr "The required annual rate of growth, 2.5%, is high\n"))
        = Outcome.ret (some (cstr "The required annual rate of growth, 2.5%, is high"))
      ∧ cstr "The required annual rate of growth, 2.5%, is high"
        ≠ cstr "The required annual rate of growth, 2.5%, is high." := by
  refine ⟨?_, ?_, by decide, ?_, by decide⟩
  · intro c g
    obtain ⟨label, hl, he⟩ := description_label g
    refine ⟨label, hl, ?_⟩
    unfold print_growth_rate printf
    simp only [he]
    have : cstr "\n\n" = cstr "\n" ++ cstr "\n" := by decide
    rw [this]
    simp only [List.append_assoc]
  · have hd : get_growth_rate_description lit_0_025 = cstr "high\n" := by
      norm_num [get_growth_rate_description, Double.lt, Double.ge, lit_0_01, lit_0_02,
        lit_0_04, lit_0_025]
    unfold print_growth_rate printf
    simp only [percent_0_025, format_f1_2_5, hd]
    decide
  · rw [test_support_trim_eq env_ok _ (by decide) (by decide)]
    decide

/-! ## Growth rate -/

theorem inf_of_sign_isValue (s : Int) : (Double.inf_of_sign s).IsValue := by
  unfold Double.inf_of_sign
  split_ifs <;> trivial

theorem div_isValue (a b : Double) : (Double.div a b).IsValue := by
  cases a <;> cases b <;> simp only [Double.div] <;>
    first
    | trivial
    | exact inf_of_sign_isValue _
    | exact representable_zero
    | (split_ifs
       · exact inf_of_sign_isValue _
       · exact round_isValue _)

theorem of_int_isValue (n : Int) : (Double.of_int n).IsValue := round_isValue _

theorem calculate_growth_rate_eq (M : LibM) (i t iy ty : Int) (hy1 : INT_MIN ≤ ty - iy)
    (hy2 : ty - iy ≤ (INT_MAX : Int)) :
    calculate_growth_rate M i t iy ty
      = Outcome.ret (Double.sub
          (M.pow (Double.div (Double.of_int t) (Double.of_int i))
            (Double.div (Double.num 1) (Double.of_int (ty - iy))))
          (Double.of_int 1)) := by
  unfold calculate_growth_rate
  rw [int_sub_eq _ _ hy1 hy2]
  rfl

theorem of_int_one : Double.of_int 1 = Double.num 1 := by
  have := of_int_eq 1 (by norm_num)
  simpa using this

theorem round_ne_num {x t : ℚ} (h : round_value x ≠ t) : Double.round x ≠ Double.num t := by
  unfold Double.round
  split_ifs
  · intro e; cases e
  · intro e; cases e
  · intro e
    cases e
    exact h rfl

theorem sub_one_grid_hi {q : ℚ} (hq : Representable q) (h1 : 1 ≤ q) (h2 : q ≤ 2) :
    ∃ k : ℤ, q - 1 = k / 4503599627370496 ∧ round_value (q - 1) = q - 1 := by
  obtain ⟨z, hz⟩ := representable_multiple (e := 0) hq
    (Or.inl (by rw [abs_of_pos (by linarith)]; simpa using h1))
  have hu : (2 : ℚ) ^ ((0 : ℤ) - 52) = 1 / 4503599627370496 := by norm_num
  rw [hu] at hz
  have hz1 : (4503599627370496 : ℤ) ≤ z := by
    have : (4503599627370496 : ℚ) ≤ z := by
      rw [hz] at h1
      linarith
    exact_mod_cast this
  have hz2 : z ≤ (9007199254740992 : ℤ) := by
    have : (z : ℚ) ≤ 9007199254740992 := by
      rw [hz] at h2
      linarith
    exact_mod_cast this
  have hk : q - 1 = ((z - 4503599627370496 : ℤ) : ℚ) / 4503599627370496 := by
    rw [hz]
    push_cast
    ring
  refine ⟨z - 4503599627370496, hk, ?_⟩
  apply round_value_representable
  have hr := representable_of_zpow (z - 4503599627370496) (-52)
    (by rw [abs_lt]; constructor <;> norm_num <;> omega) (by norm_num)
  have hu2 : (2 : ℚ) ^ (-52 : ℤ) = 1 / 4503599627370496 := by norm_num
  rw [hu2] at hr
  rw [hk]
  convert hr using 1
  ring

theorem sub_one_grid_lo {q : ℚ} (hq : Representable q) (h1 : 1 / 2 ≤ q) (h2 : q < 1) :
    ∃ k : ℤ, q - 1 = k / 9007199254740992 ∧ round_value (q - 1) = q - 1 := by
  obtain ⟨z, hz⟩ := representable_multiple (e := -1) hq
    (Or.inl (by rw [abs_of_pos (by linarith)]; norm_num; linarith))
  have hu : (2 : ℚ) ^ ((-1 : ℤ) - 52) = 1 / 9007199254740992 := by norm_num
  rw [hu] at hz
  have hz1 : (4503599627370496 : ℤ) ≤ z := by
    have : (4503599627370496 : ℚ) ≤ z := by
      rw [hz] at h1
      linarith
    exact_mod_cast this
  have hz2 : z < (9007199254740992 : ℤ) := by
    have : (z : ℚ) < 9007199254740992 := by
      rw [hz] at h2
      linarith
    exact_mod_cast this
  have hk : q - 1 = ((z - 9007199254740992 : ℤ) : ℚ) / 9007199254740992 := by
    rw [hz]
    push_cast
    ring
  refine ⟨z - 9007199254740992, hk, ?_⟩
  apply round_value_representable
  have hr := representable_of_zpow (z - 9007199254740992) (-53)
    (by rw [abs_lt]; constructor <;> norm_num <;> omega) (by norm_num)
  have hu2 : (2 : ℚ) ^ (-53 : ℤ) = 1 / 9007199254740992 := by norm_num
  rw [hu2] at hr
  rw [hk]
  convert hr using 1
  ring

/-- The subtraction `p - 1` is exact for a double `p` between 1/2 and 2. -/
theorem sub_one_exact {q : ℚ} (hq : Representable q) (h1 : 1 / 2 ≤ q) (h2 : q ≤ 2) :
    Double.sub (Double.num q) (Double.num 1) = Double.num (q - 1) := by
  show Double.round (q - 1) = Double.num (q - 1)
  have hv : round_value (q - 1) = q - 1 := by
    rcases lt_or_le q 1 with h | h
    · exact (sub_one_grid_lo hq h1 h).choose_spec.2
    · exact (sub_one_grid_hi hq h h2).choose_spec.2
  apply round_of_value hv
  rw [abs_lt]
  constructor <;> norm_num <;> linarith

theorem round_value_sub_one_ne_tenth {q : ℚ} (hq : Representable q) :
    round_value (q - 1) ≠ 3602879701896397 / 36028797018963968
      ∧ round_value (q - 1) ≠ 1 / 10 := by
  rcases lt_or_le q 1 with h | h
  · have := round_value_nonpos (q := q - 1) (by linarith)
    constructor <;> intro e <;> rw [e] at this <;> norm_num at this
  · rcases le_or_lt q 2 with h2 | h2
    · obtain ⟨k, hk, hv⟩ := sub_one_grid_hi hq h h2
      rw [hv, hk]
      constructor
      · intro e
        have e2 : ((8 * k : ℤ) : ℚ) = ((3602879701896397 : ℤ) : ℚ) := by
          push_cast
          linarith
        have e3 : 8 * k = 3602879701896397 := by exact_mod_cast e2
        omega
      · intro e
        have e2 : ((10 * k : ℤ) : ℚ) = ((4503599627370496 : ℤ) : ℚ) := by
          push_cast
          linarith
        have e3 : 10 * k = 4503599627370496 := by exact_mod_cast e2
        omega
    · have := round_value_ge (q := q - 1) representable_one (by norm_num) (by linarith)
      constructor <;> intro e <;> rw [e] at this <;> norm_num at this

theorem representable_neg_half : Representable (-(1 / 2) : ℚ) := by
  have := representable_of_zpow (-1) (-1) (by norm_num) (by norm_num)
  convert this using 1
  norm_num

theorem round_value_sub_one_ne_neg {q : ℚ} (hq : Representable q) :
    round_value (q - 1) ≠ -(5764607523034235 / 288230376151711744)
      ∧ round_value (q - 1) ≠ -(1 / 50) := by
  rcases le_or_lt 1 q with h | h
  · have := round_value_nonneg (q := q - 1) (by linarith)
    constructor <;> intro e <;> rw [e] at this <;> norm_num at this
  · rcases le_or_lt (1 / 2) q with h2 | h2
    · obtain ⟨k, hk, hv⟩ := sub_one_grid_lo hq h2 h
      rw [hv, hk]
      constructor
      · intro e
        have e2 : ((32 * k : ℤ) : ℚ) = ((-5764607523034235 : ℤ) : ℚ) := by
          push_cast
          linarith
        have e3 : 32 * k = -5764607523034235 := by exact_mod_cast e2
        omega
      · intro e
        have e2 : ((50 * k : ℤ) : ℚ) = ((-9007199254740992 : ℤ) : ℚ) := by
          push_cast
          linarith
        have e3 : 50 * k = -9007199254740992 := by exact_mod_cast e2
        omega
    · have := round_value_le_neg (q := q - 1) representable_neg_half (by norm_num)
        (by linarith)
      constructor <;> intro e <;> rw [e] at this <;> norm_num at this

theorem sub_one_ne (p : Double) (hp : p.IsValue) :
    (Double.sub p (Double.num 1) ≠ lit_0_1 ∧ Double.sub p (Double.num 1) ≠ Double.num (1 / 10))
      ∧ Double.sub p (Double.num 1) ≠ lit_neg_0_02
      ∧ Double.sub p (Double.num 1) ≠ Double.num (-(1 / 50)) := by
  cases p with
  | nan => refine ⟨⟨?_, ?_⟩, ?_, ?_⟩ <;> intro e <;> cases e
  | neg_inf => refine ⟨⟨?_, ?_⟩, ?_, ?_⟩ <;> intro e <;> cases e
  | pos_inf => refine ⟨⟨?_, ?_⟩, ?_, ?_⟩ <;> intro e <;> cases e
  | num q =>
    have hq : Representable q := hp
    exact ⟨⟨round_ne_num (round_value_sub_one_ne_tenth hq).1,
      round_ne_num (round_value_sub_one_ne_tenth hq).2⟩,
      round_ne_num (round_value_sub_one_ne_neg hq).1,
      round_ne_num (round_value_sub_one_ne_neg hq).2⟩

theorem growth_rate_examples_ne (M : LibM) (hM : M.AnnexF) :
    calculate_growth_rate M 30000 39930 2030 2033 ≠ Outcome.ret lit_0_1
      ∧ calculate_growth_rate M 30000 39930 2030 2033 ≠ Outcome.ret (Double.num (1 / 10))
      ∧ calculate_growth_rate M 25000 24010 2024 2026 ≠ Outcome.ret lit_neg_0_02
      ∧ calculate_growth_rate M 25000 24010 2024 2026
        ≠ Outcome.ret (Double.num (-(1 / 50))) := by
  have h1 := calculate_growth_rate_eq M 30000 39930 2030 2033 (by norm_num [INT_MIN])
    (by norm_num [INT_MAX])
  have h2 := calculate_growth_rate_eq M 25000 24010 2024 2026 (by norm_num [INT_MIN])
    (by norm_num [INT_MAX])
  rw [h1, h2, of_int_one]
  have n1 := sub_one_ne _ (hM.2.2 _ _ (div_isValue (Double.of_int 39930) (Double.of_int 30000))
    (div_isValue (Double.num 1) (Double.of_int (2033 - 2030))))
  have n2 := sub_one_ne _ (hM.2.2 _ _ (div_isValue (Double.of_int 24010) (Double.of_int 25000))
    (div_isValue (Double.num 1) (Double.of_int (2026 - 2024))))
  refine ⟨?_, ?_, ?_, ?_⟩
  · intro e
    exact n1.1.1 (Outcome.ret.inj e)
  · intro e
    exact n1.1.2 (Outcome.ret.inj e)
  · intro e
    exact n2.2.1 (Outcome.ret.inj e)
  · intro e
    exact n2.2.2 (Outcome.ret.inj e)

theorem growth_rate_equal (M : LibM) (hM : M.AnnexF) (i iy ty : Int) (hi1 : INT_MIN ≤ i)
    (hi2 : i ≤ (INT_MAX : Int)) (hi0 : i ≠ 0) (hy1 : INT_MIN ≤ ty - iy)
    (hy2 : ty - iy ≤ (INT_MAX : Int)) :
    calculate_growth_rate M i i iy ty = Outcome.ret (Double.num 0) := by
  rw [calculate_growth_rate_eq M i i iy ty hy1 hy2, of_int_one,
    of_int_eq i (int32_abs hi1 hi2)]
  have hq : (i : ℚ) ≠ 0 := by exact_mod_cast hi0
  have hd : Double.div (Double.num i) (Double.num i) = Double.num 1 := by
    show (if (i : ℚ) = 0 then _ else Double.round ((i : ℚ) / i)) = _
    rw [if_neg hq, div_self hq]
    exact round_representable representable_one (by norm_num)
  rw [hd, hM.1]
  have hs : Double.sub (Double.num 1) (Double.num 1) = Double.num 0 := by
    show Double.round (1 - 1) = Double.num 0
    rw [sub_self]
    exact round_representable representable_zero (by norm_num)
  rw [hs]

/-! ## Flexible matching on every string -/

theorem clean_string_in_nil (F : TextMatching) (env : Env) (input : Option CStr) (o : Nat) :
    clean_string_in [] F env input o = clean_string F env input o := rfl

theorem strstr_some {s needle : CStr} {off : Nat} (h : strstr s needle = some off) :
    ∃ pre post, s = pre ++ needle ++ post ∧ pre.length = off := by
  induction s generalizing off with
  | nil =>
    rw [strstr] at h
    split at h
    · rename_i hn
      cases h
      exact ⟨[], [], by simp [hn], rfl⟩
    · cases h
  | cons c t ih =>
    rw [strstr] at h
    split at h
    · rename_i hp
      cases h
      obtain ⟨post, hpost⟩ := List.isPrefixOf_iff_prefix.1 hp
      exact ⟨[], post, by simp [hpost], rfl⟩
    · cases ht : strstr t needle with
      | none => rw [ht] at h; cases h
      | some i =>
        rw [ht] at h
        cases h
        obtain ⟨pre, post, e, hl⟩ := ih ht
        exact ⟨c :: pre, post, by simp [e], by simp [hl]⟩

theorem memmove_crlf (pre post rest : List Nat) (a b : Nat) :
    memmove (pre ++ 13 :: 10 :: post ++ 0 :: a :: b :: rest) pre.length (pre.length + 1)
        ((pre ++ 13 :: 10 :: post).length - pre.length + 1 + 1)
      = some (pre ++ 10 :: post ++ 0 :: a :: b :: b :: rest) := by
  have hn : (pre ++ 13 :: 10 :: post).length - pre.length + 1 + 1 = post.length + 4 := by
    simp only [List.length_append, List.length_cons]
    omega
  rw [hn]
  have hsrc : ((pre ++ 13 :: 10 :: post ++ 0 :: a :: b :: rest).drop (pre.length + 1)).take
      (post.length + 4) = 10 :: post ++ [0, a, b] := by
    have e1 : pre ++ 13 :: 10 :: post ++ 0 :: a :: b :: rest
        = (pre ++ [13]) ++ ((10 :: post ++ [0, a, b]) ++ rest) := by simp
    rw [e1, List.drop_left' (by simp), List.take_left' (by simp)]
  have ht : (pre ++ 13 :: 10 :: post ++ 0 :: a :: b :: rest).take pre.length = pre := by
    rw [List.append_assoc, List.take_left' rfl]
  have hd : (pre ++ 13 :: 10 :: post ++ 0 :: a :: b :: rest).drop
      (pre.length + (10 :: post ++ [0, a, b]).length) = b :: rest := by
    have e2 : pre ++ 13 :: 10 :: post ++ 0 :: a :: b :: rest
        = (pre ++ (13 :: 10 :: post ++ [0, a])) ++ (b :: rest) := by simp
    have hl2 : (pre ++ (13 :: 10 :: post ++ [0, a])).length
        = pre.length + (10 :: post ++ [0, a, b]).length := by
      simp only [List.length_append, List.length_cons, List.length_nil]
    rw [e2, List.drop_left' hl2]
  unfold memmove
  rw [if_pos (by simp only [List.length_append, List.length_cons]; omega), hsrc]
  unfold store_range
  rw [if_pos (by simp only [List.length_append, List.length_cons, List.length_nil]; omega),
    ht, hd]
  simp

theorem flexible_form_drop_cr (pre post : CStr) :
    flexible_form (pre ++ 13 :: 10 :: post) = flexible_form (pre ++ 10 :: post) := by
  have h : (!isspace (tolower 13) && !ispunct (tolower 13)) = false := by decide
  simp only [flexible_form, List.map_append, List.map_cons, List.filter_append]
  rw [List.filter_cons_of_neg (by simp [h])]

theorem clean_newlines_loop_in (n : Nat) : ∀ (s pad : List Nat) (fuel : Nat), s.length = n →
    NulFree s → 2 ≤ pad.length → n < fuel →
      ∃ r pad2, clean_newlines_loop fuel (s ++ 0 :: pad) = Outcome.ret (r ++ 0 :: pad2)
        ∧ NulFree r ∧ r.length ≤ s.length ∧ flexible_form r = flexible_form s := by
  induction n with
  | zero =>
    intro s pad fuel hn hs hp hf
    obtain ⟨f, rfl⟩ : ∃ f, fuel = f + 1 := ⟨fuel - 1, by omega⟩
    have h0 : s = [] := List.length_eq_zero.1 hn
    subst h0
    refine ⟨[], pad, ?_, hs, le_rfl, rfl⟩
    rw [clean_newlines_loop_step f [] pad hs]
    rfl
  | succ n ih =>
    intro s pad fuel hn hs hp hf
    obtain ⟨f, rfl⟩ : ∃ f, fuel = f + 1 := ⟨fuel - 1, by omega⟩
    rw [clean_newlines_loop_step f s pad hs]
    cases hst : strstr s [13, 10] with
    | none => exact ⟨s, pad, rfl, hs, le_rfl, rfl⟩
    | some off =>
      obtain ⟨pre, post, e, hl⟩ := strstr_some hst
      have e2 : s = pre ++ 13 :: 10 :: post := by simp [e]
      subst e2
      obtain ⟨a, b, rest, rfl⟩ : ∃ a b rest, pad = a :: b :: rest := by
        match pad, hp with
        | a :: b :: rest, _ => exact ⟨a, b, rest, rfl⟩
      subst hl
      simp only
      rw [memmove_crlf pre post rest a b]
      simp only
      have hs2 : NulFree (pre ++ 10 :: post) := by
        intro x hx
        apply hs x
        simp only [List.mem_append, List.mem_cons] at hx ⊢
        tauto
      have hl2 : (pre ++ 10 :: post).length = n := by
        simp only [List.length_append, List.length_cons] at hn ⊢
        omega
      obtain ⟨r, pad2, h1, h2, h3, h4⟩ := ih (pre ++ 10 :: post) (a :: b :: b :: rest) f hl2 hs2
        (by simp) (by omega)
      refine ⟨r, pad2, h1, h2, ?_, ?_⟩
      · simp only [List.length_append, List.length_cons] at h3 ⊢
        omega
      · rw [h4, flexible_form_drop_cr]

theorem apply_rules_flexible (F : TextMatching) (hF : F.NonZero) (r : CStr)
    (hl : r.length ≤ INT_MAX) :
    apply_rules F (expand_flexible F F.FLEXIBLE) (some r)
      = Outcome.ret (some (flexible_form r)) := by
  obtain ⟨h1, h2, h3, h4, h5⟩ := expand_flexible_all F hF
  have hlen : ¬ r.length > INT_MAX := by omega
  simp only [apply_rules, h1, h2, h3, h4, h5, apply_rule, lower_case, if_neg hlen, remove_chars,
    Outcome.ret_bind, if_true, filter_rules, flexible_form]

theorem flexible_form_strip_trailing (s : CStr) :
    flexible_form (strip_trailing s) = flexible_form s := filter_strip_trailing s

theorem clean_string_in_flexible (pad : List Nat) (F : TextMatching) (env : Env) (s : CStr)
    (hF : F.NonZero) (hs : NulFree s) (hm : ∀ n, env.malloc_ok n = true)
    (hl : s.length ≤ INT_MAX) (hp : 2 ≤ pad.length) :
    clean_string_in pad F env (some s) F.FLEXIBLE = Outcome.ret (some (flexible_form s)) := by
  obtain ⟨r, pad2, h1, h2, h3, h4⟩ := clean_newlines_loop_in (strip_trailing s).length
    (strip_trailing s) pad ((strip_trailing s).length + 1) rfl (strip_trailing_nulFree hs) hp
    (by omega)
  have hr : r.length ≤ INT_MAX := by
    have := strip_trailing_length s
    omega
  simp only [clean_string_in, if_neg hF.1, clean_always_in, clean_newlines_in, duplicate_string,
    malloc, hm, if_true, h1, Outcome.ret_bind, c_str_append_nul r pad2 h2, Outcome.ofOption,
    apply_rules_flexible F hF r hr, h4, flexible_form_strip_trailing]

theorem round_half_even_err (x : ℚ) : |(round_half_even x : ℚ) - x| ≤ 1 / 2 := by
  have h1 := Int.floor_le x
  have h2 := Int.lt_floor_add_one x
  unfold round_half_even
  split_ifs <;> rw [abs_le] <;> constructor <;> push_cast <;> linarith

theorem round_value_err (q : ℚ) :
    |round_value q - q| ≤ 2 ^ (binade q - 52) / 2 := by
  have hu : (0 : ℚ) < 2 ^ (binade q - 52) := by positivity
  have h := round_half_even_err (q / 2 ^ (binade q - 52))
  have e : round_value q - q
      = ((round_half_even (q / 2 ^ (binade q - 52)) : ℚ) - q / 2 ^ (binade q - 52))
        * 2 ^ (binade q - 52) := by
    unfold round_value
    field_simp
  rw [e, abs_mul, abs_of_pos hu]
  calc |(round_half_even (q / 2 ^ (binade q - 52)) : ℚ) - q / 2 ^ (binade q - 52)|
        * 2 ^ (binade q - 52)
      ≤ 1 / 2 * 2 ^ (binade q - 52) := mul_le_mul_of_nonneg_right h hu.le
    _ = 2 ^ (binade q - 52) / 2 := by ring

/-- The rounding of a result in the normal range has a relative error of at
most `2^-53`. -/
theorem round_value_rel {q : ℚ} (h : (2 : ℚ) ^ binade q ≤ |q|) :
    |round_value q - q| ≤ |q| / 9007199254740992 := by
  have h1 := round_value_err q
  have h2 := pow_binade_split q
  have hu : (0 : ℚ) < 2 ^ (binade q - 52) := by positivity
  have h3 : (2 : ℚ) ^ (binade q - 52) / 2 ≤ |q| / 9007199254740992 := by
    rw [div_le_div_iff₀ (by norm_num) (by norm_num)]
    linarith
  linarith

/-- A number that is a multiple of `2^-1074`, as the sums, differences and
integer multiples of doubles are, is rounded with a relative error of at most
`2^-53`. -/
theorem round_value_rel_grid {q : ℚ} (h : ∃ z : ℤ, q = z * 2 ^ (-1074 : ℤ)) :
    |round_value q - q| ≤ |q| / 9007199254740992 := by
  by_cases h0 : q = 0
  · subst h0
    simp [round_value, round_half_even]
  · rcases binade_le_abs h0 with h1 | h1
    · exact round_value_rel h1
    · have hb : binade q = -1022 := le_antisymm h1 (binade_ge q)
      obtain ⟨z, hz⟩ := h
      have hq : q = z * 2 ^ (binade q - 52) := by
        rw [hb]
        exact hz
      rw [round_value_multiple hq, sub_self, abs_zero]
      positivity

theorem representable_grid_min {a : ℚ} (ha : Representable a) :
    ∃ z : ℤ, a = z * 2 ^ (-1074 : ℤ) :=
  representable_multiple (e := -1022) ha (Or.inr le_rfl)

theorem pow_perturb (a b u : ℚ) (hu : 0 ≤ u) (h : |a - b| ≤ u * |b|) (n : Nat) :
    |a ^ n - b ^ n| ≤ |b| ^ n * ((1 + u) ^ n - 1) ∧ |a| ^ n ≤ |b| ^ n * (1 + u) ^ n := by
  have ha : |a| ≤ |b| * (1 + u) := by
    have := abs_sub_abs_le_abs_sub a b
    linarith
  have h2 : |a| ^ n ≤ |b| ^ n * (1 + u) ^ n := by
    rw [← mul_pow]
    exact pow_le_pow_left₀ (abs_nonneg a) ha n
  refine ⟨?_, h2⟩
  induction n with
  | zero => simp
  | succ n ih =>
    have ih1 := ih (by
      rw [← mul_pow]
      exact pow_le_pow_left₀ (abs_nonneg a) ha n)
    have hb : 0 ≤ |b| := abs_nonneg b
    have hbn : 0 ≤ |b| ^ n := pow_nonneg hb n
    have h1u : 0 ≤ (1 + u) ^ n := by positivity
    have han : |a ^ n| ≤ |b| ^ n * (1 + u) ^ n := by
      rw [abs_pow, ← mul_pow]
      exact pow_le_pow_left₀ (abs_nonneg a) ha n
    have e : a ^ (n + 1) - b ^ (n + 1) = a ^ n * (a - b) + (a ^ n - b ^ n) * b := by ring
    rw [e]
    calc |a ^ n * (a - b) + (a ^ n - b ^ n) * b|
        ≤ |a ^ n * (a - b)| + |(a ^ n - b ^ n) * b| := abs_add _ _
      _ = |a ^ n| * |a - b| + |a ^ n - b ^ n| * |b| := by rw [abs_mul, abs_mul]
      _ ≤ (|b| ^ n * (1 + u) ^ n) * (u * |b|) + (|b| ^ n * ((1 + u) ^ n - 1)) * |b| := by
          apply add_le_add
          · exact mul_le_mul han h (abs_nonneg _) (by positivity)
          · exact mul_le_mul_of_nonneg_right ih1 hb
      _ = |b| ^ (n + 1) * ((1 + u) ^ (n + 1) - 1) := by ring

theorem round_half_away_near (x : ℚ) :
    (round_half_away x : ℚ) - 1 / 2 ≤ x ∧ x ≤ round_half_away x + 1 / 2 := by
  unfold round_half_away
  split_ifs
  · have h1 := Int.floor_le (x + 1 / 2)
    have h2 := Int.lt_floor_add_one (x + 1 / 2)
    constructor <;> linarith
  · have h1 := Int.floor_le (-x + 1 / 2)
    have h2 := Int.lt_floor_add_one (-x + 1 / 2)
    push_cast
    constructor <;> linarith

theorem round_half_away_eq {x : ℚ} {k : ℤ} (h1 : (k : ℚ) - 1 / 2 < x) (h2 : x < k + 1 / 2) :
    round_half_away x = k := by
  unfold round_half_away
  split_ifs
  · rw [Int.floor_eq_iff]
    constructor <;> linarith
  · have : ⌊-x + 1 / 2⌋ = -k := by
      rw [Int.floor_eq_iff]
      push_cast
      constructor <;> linarith
    rw [this]
    omega

theorem compound_growth_error (e : Int) (g p eps : ℚ) (n : Nat) (hg : Representable g)
    (hp : Representable p) (heps : 0 ≤ eps)
    (hacc : |p - round_value (1 + g) ^ n| ≤ eps * |round_value (1 + g)| ^ n) :
    |round_value ((e : ℚ) * p) - compound_growth e g n|
      ≤ |compound_growth e g n| * estimate_tolerance n eps := by
  have hu : (0 : ℚ) ≤ 1 / 9007199254740992 := by norm_num
  -- the sum 1 + g
  have hgrid1 : ∃ z : ℤ, 1 + g = z * 2 ^ (-1074 : ℤ) := by
    obtain ⟨z, hz⟩ := representable_grid_min hg
    obtain ⟨w, hw⟩ := representable_grid_min representable_one
    exact ⟨w + z, by push_cast; rw [add_mul, ← hz, ← hw]⟩
  have ha : |round_value (1 + g) - (1 + g)| ≤ 1 / 9007199254740992 * |1 + g| := by
    have := round_value_rel_grid hgrid1
    linarith
  obtain ⟨hpow, hpow2⟩ := pow_perturb (round_value (1 + g)) (1 + g) _ hu ha n
  -- the power
  have hb : 0 ≤ |1 + g| ^ n := pow_nonneg (abs_nonneg _) n
  have hpe : |p - (1 + g) ^ n|
      ≤ |1 + g| ^ n * ((1 + 1 / 9007199254740992) ^ n * (1 + eps) - 1) := by
    have e1 : p - (1 + g) ^ n
        = (p - round_value (1 + g) ^ n) + (round_value (1 + g) ^ n - (1 + g) ^ n) := by ring
    rw [e1]
    have h3 : eps * |round_value (1 + g)| ^ n
        ≤ eps * (|1 + g| ^ n * (1 + 1 / 9007199254740992) ^ n) :=
      mul_le_mul_of_nonneg_left hpow2 heps
    calc |(p - round_value (1 + g) ^ n) + (round_value (1 + g) ^ n - (1 + g) ^ n)|
        ≤ |p - round_value (1 + g) ^ n| + |round_value (1 + g) ^ n - (1 + g) ^ n| :=
          abs_add _ _
      _ ≤ eps * (|1 + g| ^ n * (1 + 1 / 9007199254740992) ^ n)
          + |1 + g| ^ n * ((1 + 1 / 9007199254740992) ^ n - 1) := by linarith
      _ = |1 + g| ^ n * ((1 + 1 / 9007199254740992) ^ n * (1 + eps) - 1) := by ring
  -- the product
  have hX : |compound_growth e g n| = |(e : ℚ)| * |1 + g| ^ n := by
    unfold compound_growth
    rw [abs_mul, abs_pow]
  have hyX : |(e : ℚ) * p - compound_growth e g n|
      ≤ |compound_growth e g n| * ((1 + 1 / 9007199254740992) ^ n * (1 + eps) - 1) := by
    have e2 : (e : ℚ) * p - compound_growth e g n = e * (p - (1 + g) ^ n) := by
      unfold compound_growth
      ring
    rw [e2, abs_mul, hX, mul_assoc]
    exact mul_le_mul_of_nonneg_left hpe (abs_nonneg _)
  have hgrid2 : ∃ z : ℤ, (e : ℚ) * p = z * 2 ^ (-1074 : ℤ) := by
    obtain ⟨z, hz⟩ := representable_grid_min hp
    exact ⟨e * z, by push_cast; rw [mul_assoc, ← hz]⟩
  have hr := round_value_rel_grid hgrid2
  have hy : |(e : ℚ) * p| ≤ |compound_growth e g n|
      + |compound_growth e g n| * ((1 + 1 / 9007199254740992) ^ n * (1 + eps) - 1) := by
    have := abs_sub_abs_le_abs_sub ((e : ℚ) * p) (compound_growth e g n)
    linarith
  have e3 : round_value ((e : ℚ) * p) - compound_growth e g n
      = (round_value ((e : ℚ) * p) - e * p) + (e * p - compound_growth e g n) := by ring
  rw [e3]
  have hXn : 0 ≤ |compound_growth e g n| := abs_nonneg _
  calc |(round_value ((e : ℚ) * p) - e * p) + (e * p - compound_growth e g n)|
      ≤ |round_value ((e : ℚ) * p) - e * p| + |e * p - compound_growth e g n| := abs_add _ _
    _ ≤ (|compound_growth e g n|
          + |compound_growth e g n| * ((1 + 1 / 9007199254740992) ^ n * (1 + eps) - 1))
          / 9007199254740992
        + |compound_growth e g n| * ((1 + 1 / 9007199254740992) ^ n * (1 + eps) - 1) := by
        have : |(e : ℚ) * p| / 9007199254740992
            ≤ (|compound_growth e g n|
              + |compound_growth e g n| * ((1 + 1 / 9007199254740992) ^ n * (1 + eps) - 1))
              / 9007199254740992 :=
          div_le_div_of_nonneg_right hy (by norm_num)
        linarith
    _ = |compound_growth e g n| * estimate_tolerance n eps := by
        unfold estimate_tolerance
        ring

theorem estimate_tolerance_nonneg (n : Nat) (eps : ℚ) (heps : 0 ≤ eps) :
    0 ≤ estimate_tolerance n eps := by
  unfold estimate_tolerance
  have h1 : (1 : ℚ) ≤ (1 + 1 / 9007199254740992) ^ (n + 1) :=
    one_le_pow₀ (by norm_num)
  have h2 : (1 : ℚ) ≤ 1 + eps := by linarith
  have := mul_le_mul h1 h2 (by norm_num) (by linarith)
  linarith

theorem calculate_enrollment_estimate_exact (M : LibM) (hM : M.AnnexF) (e : Int) (g : ℚ)
    (iy ey : Int) (p eps : ℚ) (he1 : INT_MIN ≤ e) (he2 : e ≤ (INT_MAX : Int))
    (hg : Representable g) (hy0 : iy ≤ ey) (hy2 : ey - iy ≤ (INT_MAX : Int)) (heps : 0 ≤ eps)
    (hp : M.pow (Double.add (Double.of_int 1) (Double.num g)) (Double.of_int (ey - iy))
      = Double.num p)
    (hacc : |p - round_value (1 + g) ^ (ey - iy).toNat|
      ≤ eps * |round_value (1 + g)| ^ (ey - iy).toNat)
    (hfar : ∀ j : ℤ, |compound_growth e g (ey - iy).toNat|
        * estimate_tolerance (ey - iy).toNat eps
      < |compound_growth e g (ey - iy).toNat - (j + 1 / 2)|)
    (hfit1 : INT_MIN ≤ round_half_away (compound_growth e g (ey - iy).toNat))
    (hfit2 : round_half_away (compound_growth e g (ey - iy).toNat) ≤ (INT_MAX : Int)) :
    calculate_enrollment_estimate M e (Double.num g) iy ey
      = Outcome.ret (round_half_away (compound_growth e g (ey - iy).toNat)) := by
  have hv : Representable p := by
    have h := hM.2.2 (Double.add (Double.of_int 1) (Double.num g)) (Double.of_int (ey - iy))
      (by rw [of_int_one]; exact round_isValue _) (of_int_isValue _)
    rw [hp] at h
    exact h
  have herr := compound_growth_error e g p eps (ey - iy).toNat hg hv heps hacc
  generalize compound_growth e g (ey - iy).toNat = X at herr hfar hfit1 hfit2
  generalize estimate_tolerance (ey - iy).toNat eps = tol at herr hfar
  obtain ⟨hn1, hn2⟩ := round_half_away_near X
  have hf1 := hfar (round_half_away X)
  have hf2 := hfar (round_half_away X - 1)
  rw [abs_of_nonpos (show X - (((round_half_away X : ℤ) : ℚ) + 1 / 2) ≤ 0 by linarith)] at hf1
  push_cast at hf2
  rw [abs_of_nonneg (show 0 ≤ X - (((round_half_away X : ℤ) : ℚ) - 1 + 1 / 2) by linarith)]
    at hf2
  rw [abs_le] at herr
  have hlo : ((round_half_away X : ℤ) : ℚ) - 1 / 2 < round_value ((e : ℚ) * p) := by linarith
  have hhi : round_value ((e : ℚ) * p) < ((round_half_away X : ℤ) : ℚ) + 1 / 2 := by linarith
  have hk := round_half_away_eq hlo hhi
  have hkb := int32_abs hfit1 hfit2
  have hkq : |((round_half_away X : ℤ) : ℚ)| < 2 ^ 53 := by exact_mod_cast hkb
  have hsmall : |round_value ((e : ℚ) * p)| < 2 ^ 53 := by
    unfold INT_MIN at hfit1
    unfold INT_MAX at hfit2
    have h1 : ((-2147483648 : ℤ) : ℚ) ≤ (round_half_away X : ℤ) := by exact_mod_cast hfit1
    have h2 : ((round_half_away X : ℤ) : ℚ) ≤ ((2147483647 : ℕ) : ℤ) := by exact_mod_cast hfit2
    push_cast at h1 h2
    rw [abs_lt]
    constructor <;> norm_num <;> linarith
  rw [calculate_enrollment_estimate_eq M e (Double.num g) iy ey (by unfold INT_MIN; omega) hy2,
    hp, of_int_eq e (int32_abs he1 he2)]
  have hm : Double.mul (Double.num e) (Double.num p)
      = Double.num (round_value ((e : ℚ) * p)) := round_of_value rfl hsmall
  rw [hm]
  show (Double.num (round_half_away (round_value ((e : ℚ) * p)) : ℚ)).to_int = _
  rw [hk]
  exact to_int_int _ hfit1 hfit2

/-! ## Further literals -/

theorem round_value_one_plus_0_05 :
    round_value (1 + 3602879701896397 / 72057594037927936)
      = 4728779608739021 / 4503599627370496 := by
  have h := round_value_eval (q := (1 + 3602879701896397 / 72057594037927936 : ℚ))
    (e := 0) (k := 4728779608739021)
    (by rw [abs_of_pos (by norm_num)]; norm_num)
    (by rw [abs_of_pos (by norm_num)]; norm_num) (by norm_num)
    (by rw [abs_lt]; constructor <;> norm_num)
  rw [h]
  norm_num

theorem one_plus_0_005 :
    Double.add (Double.of_int 1) lit_0_005
      = Double.num (1131529406376837 / 1125899906842624) := by
  rw [of_int_one]
  show Double.round (1 + 5764607523034235 / 1152921504606846976) = _
  apply round_of_value _ (by rw [abs_of_pos (by norm_num)]; norm_num)
  have h := round_value_eval (q := (1 + 5764607523034235 / 1152921504606846976 : ℚ))
    (e := 0) (k := 4526117625507348)
    (by rw [abs_of_pos (by norm_num)]; norm_num)
    (by rw [abs_of_pos (by norm_num)]; norm_num) (by norm_num)
    (by rw [abs_lt]; constructor <;> norm_num)
  rw [h]
  norm_num

theorem one_minus_0_02 :
    Double.add (Double.of_int 1) lit_neg_0_02
      = Double.num (2206763817411543 / 2251799813685248) := by
  rw [of_int_one]
  show Double.round (1 + -(5764607523034235 / 288230376151711744)) = _
  apply round_of_value _ (by rw [abs_of_pos (by norm_num)]; norm_num)
  have h := round_value_eval (q := (1 + -(5764607523034235 / 288230376151711744) : ℚ))
    (e := -1) (k := 8827055269646172)
    (by rw [abs_of_pos (by norm_num)]; norm_num)
    (by rw [abs_of_pos (by norm_num)]; norm_num) (by norm_num)
    (by rw [abs_lt]; constructor <;> norm_num)
  rw [h]
  norm_num

/-- The estimate for (100, 0.005, one year) when `pow(x, 1)` is `x`: the double
product is just below 100.5. -/
theorem estimate_100 (M : LibM)
    (hp : M.pow (Double.num (1131529406376837 / 1125899906842624)) (Double.num 1)
      = Double.num (1131529406376837 / 1125899906842624)) :
    calculate_enrollment_estimate M 100 lit_0_005 2020 2021 = Outcome.ret 100 := by
  rw [calculate_enrollment_estimate_eq M 100 lit_0_005 2020 2021 (by norm_num [INT_MIN])
    (by norm_num [INT_MAX])]
  have h1 : Double.of_int (2021 - 2020) = Double.num 1 := by
    have := of_int_eq 1 (by norm_num)
    simpa using this
  have h100 : Double.of_int 100 = Double.num 100 := by
    have := of_int_eq 100 (by norm_num)
    simpa using this
  rw [one_plus_0_005, h1, hp, h100]
  have hv : round_value (100 * (1131529406376837 / 1125899906842624))
      = 7072058789855231 / 70368744177664 := by
    have h := round_value_eval (q := (100 * (1131529406376837 / 1125899906842624) : ℚ))
      (e := 6) (k := 7072058789855231)
      (by rw [abs_of_pos (by norm_num)]; norm_num)
      (by rw [abs_of_pos (by norm_num)]; norm_num) (by norm_num)
      (by rw [abs_lt]; constructor <;> norm_num)
    rw [h]
    norm_num
  have hm : Double.mul (Double.num 100) (Double.num (1131529406376837 / 1125899906842624))
      = Double.num (7072058789855231 / 70368744177664) :=
    round_of_value hv (by rw [abs_of_pos (by norm_num)]; norm_num)
  rw [hm]
  have hr : round_half_away (7072058789855231 / 70368744177664 : ℚ) = 100 :=
    round_half_away_eq (by norm_num) (by norm_num)
  show (Double.num (round_half_away (7072058789855231 / 70368744177664 : ℚ) : ℚ)).to_int = _
  rw [hr]
  have := to_int_int 100 (by norm_num [INT_MIN]) (by norm_num [INT_MAX])
  simpa using this

theorem pow_sample_one_1005 :
    libm_sample.pow (Double.num (1131529406376837 / 1125899906842624)) (Double.num 1)
      = Double.num (1131529406376837 / 1125899906842624) := by
  show pow_sample (Double.num (1131529406376837 / 1125899906842624)) (Double.num 1)
    = Double.num (1131529406376837 / 1125899906842624)
  unfold pow_sample
  rw [if_neg (by simp), if_neg (by norm_num)]
  simp only [Rat.den_ofNat, Rat.num_ofNat, true_and]
  rw [if_pos (by norm_num)]
  have hn : ((1 : ℤ)).toNat = 1 := rfl
  rw [hn, pow_one]
  apply round_representable
  · have := representable_of_zpow 4526117625507348 (-52) (by norm_num) (by norm_num)
    convert this using 1
    norm_num
  · rw [abs_of_pos (by norm_num)]
    exact lt_of_lt_of_le (by norm_num : (1131529406376837 / 1125899906842624 : ℚ) < 2 ^ 1)
      (pow_le_pow_right₀ (by norm_num) (by norm_num))

theorem estimate_of_pow_bounds_decline (M : LibM) (p : ℚ)
    (hp : M.pow (Double.num (2206763817411543 / 2251799813685248)) (Double.num 20)
      = Double.num p)
    (h1 : 66759 / 100000 ≤ p) (h2 : p ≤ 66762 / 100000) :
    calculate_enrollment_estimate M 29107 lit_neg_0_02 2020 2040 = Outcome.ret 19432 := by
  rw [calculate_enrollment_estimate_eq M 29107 lit_neg_0_02 2020 2040 (by norm_num [INT_MIN])
    (by norm_num [INT_MAX])]
  have h20 : Double.of_int (2040 - 2020) = Double.num 20 := by
    have := of_int_eq 20 (by norm_num)
    simpa using this
  have h29 : Double.of_int 29107 = Double.num 29107 := by
    have := of_int_eq 29107 (by norm_num)
    simpa using this
  rw [one_minus_0_02, h20, hp, h29]
  show (Double.c_round (Double.round (29107 * p))).to_int = Outcome.ret 19432
  have hlo : (38863 / 2 : ℚ) ≤ round_value (29107 * p) := by
    have hr : Representable (38863 / 2 : ℚ) := by
      have := representable_of_zpow 38863 (-1) (by norm_num) (by norm_num)
      convert this using 1
      norm_num
    apply round_value_ge hr (by norm_num)
    linarith
  have hhi : round_value (29107 * p) ≤ 310919 / 16 := by
    have hr : Representable (310919 / 16 : ℚ) := by
      have := representable_of_zpow 310919 (-4) (by norm_num) (by norm_num)
      convert this using 1
      norm_num
    apply round_value_le hr
    · linarith
    · linarith
  rw [round_of_value rfl (by rw [abs_lt]; constructor <;> norm_num <;> linarith)]
  have hr : round_half_away (round_value (29107 * p)) = 19432 := by
    unfold round_half_away
    rw [if_pos (by linarith), Int.floor_eq_iff]
    constructor <;> push_cast <;> linarith
  show (Double.num (round_half_away (round_value (29107 * p)) : ℚ)).to_int = _
  rw [hr]
  have := to_int_int 19432 (by norm_num [INT_MIN]) (by norm_num [INT_MAX])
  simpa using this

theorem pow_sample_20 :
    libm_sample.pow (Double.num (2206763817411543 / 2251799813685248)) (Double.num 20)
      = Double.num (3006639012825815 / 4503599627370496) := by
  show pow_sample (Double.num (2206763817411543 / 2251799813685248)) (Double.num 20)
    = Double.num (3006639012825815 / 4503599627370496)
  unfold pow_sample
  rw [if_neg (by simp), if_neg (by norm_num)]
  simp only [Rat.den_ofNat, Rat.num_ofNat, true_and]
  rw [if_pos (by norm_num)]
  have hn : ((20 : ℤ)).toNat = 20 := rfl
  rw [hn]
  apply round_of_value _ (by rw [abs_of_pos (by norm_num)]; norm_num)
  have h := round_value_eval
    (q := ((2206763817411543 : ℚ) / 2251799813685248) ^ 20) (e := -1) (k := 6013278025651630)
    (by rw [abs_of_pos (by positivity)]; norm_num)
    (by rw [abs_of_pos (by positivity)]; norm_num) (by norm_num)
    (by rw [abs_lt]; constructor <;> norm_num)
  rw [h]
  norm_num

/-- C20 as amended: calculate_enrollment_estimate is compound growth rounded to the
nearest integer up to the accuracy of double arithmetic. For every int enrollment
`e`, finite double rate `g` and years `iy ≤ ey` whose difference `n` fits an int: if
`pow` (a C library function meeting Annex F) returns `p` within relative error `eps`
of the `n`-th power of the double nearest to `1 + g`, if the exact value
`X = e * (1 + g) ^ n` is farther than `|X| * ((1 + 2^-53)^(n+1) * (1 + eps) - 1)`
from every half-integer, and if `X` rounded to the nearest integer fits an int, then
the result is `X` rounded to the nearest integer. In particular, the exact values of
the two examples round to 60511 and 19432 (for the decimal rates and for the doubles
nearest to them), and the function returns 60511 for (29107, 0.05, 2020, 2035) when
`pow(1.05, 15)` lies in [2.078925, 2.078930] and 19432 for (29107, -0.02, 2020, 2040)
when `pow(0.98, 20)` lies in [0.66759, 0.66762]. -/
theorem calculate_enrollment_estimate_compound (M : LibM) (hM : M.AnnexF) (e : Int) (g : ℚ)
    (iy ey : Int) (p eps : ℚ) (he1 : INT_MIN ≤ e) (he2 : e ≤ (INT_MAX : Int))
    (hg : Representable g) (hy0 : iy ≤ ey) (hy2 : ey - iy ≤ (INT_MAX : Int)) (heps : 0 ≤ eps)
    (hp : M.pow (Double.add (Double.of_int 1) (Double.num g)) (Double.of_int (ey - iy))
      = Double.num p)
    (hacc : |p - round_value (1 + g) ^ (ey - iy).toNat|
      ≤ eps * |round_value (1 + g)| ^ (ey - iy).toNat)
    (hfar : ∀ j : ℤ, |compound_growth e g (ey - iy).toNat|
        * estimate_tolerance (ey - iy).toNat eps
      < |compound_growth e g (ey - iy).toNat - (j + 1 / 2)|)
    (hfit1 : INT_MIN ≤ round_half_away (compound_growth e g (ey - iy).toNat))
    (hfit2 : round_half_away (compound_growth e g (ey - iy).toNat) ≤ (INT_MAX : Int)) :
    calculate_enrollment_estimate M e (Double.num g) iy ey
        = Outcome.ret (round_half_away (compound_growth e g (ey - iy).toNat))
      ∧ round_half_away (compound_growth 29107 (5 / 100) 15) = 60511
      ∧ round_half_away (compound_growth 29107 (3602879701896397 / 72057594037927936) 15)
          = 60511
      ∧ round_half_away (compound_growth 29107 (-(2 / 100)) 20) = 19432
      ∧ round_half_away (compound_growth 29107 (-(5764607523034235 / 288230376151711744)) 20)
          = 19432
      ∧ (∀ (L : LibM) (q : ℚ),
          L.pow (Double.add (Double.of_int 1) lit_0_05) (Double.of_int (2035 - 2020))
            = Double.num q →
          2078925 / 1000000 ≤ q → q ≤ 2078930 / 1000000 →
          calculate_enrollment_estimate L 29107 lit_0_05 2020 2035 = Outcome.ret 60511)
      ∧ (∀ (L : LibM) (q : ℚ),
          L.pow (Double.add (Double.of_int 1) lit_neg_0_02) (Double.of_int (2040 - 2020))
            = Double.num q →
          66759 / 100000 ≤ q → q ≤ 66762 / 100000 →
          calculate_enrollment_estimate L 29107 lit_neg_0_02 2020 2040 = Outcome.ret 19432) := by
  have h15 : Double.of_int (2035 - 2020) = Double.num 15 := by
    have := of_int_eq 15 (by norm_num)
    simpa using this
  have h20 : Double.of_int (2040 - 2020) = Double.num 20 := by
    have := of_int_eq 20 (by norm_num)
    simpa using this
  refine ⟨calculate_enrollment_estimate_exact M hM e g iy ey p eps he1 he2 hg hy0 hy2 heps hp
    hacc hfar hfit1 hfit2, ?_, ?_, ?_, ?_, ?_, ?_⟩
  · exact round_half_away_eq (by norm_num [compound_growth]) (by norm_num [compound_growth])
  · exact round_half_away_eq (by norm_num [compound_growth]) (by norm_num [compound_growth])
  · exact round_half_away_eq (by norm_num [compound_growth]) (by norm_num [compound_growth])
  · exact round_half_away_eq (by norm_num [compound_growth]) (by norm_num [compound_growth])
  · intro L q hq h1 h2
    rw [one_plus_0_05, h15] at hq
    exact estimate_of_pow_bounds L q hq h1 h2
  · intro L q hq h1 h2
    rw [one_minus_0_02, h20] at hq
    exact estimate_of_pow_bounds_decline L q hq h1 h2

/-- C20 refuted as stated: for (100, 0.005, 2020, 2021) the exact value
`100 * (1 + g)` rounds to 101, both for the decimal rate 0.005 (exactly 100.5) and
for the double nearest to it (just above 100.5), whereas the function returns 100
with the correctly rounded sample `pow`, and with every `pow` for which
`pow(x, 1)` is `x` at the double `x` nearest to `1 + 0.005`: the double product
`100 * x` is just below 100.5. -/
theorem calculate_enrollment_estimate_not_exact :
    lit_0_005 = Double.num (5764607523034235 / 1152921504606846976)
      ∧ round_half_away (compound_growth 100 (5 / 1000) 1) = 101
      ∧ round_half_away (compound_growth 100 (5764607523034235 / 1152921504606846976) 1) = 101
      ∧ calculate_enrollment_estimate libm_sample 100 lit_0_005 2020 2021 = Outcome.ret 100
      ∧ (∀ L : LibM,
          L.pow (Double.add (Double.of_int 1) lit_0_005) (Double.of_int (2021 - 2020))
            = Double.add (Double.of_int 1) lit_0_005 →
          calculate_enrollment_estimate L 100 lit_0_005 2020 2021 = Outcome.ret 100) := by
  have h1 : Double.of_int (2021 - 2020) = Double.num 1 := by
    have := of_int_eq 1 (by norm_num)
    simpa using this
  refine ⟨rfl, ?_, ?_, estimate_100 libm_sample pow_sample_one_1005, ?_⟩
  · norm_num [compound_growth, round_half_away]
  · exact round_half_away_eq (by norm_num [compound_growth]) (by norm_num [compound_growth])
  · intro L hL
    rw [one_plus_0_005, h1] at hL
    exact estimate_100 L hL

theorem compound_60511_bounds :
    (605113 / 10 : ℚ) < compound_growth 29107 (3602879701896397 / 72057594037927936) 15
      ∧ compound_growth 29107 (3602879701896397 / 72057594037927936) 15 < 605114 / 10
      ∧ estimate_tolerance 15 (1 / 9007199254740992) < 1 / 1000000000 := by
  refine ⟨?_, ?_, ?_⟩ <;> norm_num [compound_growth, estimate_tolerance]

/-- Witness of C20 as amended, with the correctly rounded sample `pow`, the rate
being the double nearest to 0.05 and `eps` being `2^-53`: the function returns
the exact value of (29107, 0.05, 2020, 2035) rounded, which is 60511, and 19432
for the second example. -/
theorem calculate_enrollment_estimate_compound_witness :
    calculate_enrollment_estimate libm_sample 29107
        (Double.num (3602879701896397 / 72057594037927936)) 2020 2035
        = Outcome.ret (round_half_away
            (compound_growth 29107 (3602879701896397 / 72057594037927936) (2035 - 2020 : ℤ).toNat))
      ∧ round_half_away
          (compound_growth 29107 (3602879701896397 / 72057594037927936) (2035 - 2020 : ℤ).toNat)
        = 60511
      ∧ calculate_enrollment_estimate libm_sample 29107 lit_0_05 2020 2035 = Outcome.ret 60511
      ∧ calculate_enrollment_estimate libm_sample 29107 lit_neg_0_02 2020 2040
        = Outcome.ret 19432 := by
  have hn : (2035 - 2020 : ℤ).toNat = 15 := rfl
  obtain ⟨hX1, hX2, htol⟩ := compound_60511_bounds
  have hr : round_half_away
      (compound_growth 29107 (3602879701896397 / 72057594037927936) 15) = 60511 :=
    round_half_away_eq (by push_cast; linarith) (by push_cast; linarith)
  have h15 : Double.of_int (2035 - 2020) = Double.num 15 := by
    have := of_int_eq 15 (by norm_num)
    simpa using this
  have h20 : Double.of_int (2040 - 2020) = Double.num 20 := by
    have := of_int_eq 20 (by norm_num)
    simpa using this
  have hpow : libm_sample.pow
      (Double.add (Double.of_int 1) (Double.num (3602879701896397 / 72057594037927936)))
      (Double.of_int (2035 - 2020)) = Double.num (1170332521765883 / 562949953421312) := by
    have h := one_plus_0_05
    unfold lit_0_05 at h
    rw [h, h15]
    exact pow_sample_15
  have hpow2 : libm_sample.pow (Double.add (Double.of_int 1) lit_neg_0_02)
      (Double.of_int (2040 - 2020)) = Double.num (3006639012825815 / 4503599627370496) := by
    rw [one_minus_0_02, h20]
    exact pow_sample_20
  have hpow1 : libm_sample.pow (Double.add (Double.of_int 1) lit_0_05)
      (Double.of_int (2035 - 2020)) = Double.num (1170332521765883 / 562949953421312) := hpow
  have hmain := calculate_enrollment_estimate_compound libm_sample libm_sample_annexF 29107
    (3602879701896397 / 72057594037927936) 2020 2035
    (1170332521765883 / 562949953421312) (1 / 9007199254740992)
    (by norm_num [INT_MIN]) (by norm_num [INT_MAX])
    ⟨3602879701896397, 1018, by norm_num, by norm_num⟩
    (by norm_num) (by norm_num [INT_MAX]) (by norm_num) hpow
    (by
      rw [hn, round_value_one_plus_0_05,
        abs_of_pos (show (0 : ℚ) < 4728779608739021 / 4503599627370496 by norm_num), abs_le]
      constructor <;> norm_num)
    (by
      intro j
      rw [hn, abs_of_pos (show (0 : ℚ)
        < compound_growth 29107 (3602879701896397 / 72057594037927936) 15 by linarith), lt_abs]
      have hm : compound_growth 29107 (3602879701896397 / 72057594037927936) 15
          * estimate_tolerance 15 (1 / 9007199254740992) < 1 / 10 := by
        have h0 : 0 ≤ estimate_tolerance 15 (1 / 9007199254740992) :=
          estimate_tolerance_nonneg 15 _ (by norm_num)
        nlinarith
      by_cases hj : j ≤ 60510
      · left
        have : (j : ℚ) ≤ 60510 := by exact_mod_cast hj
        linarith
      · right
        have : (60511 : ℚ) ≤ j := by
          have : (60511 : ℤ) ≤ j := by omega
          exact_mod_cast this
        linarith)
    (by rw [hn, hr]; norm_num [INT_MIN])
    (by rw [hn, hr]; norm_num [INT_MAX])
  refine ⟨hmain.1, by rw [hn]; exact hr, ?_, ?_⟩
  · exact hmain.2.2.2.2.2.1 libm_sample _ hpow1 (by norm_num) (by norm_num)
  · exact hmain.2.2.2.2.2.2 libm_sample _ hpow2 (by norm_num) (by norm_num)

/-! ## Growth rate within a tolerance -/

theorem div_int_eq (i t : Int) (hi0 : 0 < i) (hi2 : i ≤ (INT_MAX : Int)) (ht0 : 0 < t)
    (ht2 : t ≤ (INT_MAX : Int)) :
    Double.div (Double.of_int t) (Double.of_int i) = Double.num (round_value ((t : ℚ) / i))
      ∧ |round_value ((t : ℚ) / i) - (t : ℚ) / i| ≤ (t : ℚ) / i / 9007199254740992
      ∧ (t : ℚ) / i ≤ 2147483647 := by
  have hi1 : INT_MIN ≤ i := by unfold INT_MIN; omega
  have ht1 : INT_MIN ≤ t := by unfold INT_MIN; omega
  have hiq : (0 : ℚ) < i := by exact_mod_cast hi0
  have htq : (0 : ℚ) < t := by exact_mod_cast ht0
  have hi1q : (1 : ℚ) ≤ i := by exact_mod_cast hi0
  have ht1q : (1 : ℚ) ≤ t := by exact_mod_cast ht0
  have hi2q : (i : ℚ) ≤ 2147483647 := by
    unfold INT_MAX at hi2
    exact_mod_cast hi2
  have ht2q : (t : ℚ) ≤ 2147483647 := by
    unfold INT_MAX at ht2
    exact_mod_cast ht2
  have hq0 : (0 : ℚ) < (t : ℚ) / i := div_pos htq hiq
  have hqhi : (t : ℚ) / i ≤ 2147483647 := by
    rw [div_le_iff₀ hiq]
    nlinarith
  have hqlo : (1 : ℚ) / 2147483647 ≤ (t : ℚ) / i := by
    rw [div_le_div_iff₀ (by norm_num) hiq]
    nlinarith
  have hnorm : (2 : ℚ) ^ binade ((t : ℚ) / i) ≤ |(t : ℚ) / i| := by
    rcases binade_le_abs hq0.ne.symm with h | h
    · exact h
    · exfalso
      have hb : binade ((t : ℚ) / i) = -1022 := le_antisymm h (binade_ge _)
      have h2 := abs_lt_binade ((t : ℚ) / i)
      rw [hb, abs_of_pos hq0] at h2
      have h3 : (2 : ℚ) ^ (-1022 + 1 : ℤ) ≤ 1 / 2147483647 := by norm_num
      linarith
  have herr := round_value_rel hnorm
  rw [abs_of_pos hq0] at herr
  refine ⟨?_, herr, hqhi⟩
  rw [of_int_eq t (int32_abs ht1 ht2), of_int_eq i (int32_abs hi1 hi2)]
  show (if (i : ℚ) = 0 then _ else Double.round ((t : ℚ) / i)) = _
  rw [if_neg hiq.ne.symm]
  apply round_of_value rfl
  rw [abs_le] at herr
  rw [abs_lt]
  constructor <;> norm_num <;> linarith [herr.1, herr.2]

/-- Extraction of the root: a positive `p` whose `n`-th power is within the relative
error of `n` factors `1 ± e` of `x`, where `x` is within the relative error `u` of
`R ^ n`, is within the relative errors `u` and `e` of `R`. -/
theorem root_near (R Q x p u e : ℝ) (n : Nat) (hn : 0 < n) (hR : 0 < R) (hQ : R ^ n = Q)
    (hu0 : 0 ≤ u) (hu1 : u ≤ 1) (he0 : 0 ≤ e) (he1 : e ≤ 1) (hp : 0 < p)
    (hx : |x - Q| ≤ Q * u) (h1 : x * (1 - e) ^ n ≤ p ^ n) (h2 : p ^ n ≤ x * (1 + e) ^ n) :
    R * ((1 - u) * (1 - e)) ≤ p ∧ p ≤ R * ((1 + u) * (1 + e)) := by
  obtain ⟨m, rfl⟩ : ∃ m, n = m + 1 := ⟨n - 1, by omega⟩
  have hQ0 : 0 < Q := by rw [← hQ]; positivity
  rw [abs_le] at hx
  have hn0 : m + 1 ≠ 0 := by omega
  constructor
  · by_contra hc
    rw [not_le] at hc
    have h3 := pow_lt_pow_left₀ hc hp.le hn0
    have h4 : (R * ((1 - u) * (1 - e))) ^ (m + 1)
        = Q * (1 - u) ^ (m + 1) * (1 - e) ^ (m + 1) := by
      rw [mul_pow, mul_pow, hQ]
      ring
    have h5 : (1 - u) ^ (m + 1) ≤ 1 - u := by
      rw [pow_succ]
      have : (1 - u) ^ m ≤ 1 := pow_le_one₀ (by linarith) (by linarith)
      nlinarith
    have h6 : 0 ≤ (1 - e) ^ (m + 1) := pow_nonneg (by linarith) _
    have h7 : Q * (1 - u) ^ (m + 1) ≤ x := by nlinarith
    have h8 : Q * (1 - u) ^ (m + 1) * (1 - e) ^ (m + 1) ≤ x * (1 - e) ^ (m + 1) :=
      mul_le_mul_of_nonneg_right h7 h6
    linarith
  · by_contra hc
    rw [not_le] at hc
    have hb : 0 ≤ R * ((1 + u) * (1 + e)) := by positivity
    have h3 := pow_lt_pow_left₀ hc hb hn0
    have h4 : (R * ((1 + u) * (1 + e))) ^ (m + 1)
        = Q * (1 + u) ^ (m + 1) * (1 + e) ^ (m + 1) := by
      rw [mul_pow, mul_pow, hQ]
      ring
    have h5 : 1 + u ≤ (1 + u) ^ (m + 1) := by
      rw [pow_succ]
      have : 1 ≤ (1 + u) ^ m := one_le_pow₀ (by linarith)
      nlinarith
    have h6 : 0 ≤ (1 + e) ^ (m + 1) := pow_nonneg (by linarith) _
    have h7 : x ≤ Q * (1 + u) ^ (m + 1) := by nlinarith
    have h8 : x * (1 + e) ^ (m + 1) ≤ Q * (1 + u) ^ (m + 1) * (1 + e) ^ (m + 1) :=
      mul_le_mul_of_nonneg_right h7 h6
    linarith

theorem root_le (R Q : ℝ) (n : Nat) (hn : 0 < n) (hR : 0 < R) (hQ : R ^ n = Q)
    (h : Q ≤ 2147483647) : R ≤ 2147483647 := by
  obtain ⟨m, rfl⟩ : ∃ m, n = m + 1 := ⟨n - 1, by omega⟩
  by_contra hc
  rw [not_le] at hc
  have h1 : 1 ≤ R ^ m := one_le_pow₀ (by linarith)
  rw [pow_succ] at hQ
  nlinarith

theorem tolerance_combine (R r p v u e : ℝ) (hR : 0 < R) (hRr : R = 1 + r) (hu0 : 0 ≤ u)
    (he0 : 0 ≤ e)
    (h1 : R * ((1 - u) * (1 - e)) ≤ p) (h2 : p ≤ R * ((1 + u) * (1 + e)))
    (hv : |v - (p - 1)| ≤ |p - 1| * u) :
    |v - r| ≤ (1 + r + |r|) * ((1 + u) ^ 2 * (1 + e) - 1) := by
  have ha : 0 ≤ |r| := abs_nonneg r
  have hue : 0 ≤ u * e := mul_nonneg hu0 he0
  have hpR : |p - R| ≤ R * ((1 + u) * (1 + e) - 1) := by
    rw [abs_le]
    constructor
    · have : 0 ≤ R * (u * e) := by positivity
      nlinarith
    · nlinarith
  have hp1 : |p - 1| ≤ |r| + R * ((1 + u) * (1 + e) - 1) := by
    have e1 : p - 1 = r + (p - R) := by rw [hRr]; ring
    rw [e1]
    exact le_trans (abs_add r (p - R)) (by linarith)
  have hvr : |v - r| ≤ |v - (p - 1)| + |p - R| := by
    have e1 : v - r = (v - (p - 1)) + (p - R) := by rw [hRr]; ring
    rw [e1]
    exact abs_add _ _
  have h3 : |p - 1| * u ≤ (|r| + R * ((1 + u) * (1 + e) - 1)) * u :=
    mul_le_mul_of_nonneg_right hp1 hu0
  have h4 : 0 ≤ R * u := by positivity
  have h5 : 0 ≤ |r| * ((1 + u) * (1 + e) - 1) := by
    apply mul_nonneg ha
    nlinarith
  have h6 : 0 ≤ |r| * u * ((1 + u) * (1 + e) - 1) := by
    apply mul_nonneg (mul_nonneg ha hu0)
    nlinarith
  rw [← hRr]
  nlinarith

theorem calculate_growth_rate_near (M : LibM) (hM : M.AnnexF) (i t iy ty : Int) (r : ℝ)
    (p eps : ℚ) (hi0 : 0 < i) (hi2 : i ≤ (INT_MAX : Int)) (ht0 : 0 < t)
    (ht2 : t ≤ (INT_MAX : Int)) (hy : iy < ty) (hy2 : ty - iy ≤ (INT_MAX : Int))
    (hr0 : 0 < 1 + r) (hr : (t : ℝ) = i * (1 + r) ^ (ty - iy).toNat)
    (he0 : 0 ≤ eps) (he1 : eps ≤ 1)
    (hp : M.pow (Double.div (Double.of_int t) (Double.of_int i))
      (Double.div (Double.num 1) (Double.of_int (ty - iy))) = Double.num p)
    (hp0 : 0 < p)
    (hacc1 : round_value ((t : ℚ) / i) * (1 - eps) ^ (ty - iy).toNat ≤ p ^ (ty - iy).toNat)
    (hacc2 : p ^ (ty - iy).toNat ≤ round_value ((t : ℚ) / i) * (1 + eps) ^ (ty - iy).toNat) :
    ∃ v : ℚ, calculate_growth_rate M i t iy ty = Outcome.ret (Double.num v)
      ∧ |(v : ℝ) - r| ≤ (1 + r + |r|) * ((growth_rate_tolerance eps : ℚ) : ℝ) := by
  obtain ⟨hdiv, hderr, hqhi⟩ := div_int_eq i t hi0 hi2 ht0 ht2
  have hy1 : INT_MIN ≤ ty - iy := by unfold INT_MIN; omega
  have hv : Representable p := by
    have h := hM.2.2 _ _ (div_isValue (Double.of_int t) (Double.of_int i))
      (div_isValue (Double.num 1) (Double.of_int (ty - iy)))
    rw [hp] at h
    exact h
  obtain ⟨z, hz⟩ := representable_grid_min hv
  obtain ⟨z1, hz1⟩ := representable_grid_min representable_one
  have herr2 : |round_value (p - 1) - (p - 1)| ≤ |p - 1| / 9007199254740992 := by
    apply round_value_rel_grid
    refine ⟨z - z1, ?_⟩
    rw [Int.cast_sub, sub_mul, ← hz, ← hz1]
  have hn : 0 < (ty - iy).toNat := by omega
  have hiR : (0 : ℝ) < i := by exact_mod_cast hi0
  have hQ : (1 + r) ^ (ty - iy).toNat = (t : ℝ) / i := by
    rw [hr]
    field_simp
  have hx : |((round_value ((t : ℚ) / i) : ℚ) : ℝ) - (t : ℝ) / i|
      ≤ (t : ℝ) / i * (1 / 9007199254740992) := by
    have h : ((|round_value ((t : ℚ) / i) - (t : ℚ) / i| : ℚ) : ℝ)
        ≤ (((t : ℚ) / i / 9007199254740992 : ℚ) : ℝ) := by exact_mod_cast hderr
    rw [Rat.cast_abs] at h
    push_cast at h
    rw [mul_one_div]
    exact h
  have h1 : ((round_value ((t : ℚ) / i) : ℚ) : ℝ) * (1 - (eps : ℝ)) ^ (ty - iy).toNat
      ≤ (p : ℝ) ^ (ty - iy).toNat := by exact_mod_cast hacc1
  have h2 : (p : ℝ) ^ (ty - iy).toNat
      ≤ ((round_value ((t : ℚ) / i) : ℚ) : ℝ) * (1 + (eps : ℝ)) ^ (ty - iy).toNat := by
    exact_mod_cast hacc2
  have he0R : (0 : ℝ) ≤ eps := by exact_mod_cast he0
  have he1R : (eps : ℝ) ≤ 1 := by exact_mod_cast he1
  have hp0R : (0 : ℝ) < p := by exact_mod_cast hp0
  obtain ⟨hb1, hb2⟩ := root_near (1 + r) ((t : ℝ) / i) _ (p : ℝ) (1 / 9007199254740992)
    (eps : ℝ) (ty - iy).toNat hn hr0 hQ (by norm_num) (by norm_num) he0R he1R hp0R hx h1 h2
  have hqhiR : (t : ℝ) / i ≤ 2147483647 := by
    have h : (((t : ℚ) / i : ℚ) : ℝ) ≤ ((2147483647 : ℚ) : ℝ) := by exact_mod_cast hqhi
    push_cast at h
    exact h
  have hRle := root_le (1 + r) ((t : ℝ) / i) (ty - iy).toNat hn hr0 hQ hqhiR
  have hpR : (p : ℝ) ≤ 8589934592 := by
    have h3 : (1 + 1 / 9007199254740992 : ℝ) * (1 + (eps : ℝ)) ≤ 4 := by nlinarith
    have h4 : (1 + r) * ((1 + 1 / 9007199254740992) * (1 + (eps : ℝ)))
        ≤ 2147483647 * 4 := by
      apply mul_le_mul hRle h3 (by positivity) (by norm_num)
    linarith
  have hpQ : p ≤ 8589934592 := by exact_mod_cast hpR
  have hsmall : |round_value (p - 1)| < 2 ^ 53 := by
    have hp1 : |p - 1| ≤ 8589934592 := by
      rw [abs_le]
      constructor <;> linarith
    rw [abs_le] at herr2
    rw [abs_lt]
    constructor <;> norm_num <;> linarith [herr2.1, herr2.2]
  refine ⟨round_value (p - 1), ?_, ?_⟩
  · rw [calculate_growth_rate_eq M i t iy ty hy1 hy2, of_int_one, hp]
    exact congrArg Outcome.ret (round_of_value rfl hsmall)
  · have hvR : |((round_value (p - 1) : ℚ) : ℝ) - ((p : ℝ) - 1)|
        ≤ |(p : ℝ) - 1| * (1 / 9007199254740992) := by
      have h : ((|round_value (p - 1) - (p - 1)| : ℚ) : ℝ)
          ≤ ((|p - 1| / 9007199254740992 : ℚ) : ℝ) := by exact_mod_cast herr2
      rw [Rat.cast_abs] at h
      push_cast at h
      rw [mul_one_div]
      exact h
    have h := tolerance_combine (1 + r) r (p : ℝ) _ (1 / 9007199254740992) (eps : ℝ) hr0 rfl
      (by norm_num) he0R hb1 hb2 hvR
    unfold growth_rate_tolerance
    push_cast
    exact h

theorem libm_roots_annexF : libm_roots.AnnexF := by
  refine ⟨?_, ?_, ?_⟩
  · intro y
    show pow_roots (Double.num 1) y = Double.num 1
    unfold pow_roots
    rw [if_neg (by rintro ⟨h, _⟩; have := Double.num.inj h; norm_num at this),
      if_neg (by rintro ⟨h, _⟩; have := Double.num.inj h; norm_num at this),
      if_neg (by rintro ⟨h, _⟩; have := Double.num.inj h; norm_num at this)]
    exact libm_sample_annexF.1 y
  · intro x
    show pow_roots x (Double.num 0) = Double.num 1
    unfold pow_roots
    rw [if_neg (by rintro ⟨_, h⟩; have := Double.num.inj h; norm_num at this),
      if_neg (by rintro ⟨_, h⟩; have := Double.num.inj h; norm_num at this),
      if_neg (by rintro ⟨_, h⟩; have := Double.num.inj h; norm_num at this)]
    exact libm_sample_annexF.2.1 x
  · intro x y hx hy
    show (pow_roots x y).IsValue
    unfold pow_roots
    split_ifs
    · have := representable_of_zpow 4953959590107546 (-52) (by norm_num) (by norm_num)
      show Representable _
      convert this using 1
      norm_num
    · have := representable_of_zpow 8827055269646172 (-53) (by norm_num) (by norm_num)
      show Representable _
      convert this using 1
      norm_num
    · have := representable_int 2 (by norm_num)
      show Representable _
      simpa using this
    · exact libm_sample_annexF.2.2 x y hx hy

theorem round_value_1331 :
    round_value (39930 / 30000) = 2997145552015065 / 2251799813685248 := by
  have h := round_value_eval (q := (39930 / 30000 : ℚ)) (e := 0) (k := 5994291104030130)
    (by rw [abs_of_pos (by norm_num)]; norm_num)
    (by rw [abs_of_pos (by norm_num)]; norm_num) (by norm_num)
    (by rw [abs_lt]; constructor <;> norm_num)
  rw [h]
  norm_num

theorem round_value_third :
    round_value (1 / 3) = 6004799503160661 / 18014398509481984 := by
  have h := round_value_eval (q := (1 / 3 : ℚ)) (e := -2) (k := 6004799503160661)
    (by rw [abs_of_pos (by norm_num)]; norm_num)
    (by rw [abs_of_pos (by norm_num)]; norm_num) (by norm_num)
    (by rw [abs_lt]; constructor <;> norm_num)
  rw [h]
  norm_num

theorem round_value_9604 :
    round_value (24010 / 25000) = 8650514164253249 / 9007199254740992 := by
  have h := round_value_eval (q := (24010 / 25000 : ℚ)) (e := -1) (k := 8650514164253249)
    (by rw [abs_of_pos (by norm_num)]; norm_num)
    (by rw [abs_of_pos (by norm_num)]; norm_num) (by norm_num)
    (by rw [abs_lt]; constructor <;> norm_num)
  rw [h]
  norm_num

theorem div_num_eq (a b v : ℚ) (hb : b ≠ 0) (hv : round_value (a / b) = v)
    (hs : |v| < 2 ^ 53) : Double.div (Double.num a) (Double.num b) = Double.num v := by
  show (if b = 0 then _ else Double.round (a / b)) = _
  rw [if_neg hb]
  exact round_of_value hv hs

theorem pow_roots_cube :
    libm_roots.pow (Double.div (Double.of_int 39930) (Double.of_int 30000))
        (Double.div (Double.num 1) (Double.of_int (2033 - 2030)))
      = Double.num (2476979795053773 / 2251799813685248) := by
  have h1 : Double.of_int 39930 = Double.num 39930 := by
    have := of_int_eq 39930 (by norm_num)
    simpa using this
  have h2 : Double.of_int 30000 = Double.num 30000 := by
    have := of_int_eq 30000 (by norm_num)
    simpa using this
  have h3 : Double.of_int (2033 - 2030) = Double.num 3 := by
    have := of_int_eq 3 (by norm_num)
    simpa using this
  rw [h1, h2, h3, div_num_eq 39930 30000 _ (by norm_num) round_value_1331
      (by rw [abs_of_pos (by norm_num)]; norm_num),
    div_num_eq 1 3 _ (by norm_num) round_value_third
      (by rw [abs_of_pos (by norm_num)]; norm_num)]
  show pow_roots _ _ = _
  unfold pow_roots
  rw [if_pos ⟨rfl, rfl⟩]

theorem pow_roots_square :
    libm_roots.pow (Double.div (Double.of_int 24010) (Double.of_int 25000))
        (Double.div (Double.num 1) (Double.of_int (2026 - 2024)))
      = Double.num (2206763817411543 / 2251799813685248) := by
  have h1 : Double.of_int 24010 = Double.num 24010 := by
    have := of_int_eq 24010 (by norm_num)
    simpa using this
  have h2 : Double.of_int 25000 = Double.num 25000 := by
    have := of_int_eq 25000 (by norm_num)
    simpa using this
  have h3 : Double.of_int (2026 - 2024) = Double.num 2 := by
    have := of_int_eq 2 (by norm_num)
    simpa using this
  have hhalf : round_value (1 / 2) = 1 / 2 := by
    have h := round_value_eval (q := (1 / 2 : ℚ)) (e := -1) (k := 4503599627370496)
      (by rw [abs_of_pos (by norm_num)]; norm_num)
      (by rw [abs_of_pos (by norm_num)]; norm_num) (by norm_num)
      (by rw [abs_lt]; constructor <;> norm_num)
    rw [h]
    norm_num
  rw [h1, h2, h3, div_num_eq 24010 25000 _ (by norm_num) round_value_9604
      (by rw [abs_of_pos (by norm_num)]; norm_num),
    div_num_eq 1 2 _ (by norm_num) hhalf (by rw [abs_of_pos (by norm_num)]; norm_num)]
  show pow_roots _ _ = _
  unfold pow_roots
  rw [if_neg (by rintro ⟨h, _⟩; have := Double.num.inj h; norm_num at this),
    if_pos ⟨rfl, rfl⟩]

theorem growth_rate_tenth (M : LibM) (hM : M.AnnexF) (q : ℚ)
    (hq : M.pow (Double.div (Double.of_int 39930) (Double.of_int 30000))
      (Double.div (Double.num 1) (Double.of_int (2033 - 2030))) = Double.num q)
    (hq0 : 0 < q)
    (h1 : round_value (39930 / 30000) * (1 - 1 / 4503599627370496) ^ 3 ≤ q ^ 3)
    (h2 : q ^ 3 ≤ round_value (39930 / 30000) * (1 + 1 / 4503599627370496) ^ 3) :
    ∃ v : ℚ, calculate_growth_rate M 30000 39930 2030 2033 = Outcome.ret (Double.num v)
      ∧ |v - 1 / 10| ≤ 1 / 1000000000000000 := by
  have e : (((39930 : ℤ) : ℚ) / ((30000 : ℤ) : ℚ)) = 39930 / 30000 := by norm_num
  have hn : (2033 - 2030 : ℤ).toNat = 3 := rfl
  obtain ⟨v, hv, hb⟩ := calculate_growth_rate_near M hM 30000 39930 2030 2033 (1 / 10) q
    (1 / 4503599627370496) (by norm_num) (by norm_num [INT_MAX]) (by norm_num)
    (by norm_num [INT_MAX]) (by norm_num) (by norm_num [INT_MAX]) (by norm_num)
    (by rw [hn]; norm_num) (by norm_num) (by norm_num) hq hq0
    (by rw [e, hn]; exact h1) (by rw [e, hn]; exact h2)
  refine ⟨v, hv, ?_⟩
  have hb2 : |(v : ℝ) - 1 / 10| ≤ 1 / 1000000000000000 := by
    refine le_trans hb ?_
    rw [abs_of_pos (by norm_num : (0 : ℝ) < 1 / 10)]
    norm_num [growth_rate_tolerance]
  have hb3 : ((|v - 1 / 10| : ℚ) : ℝ) ≤ ((1 / 1000000000000000 : ℚ) : ℝ) := by
    rw [Rat.cast_abs]
    push_cast
    exact hb2
  exact_mod_cast hb3

theorem growth_rate_fiftieth (M : LibM) (hM : M.AnnexF) (q : ℚ)
    (hq : M.pow (Double.div (Double.of_int 24010) (Double.of_int 25000))
      (Double.div (Double.num 1) (Double.of_int (2026 - 2024))) = Double.num q)
    (hq0 : 0 < q)
    (h1 : round_value (24010 / 25000) * (1 - 1 / 4503599627370496) ^ 2 ≤ q ^ 2)
    (h2 : q ^ 2 ≤ round_value (24010 / 25000) * (1 + 1 / 4503599627370496) ^ 2) :
    ∃ v : ℚ, calculate_growth_rate M 25000 24010 2024 2026 = Outcome.ret (Double.num v)
      ∧ |v - -(2 / 100)| ≤ 1 / 1000000000000000 := by
  have e : (((24010 : ℤ) : ℚ) / ((25000 : ℤ) : ℚ)) = 24010 / 25000 := by norm_num
  have hn : (2026 - 2024 : ℤ).toNat = 2 := rfl
  obtain ⟨v, hv, hb⟩ := calculate_growth_rate_near M hM 25000 24010 2024 2026 (-(2 / 100)) q
    (1 / 4503599627370496) (by norm_num) (by norm_num [INT_MAX]) (by norm_num)
    (by norm_num [INT_MAX]) (by norm_num) (by norm_num [INT_MAX]) (by norm_num)
    (by rw [hn]; norm_num) (by norm_num) (by norm_num) hq hq0
    (by rw [e, hn]; exact h1) (by rw [e, hn]; exact h2)
  refine ⟨v, hv, ?_⟩
  have hb2 : |(v : ℝ) - -(2 / 100)| ≤ 1 / 1000000000000000 := by
    refine le_trans hb ?_
    rw [abs_of_neg (by norm_num : (-(2 / 100) : ℝ) < 0)]
    norm_num [growth_rate_tolerance]
  have hb3 : ((|v - -(2 / 100)| : ℚ) : ℝ) ≤ ((1 / 1000000000000000 : ℚ) : ℝ) := by
    rw [Rat.cast_abs]
    push_cast
    exact hb2
  exact_mod_cast hb3

/-- With the square root of 4 a number that is not negative, the result for
(1, 4, 2020, 2022) is not -3: it is at least -(1 + 2^-53). -/
theorem growth_rate_negative_root (M : LibM) (hM : M.AnnexF) (p : ℚ)
    (hp : M.pow (Double.div (Double.of_int 4) (Double.of_int 1))
      (Double.div (Double.num 1) (Double.of_int (2022 - 2020))) = Double.num p)
    (hp0 : 0 ≤ p) :
    calculate_growth_rate M 1 4 2020 2022 ≠ Outcome.ret (Double.num (-3)) := by
  have hv : Representable p := by
    have h := hM.2.2 _ _ (div_isValue (Double.of_int 4) (Double.of_int 1))
      (div_isValue (Double.num 1) (Double.of_int (2022 - 2020)))
    rw [hp] at h
    exact h
  obtain ⟨z, hz⟩ := representable_grid_min hv
  obtain ⟨z1, hz1⟩ := representable_grid_min representable_one
  have herr : |round_value (p - 1) - (p - 1)| ≤ |p - 1| / 9007199254740992 := by
    apply round_value_rel_grid
    refine ⟨z - z1, ?_⟩
    rw [Int.cast_sub, sub_mul, ← hz, ← hz1]
  rw [calculate_growth_rate_eq M 1 4 2020 2022 (by norm_num [INT_MIN]) (by norm_num [INT_MAX]),
    hp, of_int_one]
  intro h
  have h2 : Double.round (p - 1) = Double.num (-3) := Outcome.ret.inj h
  have h3 : round_value (p - 1) = -3 := by
    by_contra hne
    exact round_ne_num hne h2
  rw [h3, abs_le] at herr
  rcases le_or_lt 0 (p - 1) with h4 | h4
  · rw [abs_of_nonneg h4] at herr
    linarith [herr.1, herr.2]
  · rw [abs_of_neg h4] at herr
    linarith [herr.1, herr.2]

theorem pow_roots_four :
    libm_roots.pow (Double.div (Double.of_int 4) (Double.of_int 1))
        (Double.div (Double.num 1) (Double.of_int (2022 - 2020))) = Double.num 2 := by
  have h1 : Double.of_int 4 = Double.num 4 := by
    have := of_int_eq 4 (by norm_num)
    simpa using this
  have h3 : Double.of_int (2022 - 2020) = Double.num 2 := by
    have := of_int_eq 2 (by norm_num)
    simpa using this
  have hhalf : round_value (1 / 2) = 1 / 2 := by
    have h := round_value_eval (q := (1 / 2 : ℚ)) (e := -1) (k := 4503599627370496)
      (by rw [abs_of_pos (by norm_num)]; norm_num)
      (by rw [abs_of_pos (by norm_num)]; norm_num) (by norm_num)
      (by rw [abs_lt]; constructor <;> norm_num)
    rw [h]
    norm_num
  have hfour : round_value (4 / 1) = 4 := by
    have h := round_value_eval (q := (4 / 1 : ℚ)) (e := 2) (k := 4503599627370496)
      (by rw [abs_of_pos (by norm_num)]; norm_num)
      (by rw [abs_of_pos (by norm_num)]; norm_num) (by norm_num)
      (by rw [abs_lt]; constructor <;> norm_num)
    rw [h]
    norm_num
  rw [h1, of_int_one, h3, div_num_eq 4 1 _ (by norm_num) hfour
      (by rw [abs_of_pos (by norm_num)]; norm_num),
    div_num_eq 1 2 _ (by norm_num) hhalf (by rw [abs_of_pos (by norm_num)]; norm_num)]
  show pow_roots _ _ = _
  unfold pow_roots
  rw [if_neg (by rintro ⟨h, _⟩; have := Double.num.inj h; norm_num at this),
    if_neg (by rintro ⟨h, _⟩; have := Double.num.inj h; norm_num at this),
    if_pos ⟨rfl, rfl⟩]

theorem growth_rate_roots_values :
    calculate_growth_rate libm_roots 30000 39930 2030 2033
        = Outcome.ret (Double.num (225179981368525 / 2251799813685248))
      ∧ calculate_growth_rate libm_roots 25000 24010 2024 2026
        = Outcome.ret (Double.num (-(45035996273705 / 2251799813685248)))
      ∧ calculate_growth_rate libm_roots 1 4 2020 2022 = Outcome.ret (Double.num 1) := by
  have r1 : Representable (2476979795053773 / 2251799813685248) := by
    have := libm_roots_annexF.2.2 _ _
      (div_isValue (Double.of_int 39930) (Double.of_int 30000))
      (div_isValue (Double.num 1) (Double.of_int (2033 - 2030)))
    rw [pow_roots_cube] at this
    exact this
  have r2 : Representable (2206763817411543 / 2251799813685248) := by
    have := libm_roots_annexF.2.2 _ _
      (div_isValue (Double.of_int 24010) (Double.of_int 25000))
      (div_isValue (Double.num 1) (Double.of_int (2026 - 2024)))
    rw [pow_roots_square] at this
    exact this
  have r3 : Representable 2 := by
    have := representable_int 2 (by norm_num)
    simpa using this
  refine ⟨?_, ?_, ?_⟩
  · rw [calculate_growth_rate_eq _ 30000 39930 2030 2033 (by norm_num [INT_MIN])
      (by norm_num [INT_MAX]), of_int_one, pow_roots_cube,
      sub_one_exact r1 (by norm_num) (by norm_num)]
    norm_num
  · rw [calculate_growth_rate_eq _ 25000 24010 2024 2026 (by norm_num [INT_MIN])
      (by norm_num [INT_MAX]), of_int_one, pow_roots_square,
      sub_one_exact r2 (by norm_num) (by norm_num)]
    norm_num
  · rw [calculate_growth_rate_eq _ 1 4 2020 2022 (by norm_num [INT_MIN])
      (by norm_num [INT_MAX]), pow_roots_four, of_int_one,
      sub_one_exact r3 (by norm_num) (by norm_num)]
    norm_num

/-- Counterexample to C22. Whatever `pow` returns, the result for
(30000, 39930, 2030, 2033) is not 0.1, neither the double that the literal
denotes nor the number 1/10, and the result for (25000, 24010, 2024, 2026) is
not -0.02: the results of the subtraction `pow(...) - 1` that lie near them
are multiples of `2^-52` and of `2^-53`, which these numbers are not; with the
sample `pow` that returns the doubles nearest to 1.1 and 0.98 the results are
`225179981368525 / 2^51` and `-45035996273705 / 2^51`. And of the two rates `r`
with `4 = 1 * (1 + r) ^ 2`, which are 1 and -3, the function returns 1 for
(1, 4, 2020, 2022), and never -3 when the root that `pow` returns is not
negative. -/
theorem growth_rate_not_exact :
    (libm_sample.AnnexF ∧ libm_roots.AnnexF)
      ∧ (∀ M : LibM, M.AnnexF →
        calculate_growth_rate M 30000 39930 2030 2033 ≠ Outcome.ret lit_0_1
          ∧ calculate_growth_rate M 30000 39930 2030 2033 ≠ Outcome.ret (Double.num (1 / 10))
          ∧ calculate_growth_rate M 25000 24010 2024 2026 ≠ Outcome.ret lit_neg_0_02
          ∧ calculate_growth_rate M 25000 24010 2024 2026
            ≠ Outcome.ret (Double.num (-(1 / 50))))
      ∧ ((39930 : ℚ) = 30000 * (1 + 1 / 10) ^ 3
        ∧ calculate_growth_rate libm_roots 30000 39930 2030 2033
          = Outcome.ret (Double.num (225179981368525 / 2251799813685248)))
      ∧ ((24010 : ℚ) = 25000 * (1 + -(1 / 50)) ^ 2
        ∧ calculate_growth_rate libm_roots 25000 24010 2024 2026
          = Outcome.ret (Double.num (-(45035996273705 / 2251799813685248))))
      ∧ ((4 : ℚ) = 1 * (1 + -3) ^ 2
        ∧ calculate_growth_rate libm_roots 1 4 2020 2022 = Outcome.ret (Double.num 1))
      ∧ ∀ (M : LibM) (p : ℚ), M.AnnexF →
          M.pow (Double.div (Double.of_int 4) (Double.of_int 1))
            (Double.div (Double.num 1) (Double.of_int (2022 - 2020))) = Double.num p →
          0 ≤ p → calculate_growth_rate M 1 4 2020 2022 ≠ Outcome.ret (Double.num (-3)) :=
  ⟨⟨libm_sample_annexF, libm_roots_annexF⟩, growth_rate_examples_ne,
    ⟨by norm_num, growth_rate_roots_values.1⟩, ⟨by norm_num, growth_rate_roots_values.2.1⟩,
    ⟨by norm_num, growth_rate_roots_values.2.2⟩,
    fun M p hM hp hp0 => growth_rate_negative_root M hM p hp hp0⟩

/-- C22 as amended: calculate_growth_rate inverts compound growth up to the accuracy
of double arithmetic. For positive int enrollments `i` and `t`, years `iy < ty`
whose difference `n` fits an int, and a real rate `r` with `0 < 1 + r` and
`t = i * (1 + r) ^ n`: if `pow` (a C library function meeting Annex F) returns a
positive `p` whose `n`-th power lies between `x * (1 - eps) ^ n` and
`x * (1 + eps) ^ n`, where `x` is the double nearest to `t / i` and
`0 ≤ eps ≤ 1` (so `p` is within the relative error `eps` of the `n`-th root of
`x`), then the result is a double `v` with
`|v - r| ≤ (1 + r + |r|) * ((1 + 2^-53)^2 * (1 + eps) - 1)`. For equal enrollments
the result is exactly 0.0, in particular for (30000, 30000, 2022, 2023); and when
`pow` has the relative error `2^-52` at most in this sense, the result for
(30000, 39930, 2030, 2033) is within `10^-15` of 0.1 and the result for
(25000, 24010, 2024, 2026) is within `10^-15` of -0.02. -/
theorem calculate_growth_rate_inverts (M : LibM) (hM : M.AnnexF) (i t iy ty : Int) (r : ℝ)
    (p eps : ℚ) (hi0 : 0 < i) (hi2 : i ≤ (INT_MAX : Int)) (ht0 : 0 < t)
    (ht2 : t ≤ (INT_MAX : Int)) (hy : iy < ty) (hy2 : ty - iy ≤ (INT_MAX : Int))
    (hr0 : 0 < 1 + r) (hr : (t : ℝ) = i * (1 + r) ^ (ty - iy).toNat)
    (he0 : 0 ≤ eps) (he1 : eps ≤ 1)
    (hp : M.pow (Double.div (Double.of_int t) (Double.of_int i))
      (Double.div (Double.num 1) (Double.of_int (ty - iy))) = Double.num p)
    (hp0 : 0 < p)
    (hacc1 : round_value ((t : ℚ) / i) * (1 - eps) ^ (ty - iy).toNat ≤ p ^ (ty - iy).toNat)
    (hacc2 : p ^ (ty - iy).toNat ≤ round_value ((t : ℚ) / i) * (1 + eps) ^ (ty - iy).toNat) :
    (∃ v : ℚ, calculate_growth_rate M i t iy ty = Outcome.ret (Double.num v)
        ∧ |(v : ℝ) - r| ≤ (1 + r + |r|) * ((growth_rate_tolerance eps : ℚ) : ℝ))
      ∧ calculate_growth_rate M i i iy ty = Outcome.ret (Double.num 0)
      ∧ calculate_growth_rate M 30000 30000 2022 2023 = Outcome.ret (Double.num 0)
      ∧ (∀ q : ℚ,
          M.pow (Double.div (Double.of_int 39930) (Double.of_int 30000))
            (Double.div (Double.num 1) (Double.of_int (2033 - 2030))) = Double.num q →
          0 < q →
          round_value (39930 / 30000) * (1 - 1 / 4503599627370496) ^ 3 ≤ q ^ 3 →
          q ^ 3 ≤ round_value (39930 / 30000) * (1 + 1 / 4503599627370496) ^ 3 →
          ∃ v : ℚ, calculate_growth_rate M 30000 39930 2030 2033 = Outcome.ret (Double.num v)
            ∧ |v - 1 / 10| ≤ 1 / 1000000000000000)
      ∧ (∀ q : ℚ,
          M.pow (Double.div (Double.of_int 24010) (Double.of_int 25000))
            (Double.div (Double.num 1) (Double.of_int (2026 - 2024))) = Double.num q →
          0 < q →
          round_value (24010 / 25000) * (1 - 1 / 4503599627370496) ^ 2 ≤ q ^ 2 →
          q ^ 2 ≤ round_value (24010 / 25000) * (1 + 1 / 4503599627370496) ^ 2 →
          ∃ v : ℚ, calculate_growth_rate M 25000 24010 2024 2026 = Outcome.ret (Double.num v)
            ∧ |v - -(2 / 100)| ≤ 1 / 1000000000000000) :=
  ⟨calculate_growth_rate_near M hM i t iy ty r p eps hi0 hi2 ht0 ht2 hy hy2 hr0 hr he0 he1 hp
      hp0 hacc1 hacc2,
    growth_rate_equal M hM i iy ty (by unfold INT_MIN; omega) hi2 (by omega)
      (by unfold INT_MIN; omega) hy2,
    growth_rate_equal M hM 30000 2022 2023 (by norm_num [INT_MIN]) (by norm_num [INT_MAX])
      (by norm_num) (by norm_num [INT_MIN]) (by norm_num [INT_MAX]),
    fun q hq hq0 h1 h2 => growth_rate_tenth M hM q hq hq0 h1 h2,
    fun q hq hq0 h1 h2 => growth_rate_fiftieth M hM q hq hq0 h1 h2⟩

/-- Witness of C22 as amended, with the sample `pow` that returns the doubles
nearest to 1.1 and 0.98 for the two roots of the examples. -/
theorem calculate_growth_rate_inverts_witness :
    (∃ v : ℚ, calculate_growth_rate libm_roots 30000 39930 2030 2033
          = Outcome.ret (Double.num v)
        ∧ |(v : ℝ) - 1 / 10| ≤ (1 + 1 / 10 + |(1 / 10 : ℝ)|)
            * ((growth_rate_tolerance (1 / 4503599627370496) : ℚ) : ℝ))
      ∧ (∃ v : ℚ, calculate_growth_rate libm_roots 30000 39930 2030 2033
          = Outcome.ret (Double.num v) ∧ |v - 1 / 10| ≤ 1 / 1000000000000000)
      ∧ (∃ v : ℚ, calculate_growth_rate libm_roots 25000 24010 2024 2026
          = Outcome.ret (Double.num v) ∧ |v - -(2 / 100)| ≤ 1 / 1000000000000000)
      ∧ calculate_growth_rate libm_roots 30000 30000 2022 2023
        = Outcome.ret (Double.num 0) := by
  have e : (((39930 : ℤ) : ℚ) / ((30000 : ℤ) : ℚ)) = 39930 / 30000 := by norm_num
  have hn : (2033 - 2030 : ℤ).toNat = 3 := rfl
  have h := calculate_growth_rate_inverts libm_roots libm_roots_annexF 30000 39930 2030 2033
    (1 / 10) (2476979795053773 / 2251799813685248) (1 / 4503599627370496)
    (by norm_num) (by norm_num [INT_MAX]) (by norm_num) (by norm_num [INT_MAX])
    (by norm_num) (by norm_num [INT_MAX]) (by norm_num) (by rw [hn]; norm_num)
    (by norm_num) (by norm_num) pow_roots_cube (by norm_num)
    (by rw [e, hn, round_value_1331]; norm_num)
    (by rw [e, hn, round_value_1331]; norm_num)
  refine ⟨h.1, ?_, ?_, h.2.2.1⟩
  · exact h.2.2.2.1 _ pow_roots_cube (by norm_num)
      (by rw [round_value_1331]; norm_num) (by rw [round_value_1331]; norm_num)
  · exact h.2.2.2.2 _ pow_roots_square (by norm_num)
      (by rw [round_value_9604]; norm_num) (by rw [round_value_9604]; norm_num)

end CTest
